import Mathlib

/-!
# Verification development for the proxy core (cryptdb / mysql-proxy sources)

Shallow embedding of

* `network-conn-pool.c`  (connection pool),
* `network-packet.c`     (seekable packet view),
* `network-asn1.c`       (ASN.1 DER sub-decoder),
* `network-queue.c`      (packet buffer: a queue of chunks),
* `network-backend.c`    (backend registry),
* `network-mysqld-table.c` (names of the column types),
* `chassis-shutdown-hooks.c` (shutdown hooks),
* `chassis_log_backend.c`, `chassis_log_domain.c` (log formatter)

followed by the theorems about them.

Conventions.  Pointers are modelled by the value they point to together with an
address where identity matters.  A `GHashTable` is an association list holding
every key at most once; its iteration order (which GLib leaves unspecified) is
the order of the list, and a key that is inserted is put at the end.  A `GQueue`
is a list whose head is the head of the queue.
-/

namespace Proxy

/-! ## network-conn-pool.c -/

/-- The part of a `network_socket` the pool looks at: the identity of the socket
and `sock->response->username`. -/
structure network_socket where
  fd : Nat
  username : String
deriving DecidableEq, Repr

/-- A `network_connection_pool_entry`: its own address (the pool compares entries
by pointer), the socket and the time it was added.  The back pointer `pool` is
left out, there is one pool. -/
structure network_connection_pool_entry where
  addr : Nat
  sock : network_socket
  added_ts : Nat
deriving DecidableEq, Repr

abbrev GQueue := List network_connection_pool_entry

abbrev GHashTable := List (String × GQueue)

/-- A `network_connection_pool`: `users` and `min_idle_connections`. -/
structure network_connection_pool where
  users : GHashTable
  min_idle_connections : Nat
deriving DecidableEq, Repr

/-- The keys of the table, in iteration order. -/
def GHashTable.keys (t : GHashTable) : List String := t.map Prod.fst

/-- A hash table holds a key at most once. -/
def GHashTable.wf (t : GHashTable) : Prop := t.keys.Nodup

instance (t : GHashTable) : Decidable t.wf := by
  unfold GHashTable.wf; infer_instance

/-- Model of `g_hash_table_lookup`. -/
def g_hash_table_lookup : GHashTable → String → Option GQueue
  | [], _ => none
  | (k, q) :: t, key => if k = key then some q else g_hash_table_lookup t key

/-- Model of `g_hash_table_find`: the value of the first pair, in iteration order, the
predicate accepts.  The key is returned with it: it stands for the pointer to
the queue, which the caller goes on to modify in place. -/
def g_hash_table_find : GHashTable → (String → GQueue → Bool) → Option (String × GQueue)
  | [], _ => none
  | (k, q) :: t, pred => if pred k q then some (k, q) else g_hash_table_find t pred

/-- Write a queue that was modified in place back under its key. -/
def g_hash_table_store : GHashTable → String → GQueue → GHashTable
  | [], _, _ => []
  | (k, q) :: t, key, q' =>
    if k = key then (k, q') :: t else (k, q) :: g_hash_table_store t key q'

/-- Model of `g_hash_table_insert` of a key that is not in the table. -/
def g_hash_table_insert (t : GHashTable) (key : String) (q : GQueue) : GHashTable :=
  t ++ [(key, q)]

/-- Model of `g_queue_free_all`, the value destructor of `users`: every entry of the queue
is freed with `free_sock = TRUE`; the result lists the sockets that were freed. -/
def g_queue_free_all (q : GQueue) : List network_socket := q.map (fun e => e.sock)

/-- Model of `g_hash_table_remove`: drops the pair stored under `key`, if there is one, and
runs the value destructor on its queue.  Returns the table and the sockets freed. -/
def g_hash_table_remove : GHashTable → String → GHashTable × List network_socket
  | [], _ => ([], [])
  | (k, q) :: t, key =>
    if k = key then (t, g_queue_free_all q)
    else ((k, q) :: (g_hash_table_remove t key).1, (g_hash_table_remove t key).2)

/-- Model of `g_queue_remove`: removes the first element that is the given entry (pointer
comparison). -/
def g_queue_remove (q : GQueue) (entry : network_connection_pool_entry) : GQueue :=
  q.eraseP (fun e => e.addr == entry.addr)

/-- Model of `network_connection_pool_new`: `g_new0` leaves `min_idle_connections` at 0. -/
def network_connection_pool_new : network_connection_pool :=
  { users := [], min_idle_connections := 0 }

/-- Model of `find_idle_conns`. -/
def find_idle_conns (min_idle_conns : Nat) (_key : String) (conns : GQueue) : Bool :=
  decide (conns.length > min_idle_conns)

/-- Model of `network_connection_pool_get_conns`.  The queue is returned with the key it is
stored under. -/
def network_connection_pool_get_conns (pool : network_connection_pool) (username : String) :
    Option (String × GQueue) :=
  match (if username.length > 0 then g_hash_table_lookup pool.users username else none) with
  | some conns => some (username, conns)
  | none => g_hash_table_find pool.users (find_idle_conns pool.min_idle_connections)

/-- What a call of `network_connection_pool_get` leaves behind. -/
structure get_result where
  sock : Option network_socket
  pool : network_connection_pool
  freed : List network_socket
deriving DecidableEq, Repr

/-- Model of `network_connection_pool_get`. -/
def network_connection_pool_get (pool : network_connection_pool) (username : String) :
    get_result :=
  match network_connection_pool_get_conns pool username with
  | none => { sock := none, pool := pool, freed := [] }
  | some (k, conns) =>
    -- entry = g_queue_pop_head(conns)
    let entry := conns.head?
    let users1 := g_hash_table_store pool.users k conns.tail
    -- if (conns->length == 0) g_hash_table_remove(pool->users, username)
    let removed := if conns.tail.length = 0 then g_hash_table_remove users1 username
                   else (users1, [])
    { sock := entry.map (fun e => e.sock),
      pool := { pool with users := removed.1 },
      freed := removed.2 }

/-- Model of `network_connection_pool_add`.  `addr` is the address `g_new0` hands out for
the entry and `now` the reading of `g_get_current_time`. -/
def network_connection_pool_add (pool : network_connection_pool) (sock : network_socket)
    (addr now : Nat) : network_connection_pool_entry × network_connection_pool :=
  let entry : network_connection_pool_entry := { addr := addr, sock := sock, added_ts := now }
  match g_hash_table_lookup pool.users sock.username with
  | none =>
    (entry, { pool with users := g_hash_table_insert pool.users sock.username [entry] })
  | some conns =>
    (entry, { pool with users := g_hash_table_store pool.users sock.username (conns ++ [entry]) })

/-- Model of `network_connection_pool_remove`.  Returns the pool and the sockets freed. -/
def network_connection_pool_remove (pool : network_connection_pool)
    (entry : network_connection_pool_entry) : network_connection_pool × List network_socket :=
  match g_hash_table_lookup pool.users entry.sock.username with
  | none => (pool, [])
  | some conns =>
    ({ pool with users :=
          g_hash_table_store pool.users entry.sock.username (g_queue_remove conns entry) },
      [entry.sock])

/-! ## network-packet.c

`gsize` is taken to be 64 bits wide.  Offsets and lengths that are bounded by the
length of the data are plain naturals; where the C arithmetic can wrap the
reduction modulo `2 ^ 64` is written out. -/

/-- A `network_packet`: the bytes of `data` (`data->len` is the length of the
list) and the read offset. -/
structure network_packet where
  data : List UInt8
  offset : Nat
deriving DecidableEq, Repr

/-- Model of `network_packet_has_more_data`. -/
def network_packet_has_more_data (packet : network_packet) (len : Nat) : Bool :=
  if packet.offset > packet.data.length then false
  else if len > packet.data.length - packet.offset then false
  else true

/-- Model of `network_packet_skip`: the return value and the packet afterwards. -/
def network_packet_skip (packet : network_packet) (len : Nat) : Bool × network_packet :=
  if !network_packet_has_more_data packet len then (false, packet)
  else (true, { packet with offset := packet.offset + len })

/-- Model of `network_packet_peek_data`: `none` for `FALSE`, otherwise the bytes copied to
`dst`. -/
def network_packet_peek_data (packet : network_packet) (len : Nat) : Option (List UInt8) :=
  if !network_packet_has_more_data packet len then none
  else some ((packet.data.drop packet.offset).take len)

/-- Model of `network_packet_get_data`: `none` for `FALSE`, otherwise the bytes copied to
`dst` and the packet afterwards. -/
def network_packet_get_data (packet : network_packet) (len : Nat) :
    Option (List UInt8 × network_packet) :=
  match network_packet_peek_data packet len with
  | none => none
  | some dst => some (dst, { packet with offset := packet.offset + len })

/-! ## network-asn1.c -/

/-- The error codes of the `NETWORK_ASN1_ERROR` domain. -/
inductive network_asn1_error where
  | EOF
  | INVALID
  | UNSUPPORTED
deriving DecidableEq, Repr

/-- An `ASN1Identifier`. -/
structure ASN1Identifier where
  klass : Nat
  type : Nat
  value : Nat
deriving DecidableEq, Repr

/-- Modelled from the spec: `network-asn1.h` is not among the sources.  The class
of an identifier is bits 7-6 of the identifier byte; the spec lists the classes
as universal, application, context-specific, private, which are 0, 1, 2, 3. -/
def ASN1_IDENTIFIER_KLASS_UNIVERSAL : Nat := 0

/-- Modelled from the spec: see `ASN1_IDENTIFIER_KLASS_UNIVERSAL`. -/
def ASN1_IDENTIFIER_KLASS_APPLICATION : Nat := 1

/-- Modelled from the spec: see `ASN1_IDENTIFIER_KLASS_UNIVERSAL`. -/
def ASN1_IDENTIFIER_KLASS_CONTEXT_SPECIFIC : Nat := 2

/-- Modelled from the spec: see `ASN1_IDENTIFIER_KLASS_UNIVERSAL`. -/
def ASN1_IDENTIFIER_KLASS_PRIVATE : Nat := 3

/-- Modelled from the spec: `network-asn1.h` is not among the sources; the spec
gives the universal SEQUENCE tag as 0x10. -/
def ASN1_IDENTIFIER_UNIVERSAL_SEQUENCE : Nat := 0x10

/-- How a call of one of the decoder functions ends: it returns `TRUE` with its
out-parameter, it returns `FALSE` with `gerr` set, or a `g_assert` fails and the
process is aborted.  The packet is the packet as the call leaves it. -/
inductive asn1_ret (α : Type) where
  | ok (v : α) (packet : network_packet)
  | fail (e : network_asn1_error) (packet : network_packet)
  | assert_failed
deriving DecidableEq, Repr

/-- Model of `network_asn1_proto_get_id`. -/
def network_asn1_proto_get_id (packet : network_packet) : asn1_ret ASN1Identifier :=
  match network_packet_get_data packet 1 with
  | none => .fail .EOF packet
  | some (dst, p1) =>
    let b := (dst.headD 0).toNat
    let v := b &&& 0x1f
    if v = 0x1f then .fail .UNSUPPORTED p1
    else .ok { klass := (b >>> 6) &&& 0x3, type := (b >>> 5) &&& 0x1, value := v } p1

/-- The loop of `network_asn1_proto_get_length` over `len_bytes`, on a `guint64`. -/
def get_length_for (len_bytes : List UInt8) : Nat :=
  len_bytes.foldl (fun len x => ((len <<< 8) % 2 ^ 64) ||| x.toNat) 0

/-- Model of `network_asn1_proto_get_length`.  `sizeof(len_bytes)` is 8. -/
def network_asn1_proto_get_length (packet : network_packet) : asn1_ret Nat :=
  match network_packet_get_data packet 1 with
  | none => .fail .EOF packet
  | some (dst, p1) =>
    let b := (dst.headD 0).toNat
    if b &&& 0x80 ≠ 0 then
      let len_len := b &&& 0x7f
      if len_len = 0 then .fail .INVALID p1
      else if len_len > 8 then .fail .UNSUPPORTED p1
      -- g_assert_cmpint(len_len, <, sizeof(len_bytes))
      else if ¬ (len_len < 8) then .assert_failed
      else
        match network_packet_get_data p1 len_len with
        | none => .fail .EOF p1
        | some (len_bytes, p2) => .ok (get_length_for len_bytes) p2
    else .ok b p1

/-- Model of `network_asn1_proto_get_header`. -/
def network_asn1_proto_get_header (packet : network_packet) :
    asn1_ret (ASN1Identifier × Nat) :=
  match network_asn1_proto_get_id packet with
  | .assert_failed => .assert_failed
  | .fail e p => .fail e p
  | .ok id p1 =>
    match network_asn1_proto_get_length p1 with
    | .assert_failed => .assert_failed
    | .fail e p => .fail e p
    | .ok len p2 => .ok (id, len) p2

/-- The `for` loop of `network_asn1_proto_get_oid` that collects the continuation
bytes of one segment.  Returns the last byte read and `n`.  The loop is left
after at most eleven tests of `b & 0x80`; `none` stands for a run that needs more
steps than `fuel`. -/
def get_oid_for : Nat → Nat → Nat → Nat → network_packet → Option (asn1_ret (Nat × Nat))
  | 0, _, _, _, _ => none
  | fuel + 1, b, n, rounds, packet =>
    if b &&& 0x80 ≠ 0 then
      if rounds > 9 then some (.fail .EOF packet)
      else
        let n1 := ((n <<< 7) % 2 ^ 64) ||| (b &&& 0x7f)
        match network_packet_get_data packet 1 with
        | none => some (.fail .EOF packet)
        | some (dst, p1) => get_oid_for fuel (dst.headD 0).toNat n1 (rounds + 1) p1
    else some (.ok (b, n) packet)

/-- The `while` loop of `network_asn1_proto_get_oid`. -/
def get_oid_while : Nat → network_packet → Nat → Bool → String → Option (asn1_ret String)
  | 0, _, _, _, _ => none
  | fuel + 1, packet, end_offset, is_first, oid =>
    if packet.offset < end_offset then
      match network_packet_get_data packet 1 with
      | none => some (.fail .EOF packet)
      | some (dst, p1) =>
        let b := (dst.headD 0).toNat
        if is_first then
          get_oid_while fuel p1 end_offset false
            (oid ++ toString (b / 40) ++ "." ++ toString (b % 40))
        else
          match get_oid_for 11 b 0 0 p1 with
          | none => none
          | some .assert_failed => some .assert_failed
          | some (.fail e p2) => some (.fail e p2)
          | some (.ok (b1, n) p2) =>
            let n1 := ((n <<< 7) % 2 ^ 64) ||| b1
            get_oid_while fuel p2 end_offset false (oid ++ "." ++ toString n1)
    else some (.ok oid packet)

/-- Model of `network_asn1_proto_get_oid`.  Every turn of the `while` loop that does not
return reads at least one byte, so `data->len + 1` turns are enough. -/
def network_asn1_proto_get_oid (packet : network_packet) (len : Nat) (_oid : String) :
    Option (asn1_ret String) :=
  -- g_string_truncate(oid, 0)
  get_oid_while (packet.data.length + 1) packet ((packet.offset + len) % 2 ^ 64) true ""

/-- The test that selects the recursing branch of `network_asn1_is_valid_internal`. -/
def is_nested (id : ASN1Identifier) : Bool :=
  id.klass == ASN1_IDENTIFIER_KLASS_APPLICATION ||
  id.klass == ASN1_IDENTIFIER_KLASS_CONTEXT_SPECIFIC ||
  (id.klass == ASN1_IDENTIFIER_KLASS_UNIVERSAL && id.value == ASN1_IDENTIFIER_UNIVERSAL_SEQUENCE)

/-- The test `id.klass == UNIVERSAL && id.value == SEQUENCE`. -/
def is_sequence (id : ASN1Identifier) : Bool :=
  id.klass == ASN1_IDENTIFIER_KLASS_UNIVERSAL && id.value == ASN1_IDENTIFIER_UNIVERSAL_SEQUENCE

mutual
/-- Model of `network_asn1_is_valid_internal`, with a bound on the number of nested calls
and loop turns; `none` stands for a run that needs more than `fuel`. -/
def network_asn1_is_valid_internal_fuel : Nat → network_packet → Option (asn1_ret Unit)
  | 0, _ => none
  | fuel + 1, packet =>
    match network_asn1_proto_get_header packet with
    | .assert_failed => some .assert_failed
    | .fail e p => some (.fail e p)
    | .ok (id, len) p =>
      if !network_packet_has_more_data p len then some (.fail .INVALID p)
      else is_valid_while fuel id len p
/-- The `while (len)` loop of `network_asn1_is_valid_internal`. -/
def is_valid_while : Nat → ASN1Identifier → Nat → network_packet → Option (asn1_ret Unit)
  | 0, _, _, _ => none
  | fuel + 1, id, len, packet =>
    if len = 0 then some (.ok () packet)
    else if is_nested id then
      let sub_packet : network_packet :=
        { data := (packet.data.drop packet.offset).take len, offset := 0 }
      match network_asn1_is_valid_internal_fuel fuel sub_packet with
      | none => none
      | some .assert_failed => some .assert_failed
      | some (.fail e _) => some (.fail e packet)
      | some (.ok _ sub) =>
        -- g_assert_cmpint(sub_packet.offset, <=, len)
        if ¬ (sub.offset ≤ len) then some .assert_failed
        else
          let p1 := (network_packet_skip packet sub.offset).2
          let len1 := len - sub.offset
          if is_sequence id then is_valid_while fuel id len1 p1
          else if len1 ≠ 0 then some (.fail .INVALID p1)
          else is_valid_while fuel id len1 p1
    else
      match network_packet_skip packet len with
      | (false, p1) => some (.fail .INVALID p1)
      | (true, p1) => is_valid_while fuel id 0 p1
end

/-- Model of `network_asn1_is_valid_internal`.  A call on a view with `r` unread bytes
needs at most `r + 1` units of fuel (`is_valid_internal_total`). -/
def network_asn1_is_valid_internal (packet : network_packet) : Option (asn1_ret Unit) :=
  network_asn1_is_valid_internal_fuel (packet.data.length + 1) packet

/-- Model of `network_asn1_is_valid`: runs the walk and puts `old_offset` back. -/
def network_asn1_is_valid (packet : network_packet) : Option (asn1_ret Unit) :=
  let old_offset := packet.offset
  match network_asn1_is_valid_internal packet with
  | none => none
  | some .assert_failed => some .assert_failed
  | some (.fail e p) => some (.fail e { p with offset := old_offset })
  | some (.ok v p) => some (.ok v { p with offset := old_offset })

/-! ## Concrete pools used in the evaluations below -/

/-- A fresh pool (`min_idle_connections = 0`) after one socket of user "alice"
was added. -/
def pool_alice : network_connection_pool :=
  (network_connection_pool_add network_connection_pool_new ⟨1, "alice"⟩ 100 0).2

/-- A fresh pool after a socket of user "b" and then a socket of the user with the
empty name were added. -/
def pool_b_anon : network_connection_pool :=
  (network_connection_pool_add
    (network_connection_pool_add network_connection_pool_new ⟨1, "b"⟩ 100 0).2
    ⟨2, ""⟩ 101 1).2

/-- The pool of the reuse scenario: `min_idle_connections = 1` and three sockets
a, b, c of user "alice", added in this order. -/
def pool_abc : network_connection_pool :=
  (network_connection_pool_add
    (network_connection_pool_add
      (network_connection_pool_add { users := [], min_idle_connections := 1 }
        ⟨1, "alice"⟩ 100 0).2
      ⟨2, "alice"⟩ 101 1).2
    ⟨3, "alice"⟩ 102 2).2

/-- The unsigned big-endian value of a sequence of bytes. -/
def be_value (bs : List UInt8) : Nat :=
  bs.foldl (fun acc x => acc * 256 + x.toNat) 0

/-- An element of class universal in primitive encoding with a short-form length:
its identifier byte, which is its tag, and its content. -/
structure der_primitive where
  id : UInt8
  content : List UInt8
deriving DecidableEq, Repr

/-- The bytes of the element: identifier, length, content. -/
def der_primitive.encode (e : der_primitive) : List UInt8 :=
  e.id :: UInt8.ofNat e.content.length :: e.content

/-- The tag is below 31 and is not SEQUENCE, and the length has the short form. -/
def der_primitive.wf (e : der_primitive) : Prop :=
  e.id.toNat < 31 ∧ e.id.toNat ≠ 0x10 ∧ e.content.length ≤ 127

instance (e : der_primitive) : Decidable e.wf := by
  unfold der_primitive.wf; infer_instance

/-- The encodings of the elements, one after the other. -/
def der_encode_all : List der_primitive → List UInt8
  | [] => []
  | e :: es => e.encode ++ der_encode_all es

/-- The bytes `30 L` followed by the encodings of the elements, `L` being their
total length. -/
def der_sequence (es : List der_primitive) : List UInt8 :=
  0x30 :: UInt8.ofNat (der_encode_all es).length :: der_encode_all es

/-- The condition `okp` holds of the packet a successful call leaves, `failp` of the
packet a failed call leaves. -/
def ret_post {α : Type} (okp failp : network_packet → Prop) : asn1_ret α → Prop
  | .ok _ p => okp p
  | .fail _ p => failp p
  | .assert_failed => True

/-! ## network-queue.c

`gsize` differences such as `chunk->len - queue->offset` are written with the
truncated subtraction of the naturals: on a queue that satisfies
`network_queue.wf` no such difference wraps, and the theorems on `peek` and `pop`
are about such queues. -/

/-- A `GString` of GLib: the bytes of `str` (`len` is their number) and
`allocated_len`. -/
structure GString where
  str : List UInt8
  allocated_len : Nat
deriving DecidableEq, Repr

/-- The field `len` of a `GString`. -/
def GString.len (s : GString) : Nat := s.str.length

/-- The loop of GLib's `nearest_power`: doubles `n` until it reaches `num`. -/
def nearest_power_loop : Nat → Nat → Nat → Nat
  | 0, n, _ => n
  | fuel + 1, n, num => if n < num then nearest_power_loop fuel (2 * n) num else n

/-- GLib's `nearest_power`: the least power of two that is not below `num` (the
saturation at the largest `gsize` is left out). -/
def nearest_power (num : Nat) : Nat := nearest_power_loop num 1 num

/-- GLib's `g_string_sized_new`: an empty string with room for `dfl_size` bytes and
the terminating zero. -/
def g_string_sized_new (dfl_size : Nat) : GString :=
  { str := [], allocated_len := nearest_power (max dfl_size 2 + 1) }

/-- GLib's `g_string_append_len`: appends the bytes, growing the allocation when
they do not fit. -/
def g_string_append_len (s : GString) (val : List UInt8) : GString :=
  { str := s.str ++ val,
    allocated_len :=
      if s.len + val.length ≥ s.allocated_len then nearest_power (s.len + val.length + 1)
      else s.allocated_len }

/-- A `network_queue`: the chunks (head of the list is the head of the queue), the
number `len` of bytes not yet read and the read offset into the head chunk. -/
structure network_queue where
  chunks : List GString
  len : Nat
  offset : Nat
deriving DecidableEq, Repr

/-- Model of `network_queue_new`. -/
def network_queue_new : network_queue := { chunks := [], len := 0, offset := 0 }

/-- Model of `network_queue_append` (the C function always returns 0). -/
def network_queue_append (queue : network_queue) (chunk : GString) : network_queue :=
  { queue with len := queue.len + chunk.len, chunks := queue.chunks ++ [chunk] }

/-- The statement `if (!dest) dest = g_string_sized_new(len)` of
`network_queue_peek_string` and `network_queue_pop_string`. -/
def dest_or_new (dest : Option GString) (len : Nat) : GString :=
  match dest with
  | some d => d
  | none => g_string_sized_new len

/-- How a call of `network_queue_peek_string` ends: `NULL`, the destination, or
the assertion on `dest->allocated_len` fails and the process is aborted. -/
inductive peek_ret where
  | null
  | dest (s : GString)
  | assert_failed
deriving DecidableEq, Repr

/-- The `for` loop of `network_queue_peek_string` over the nodes of the queue;
`is_head` says whether the node is `queue->chunks->head`. -/
def peek_for : List GString → Bool → Nat → Nat → GString → GString
  | [], _, _, _, dest => dest
  | chunk :: rest, is_head, offset, we_want, dest =>
    if we_want = 0 then dest
    else if is_head then
      let we_have := if we_want < chunk.len - offset then we_want else chunk.len - offset
      peek_for rest false offset (we_want - we_have)
        (g_string_append_len dest ((chunk.str.drop offset).take we_have))
    else
      let we_have := if we_want < chunk.len then we_want else chunk.len
      peek_for rest false offset (we_want - we_have)
        (g_string_append_len dest (chunk.str.take we_have))

/-- Model of `network_queue_peek_string`: what is returned, and the queue
afterwards. -/
def network_queue_peek_string (queue : network_queue) (peek_len : Nat)
    (dest : Option GString) : peek_ret × network_queue :=
  if queue.len < peek_len then (.null, queue)
  else
    let dest1 := dest_or_new dest peek_len
    -- g_assert_cmpint(dest->allocated_len, >, peek_len)
    if ¬ (dest1.allocated_len > peek_len) then (.assert_failed, queue)
    else (.dest (peek_for queue.chunks true queue.offset peek_len dest1), queue)

/-- The `while` loop of `network_queue_pop_string`, on the chunks, `offset` and
`len` of the queue. -/
def pop_while : List GString → Nat → Nat → Nat → Nat → Option GString →
    Option GString × network_queue
  | [], offset, len, _, _, dest => (dest, { chunks := [], len := len, offset := offset })
  | chunk :: rest, offset, len, we_want, steal_len, dest =>
    let we_have := if we_want < chunk.len - offset then we_want else chunk.len - offset
    if dest.isNone ∧ offset = 0 ∧ chunk.len = steal_len then
      (some chunk, { chunks := rest, len := len - we_have, offset := offset })
    else
      let d := dest_or_new dest steal_len
      let d1 := g_string_append_len d ((chunk.str.drop offset).take we_have)
      if chunk.len = offset + we_have then
        pop_while rest 0 (len - we_have) (we_want - we_have) steal_len (some d1)
      else
        (some d1, { chunks := chunk :: rest, len := len - we_have, offset := offset + we_have })

/-- Model of `network_queue_pop_string`: what is returned (`none` for `NULL`), and
the queue afterwards. -/
def network_queue_pop_string (queue : network_queue) (steal_len : Nat)
    (dest : Option GString) : Option GString × network_queue :=
  if queue.len < steal_len then (none, queue)
  else pop_while queue.chunks queue.offset queue.len steal_len steal_len dest

/-- The bytes of the chunks, one chunk after the other. -/
def queue_bytes : List GString → List UInt8
  | [] => []
  | c :: cs => c.str ++ queue_bytes cs

/-- The bytes of the queue that were not read yet. -/
def network_queue.unread (q : network_queue) : List UInt8 :=
  (queue_bytes q.chunks).drop q.offset

/-- The invariant of a queue: `offset` is at most the length of the head chunk
(and 0 when there is no chunk), and `len` is the sum of the chunk lengths minus
`offset`. -/
def network_queue.wf (q : network_queue) : Prop :=
  (match q.chunks with
    | [] => q.offset = 0
    | c :: _ => q.offset ≤ c.len) ∧
  q.len + q.offset = (queue_bytes q.chunks).length

instance (q : network_queue) : Decidable q.wf := by
  rcases q with ⟨chunks, len, offset⟩
  cases chunks with
  | nil =>
    exact inferInstanceAs (Decidable (offset = 0 ∧ len + offset = (queue_bytes []).length))
  | cons c cs =>
    exact inferInstanceAs
      (Decidable (offset ≤ c.len ∧ len + offset = (queue_bytes (c :: cs)).length))

/-- The operations on a queue. -/
inductive queue_op where
  | append (chunk : GString)
  | peek (peek_len : Nat) (dest : Option GString)
  | pop (steal_len : Nat) (dest : Option GString)
deriving DecidableEq, Repr

/-- The queue after one operation. -/
def queue_step (q : network_queue) : queue_op → network_queue
  | .append chunk => network_queue_append q chunk
  | .peek peek_len dest => (network_queue_peek_string q peek_len dest).2
  | .pop steal_len dest => (network_queue_pop_string q steal_len dest).2

/-- The queue after a sequence of operations. -/
def queue_run (q : network_queue) (ops : List queue_op) : network_queue :=
  ops.foldl queue_step q

/-- One call of `network_queue_pop_string` in a sequence of calls: the arguments
and the return value. -/
structure pop_call where
  steal_len : Nat
  dest : Option GString
  ret : Option GString
deriving DecidableEq, Repr

/-- The bytes a call of `network_queue_pop_string` handed to its caller: the bytes
of the returned string behind those the destination held before; no bytes when
`NULL` was returned. -/
def pop_call.new_bytes (c : pop_call) : List UInt8 :=
  match c.ret with
  | none => []
  | some g =>
    match c.dest with
    | none => g.str
    | some d => g.str.drop d.str.length

/-- A sequence of calls of `network_queue_pop_string`, given by the arguments
`steal_len` and `dest` of each call. -/
def pop_all : network_queue → List (Nat × Option GString) → List pop_call
  | _, [] => []
  | q, (n, d) :: ps =>
    { steal_len := n, dest := d, ret := (network_queue_pop_string q n d).1 } ::
      pop_all (network_queue_pop_string q n d).2 ps

/-- Consecutive pieces of the given lengths of a byte sequence. -/
def slices : List UInt8 → List Nat → List (List UInt8)
  | _, [] => []
  | bs, n :: ns => bs.take n :: slices (bs.drop n) ns

/-- The queue of the framing scenario: the chunks `03 00 00 00 05` and `00 00 ff`
appended to an empty queue. -/
def queue_framing : network_queue :=
  network_queue_append (network_queue_append network_queue_new ⟨[0x03, 0, 0, 0, 0x05], 8⟩)
    ⟨[0, 0, 0xff], 4⟩

/-- A queue whose head chunk `01 02` is followed by an empty chunk. -/
def queue_empty_chunk : network_queue :=
  network_queue_append (network_queue_append network_queue_new ⟨[0x01, 0x02], 4⟩) ⟨[], 4⟩

/-! ## network-backend.c

The header `network-backend.h`, `network-address.c` and `glib-ext.c` are not among
the sources.  `glong` and `gint64` values are integers: the microsecond
differences formed here stay far inside 64 bits for every reading of a clock. -/

/-- Modelled from the spec: `network-backend.h` is not among the sources.  The
liveness states of a backend; a descriptor that was just created (`g_new0`) is in
the state unknown. -/
inductive backend_state_t where
  | BACKEND_STATE_UNKNOWN
  | BACKEND_STATE_UP
  | BACKEND_STATE_DOWN
  | BACKEND_STATE_OFFLINE
deriving DecidableEq, Repr

/-- Modelled from the spec: `network-backend.h` is not among the sources.  The role
of a backend, read/write or read-only. -/
inductive backend_type_t where
  | BACKEND_TYPE_UNKNOWN
  | BACKEND_TYPE_RW
  | BACKEND_TYPE_RO
deriving DecidableEq, Repr

/-- A `GTimeVal` of GLib: seconds and microseconds. -/
structure GTimeVal where
  tv_sec : Int
  tv_usec : Int
deriving DecidableEq, Repr

/-- A `network_backend_t`; of the address only `addr->name` is kept. -/
structure network_backend_t where
  addr_name : String
  type : backend_type_t
  state : backend_state_t
  state_since : GTimeVal
  uuid : String
  pool : network_connection_pool
  connected_clients : Nat
deriving DecidableEq, Repr

/-- A `network_backends_t`: the backends in the order of their indices and
`backend_last_check`. -/
structure network_backends_t where
  backends : List network_backend_t
  backend_last_check : GTimeVal
deriving DecidableEq, Repr

/-- Model of `network_backend_new`: `g_new0` clears every field. -/
def network_backend_new : network_backend_t :=
  { addr_name := "", type := .BACKEND_TYPE_UNKNOWN, state := .BACKEND_STATE_UNKNOWN,
    state_since := ⟨0, 0⟩, uuid := "", pool := network_connection_pool_new,
    connected_clients := 0 }

/-- Model of `network_backends_new`. -/
def network_backends_new : network_backends_t :=
  { backends := [], backend_last_check := ⟨0, 0⟩ }

/-- The loop of `network_backends_add` that looks for a backend with the name of
the new one (`strleq` on the two names). -/
def backends_add_for : List network_backend_t → String → Bool
  | [], _ => false
  | old_backend :: rest, name =>
    if old_backend.addr_name = name then true else backends_add_for rest name

/-- Model of `network_backends_add`.  The parser `network_address_set_address` of
`network-address.c` is a parameter: it gives the name of the address, or `none`
when it returns an error.  Returns the return value and the registry afterwards. -/
def network_backends_add (network_address_set_address : String → Option String)
    (bs : network_backends_t) (address : String) (type : backend_type_t) :
    Int × network_backends_t :=
  let new_backend := { network_backend_new with type := type }
  match network_address_set_address address with
  | none => (-1, bs)
  | some name =>
    let new_backend1 := { new_backend with addr_name := name }
    if backends_add_for bs.backends name then (-1, bs)
    else (0, { bs with backends := bs.backends ++ [new_backend1] })

/-- The registry after a sequence of calls of `network_backends_add`. -/
def backends_add_all (network_address_set_address : String → Option String) :
    network_backends_t → List (String × backend_type_t) → network_backends_t
  | bs, [] => bs
  | bs, (address, type) :: rest =>
    backends_add_all network_address_set_address
      (network_backends_add network_address_set_address bs address type).2 rest

/-- The constant `G_USEC_PER_SEC` of GLib. -/
def G_USEC_PER_SEC : Int := 1000000

/-- Modelled from the spec: `glib-ext.c` is not among the sources.  The time from
`old` to `new` in microseconds; it is negative when the clock went backwards. -/
def ge_gtimeval_diff (old new : GTimeVal) : Int :=
  (new.tv_sec - old.tv_sec) * G_USEC_PER_SEC + (new.tv_usec - old.tv_usec)

/-- The loop of `network_backends_check` over the backends: the backends
afterwards and `backends_woken_up`. -/
def backends_check_for : List network_backend_t → GTimeVal → List network_backend_t × Int
  | [], _ => ([], 0)
  | cur :: rest, now =>
    if cur.state ≠ .BACKEND_STATE_DOWN then
      (cur :: (backends_check_for rest now).1, (backends_check_for rest now).2)
    else if now.tv_sec - cur.state_since.tv_sec > 4 then
      ({ cur with state := .BACKEND_STATE_UNKNOWN, state_since := now } ::
          (backends_check_for rest now).1,
        (backends_check_for rest now).2 + 1)
    else (cur :: (backends_check_for rest now).1, (backends_check_for rest now).2)

/-- Model of `network_backends_check`; `now` is the reading of
`g_get_current_time`.  Returns the return value and the registry afterwards. -/
def network_backends_check (bs : network_backends_t) (now : GTimeVal) :
    Int × network_backends_t :=
  let t_diff := ge_gtimeval_diff bs.backend_last_check now
  if t_diff < G_USEC_PER_SEC then
    if t_diff < 0 then (0, { bs with backend_last_check := ⟨0, 0⟩ })
    else (0, bs)
  else
    ((backends_check_for bs.backends now).2,
      { backends := (backends_check_for bs.backends now).1, backend_last_check := now })

/-- Model of `network_backends_count`. -/
def network_backends_count (bs : network_backends_t) : Nat := bs.backends.length

/-- Model of `network_backends_get`. -/
def network_backends_get (bs : network_backends_t) (ndx : Nat) : Option network_backend_t :=
  if ndx ≥ network_backends_count bs then none else bs.backends[ndx]?

/-- A backend that is down since the instant `since`. -/
def backend_down (name : String) (since : GTimeVal) : network_backend_t :=
  { network_backend_new with
    addr_name := name, type := .BACKEND_TYPE_RW, state := .BACKEND_STATE_DOWN,
    state_since := since }

/-- The backends whose state is down and whose `state_since` lies more than four
seconds before `now`, at the resolution of the timestamps. -/
def down_longer_than_4s (bs : network_backends_t) (now : GTimeVal) : List network_backend_t :=
  bs.backends.filter (fun b =>
    decide (b.state = .BACKEND_STATE_DOWN) &&
      decide (ge_gtimeval_diff b.state_since now > 4 * G_USEC_PER_SEC))

/-- A registry with the single backend "x", down since `since`, and the given
`backend_last_check`. -/
def registry_x_down (since last_check : GTimeVal) : network_backends_t :=
  { backends := [backend_down "x" since], backend_last_check := last_check }

/-- An OID body with a first byte and a segment of `k` continuation bytes `81`
before its terminating byte `01`. -/
def oid_long_segment (k : Nat) : List UInt8 :=
  0x2a :: (List.replicate k 0x81 ++ [0x01])

/-- The bytes a destination holds before the call; none when there is no
destination. -/
def dest_str (dest : Option GString) : List UInt8 :=
  match dest with
  | none => []
  | some d => d.str

/-- The queue after the chunks were appended one after the other. -/
def append_all (q : network_queue) (cs : List GString) : network_queue :=
  cs.foldl network_queue_append q

/-- The test `chunk->len == 0`. -/
def is_empty_chunk (c : GString) : Bool := decide (c.len = 0)

/-! ## network-mysqld-table.c -/

/-- The constant `MYSQL_TYPE_TINY` of MySQL's `mysql_com.h`. -/
def MYSQL_TYPE_TINY : Nat := 1

/-- The constant `MYSQL_TYPE_SHORT` of MySQL's `mysql_com.h`. -/
def MYSQL_TYPE_SHORT : Nat := 2

/-- The constant `MYSQL_TYPE_LONG` of MySQL's `mysql_com.h`. -/
def MYSQL_TYPE_LONG : Nat := 3

/-- The constant `MYSQL_TYPE_TIMESTAMP` of MySQL's `mysql_com.h`. -/
def MYSQL_TYPE_TIMESTAMP : Nat := 7

/-- The constant `MYSQL_TYPE_INT24` of MySQL's `mysql_com.h`. -/
def MYSQL_TYPE_INT24 : Nat := 9

/-- The constant `MYSQL_TYPE_DATE` of MySQL's `mysql_com.h`. -/
def MYSQL_TYPE_DATE : Nat := 10

/-- The constant `MYSQL_TYPE_DATETIME` of MySQL's `mysql_com.h`. -/
def MYSQL_TYPE_DATETIME : Nat := 12

/-- The constant `MYSQL_TYPE_VARCHAR` of MySQL's `mysql_com.h`. -/
def MYSQL_TYPE_VARCHAR : Nat := 15

/-- The constant `MYSQL_TYPE_NEWDECIMAL` of MySQL's `mysql_com.h`. -/
def MYSQL_TYPE_NEWDECIMAL : Nat := 246

/-- The constant `MYSQL_TYPE_ENUM` of MySQL's `mysql_com.h`. -/
def MYSQL_TYPE_ENUM : Nat := 247

/-- The constant `MYSQL_TYPE_BLOB` of MySQL's `mysql_com.h`. -/
def MYSQL_TYPE_BLOB : Nat := 252

/-- The constant `MYSQL_TYPE_STRING` of MySQL's `mysql_com.h`. -/
def MYSQL_TYPE_STRING : Nat := 254

/-- The table `field_type_name`; the name of the terminating entry is `NULL`. -/
def field_type_name : List (Nat × Option String) :=
  [ (MYSQL_TYPE_STRING, some "CHAR"),
    (MYSQL_TYPE_VARCHAR, some "VARCHAR"),
    (MYSQL_TYPE_BLOB, some "BLOB"),
    (MYSQL_TYPE_TINY, some "TINYINT"),
    (MYSQL_TYPE_SHORT, some "SMALLINT"),
    (MYSQL_TYPE_INT24, some "MEDIUMINT"),
    (MYSQL_TYPE_LONG, some "INT"),
    (MYSQL_TYPE_NEWDECIMAL, some "DECIMAL"),
    (MYSQL_TYPE_ENUM, some "ENUM"),
    (MYSQL_TYPE_TIMESTAMP, some "TIMESTAMP"),
    (MYSQL_TYPE_DATE, some "DATE"),
    (MYSQL_TYPE_DATETIME, some "DATETIME"),
    (0, none) ]

/-- The loop of `network_mysqld_column_get_typestring` over the table: it stops at
the first entry without a name, and compares the two types as `guchar`. -/
def get_typestring_for : List (Nat × Option String) → Nat → Option String
  | [], _ => none
  | (_, none) :: _, _ => none
  | (ty, some name) :: rest, type =>
    if ty % 256 = type % 256 then some name else get_typestring_for rest type

/-- Model of `network_mysqld_column_get_typestring`, on `column->type`. -/
def network_mysqld_column_get_typestring (type : Nat) : String :=
  match get_typestring_for field_type_name type with
  | some name => name
  | none => "UNKNOWN"

/-- The name the spec lists for a wire type code, "UNKNOWN" for every other
code. -/
def spec_typestring (type : Nat) : String :=
  if type = 254 then "CHAR"
  else if type = 15 then "VARCHAR"
  else if type = 252 then "BLOB"
  else if type = 1 then "TINYINT"
  else if type = 2 then "SMALLINT"
  else if type = 9 then "MEDIUMINT"
  else if type = 3 then "INT"
  else if type = 246 then "DECIMAL"
  else if type = 247 then "ENUM"
  else if type = 7 then "TIMESTAMP"
  else if type = 10 then "DATE"
  else if type = 12 then "DATETIME"
  else "UNKNOWN"

/-! ## chassis-shutdown-hooks.c -/

/-- A `chassis_shutdown_hook_t`: the callback `func` (a number stands for the
function, `none` for `NULL`), `udata` and `is_called`. -/
structure chassis_shutdown_hook_t where
  func : Option Nat
  udata : Nat
  is_called : Bool
deriving DecidableEq, Repr

/-- The hash table `hooks->hooks`, from the key to the hook. -/
abbrev hooks_table := List (String × chassis_shutdown_hook_t)

/-- Model of `chassis_shutdown_hook_new`. -/
def chassis_shutdown_hook_new : chassis_shutdown_hook_t :=
  { func := none, udata := 0, is_called := false }

/-- Model of `chassis_shutdown_hooks_new`. -/
def chassis_shutdown_hooks_new : hooks_table := []

/-- The lookup `g_hash_table_lookup_const` in the table of hooks. -/
def hooks_lookup : hooks_table → String → Option chassis_shutdown_hook_t
  | [], _ => none
  | (k, h) :: t, key => if k = key then some h else hooks_lookup t key

/-- Model of `chassis_shutdown_hooks_register`: the return value and the table
afterwards. -/
def chassis_shutdown_hooks_register (hooks : hooks_table) (key : String)
    (hook : chassis_shutdown_hook_t) : Bool × hooks_table :=
  match hooks_lookup hooks key with
  | none => (true, hooks ++ [(key, hook)])
  | some _ => (false, hooks)

/-- Model of `chassis_shutdown_hooks_call`: the table afterwards and the calls
`hook->func(hook->udata)` that were made, in their order. -/
def chassis_shutdown_hooks_call : hooks_table → hooks_table × List (Nat × Nat)
  | [] => ([], [])
  | (key, hook) :: rest =>
    ((key, { hook with is_called := true }) :: (chassis_shutdown_hooks_call rest).1,
      (match hook.func with
        | some f => if ¬ hook.is_called then [(f, hook.udata)] else []
        | none => []) ++ (chassis_shutdown_hooks_call rest).2)

/-- The calls that are due: one for every hook of the table that has a callback
and was not called yet. -/
def hooks_due (hooks : hooks_table) : List (Nat × Nat) :=
  hooks.filterMap (fun kh =>
    match kh.2.func with
    | some f => if kh.2.is_called then none else some (f, kh.2.udata)
    | none => none)

/-! ## chassis_log_backend.c and chassis_log_domain.c

The headers `chassis_log_backend.h` and `chassis_log_domain.h` are not among the
sources.  A log level is the number of a `GLogLevelFlags` value.  Every call of
`chassis_log_backend_log` is given one reading `tv` of the clock: `time(NULL)` is
`tv.tv_sec` and `g_get_current_time` gives `tv`.  The function pointer `log_func`
is the sink; the calls made to it are recorded in the field `written`. -/

/-- The constant `G_LOG_LEVEL_ERROR` of GLib. -/
def G_LOG_LEVEL_ERROR : Nat := 4

/-- The constant `G_LOG_LEVEL_CRITICAL` of GLib. -/
def G_LOG_LEVEL_CRITICAL : Nat := 8

/-- The constant `G_LOG_LEVEL_WARNING` of GLib. -/
def G_LOG_LEVEL_WARNING : Nat := 16

/-- The constant `G_LOG_LEVEL_MESSAGE` of GLib. -/
def G_LOG_LEVEL_MESSAGE : Nat := 32

/-- The constant `G_LOG_LEVEL_INFO` of GLib. -/
def G_LOG_LEVEL_INFO : Nat := 64

/-- The constant `G_LOG_LEVEL_DEBUG` of GLib. -/
def G_LOG_LEVEL_DEBUG : Nat := 128

/-- The constant `G_LOG_LEVEL_MASK` of GLib, all bits but the two flag bits, on 32
bits. -/
def G_LOG_LEVEL_MASK : Nat := 0xFFFFFFFC

/-- Modelled from the spec: `chassis_log_domain.h` is not among the sources.  The
reserved broadcast level is the first user level of GLib,
`1 << G_LOG_LEVEL_USER_SHIFT`. -/
def CHASSIS_LOG_LEVEL_BROADCAST : Nat := 256

/-- The string `"src" G_DIR_SEPARATOR_S`, with the separator of Unix. -/
def src_dir : List Char := ['s', 'r', 'c', '/']

/-- The loop of `chassis_log_skip_topsrcdir`, on what is left of `message` and of
`my_filename` at the index `ndx`; the result is `message + ndx` when the loop is
left.  An empty first argument stands for `message[ndx] == 0`, an empty second
one for `my_filename[ndx] == 0`. -/
def skip_topsrcdir_for : List Char → List Char → List Char
  | [], _ => []
  | m :: ms, f =>
    if src_dir.isPrefixOf (m :: ms) then m :: ms
    else
      match f with
      | [] => m :: ms
      | c :: fs => if m ≠ c then m :: ms else skip_topsrcdir_for ms fs

/-- Model of `chassis_log_skip_topsrcdir`; `my_filename` is the value of
`__FILE__`. -/
def chassis_log_skip_topsrcdir (my_filename message : String) : String :=
  match skip_topsrcdir_for message.toList my_filename.toList with
  | [] => message
  | c :: cs => String.mk (c :: cs)

/-- What the functions of the log backend take from their surroundings: the value
of `__FILE__` in `chassis_log_backend.c`, and the text `strftime` gives for
`localtime` of a number of seconds with the format `"%Y-%m-%d %H:%M:%S"`. -/
structure log_env where
  my_filename : String
  strftime_local : Int → String

/-- Modelled from the spec: `chassis_log_backend.h` is not among the sources.  The
resolution of the timestamps, seconds or milliseconds. -/
inductive chassis_log_backend_resolution_t where
  | CHASSIS_LOG_BACKEND_RESOLUTION_SEC
  | CHASSIS_LOG_BACKEND_RESOLUTION_MS
deriving DecidableEq, Repr

/-- One call of `log_func`: the level and the text handed to the sink.  The field
`repeated` is not part of the call: it tells the "last message repeated N times"
lines from the lines of records and holds the N of such a line. -/
structure log_write where
  level : Nat
  text : String
  repeated : Option Nat
deriving DecidableEq, Repr

/-- A `chassis_log_backend_t`: the fields `chassis_log_backend_log` uses, and the
calls of `log_func` made so far. -/
structure chassis_log_backend_t where
  needs_timestamp : Bool
  needs_compress : Bool
  log_ts_resolution : chassis_log_backend_resolution_t
  log_str : String
  last_msg : String
  last_msg_ts : Int
  last_msg_count : Nat
  last_loggers : List String
  written : List log_write
deriving DecidableEq, Repr

/-- Model of `chassis_log_backend_new`, a blank backend. -/
def chassis_log_backend_new : chassis_log_backend_t :=
  { needs_timestamp := false, needs_compress := false,
    log_ts_resolution := .CHASSIS_LOG_BACKEND_RESOLUTION_SEC,
    log_str := "", last_msg := "", last_msg_ts := 0, last_msg_count := 0,
    last_loggers := [], written := [] }

/-- Model of `chassis_log_backend_stderr_new`. -/
def chassis_log_backend_stderr_new : chassis_log_backend_t :=
  { chassis_log_backend_new with needs_timestamp := true, needs_compress := true }

/-- Model of `chassis_log_backend_file_new`. -/
def chassis_log_backend_file_new : chassis_log_backend_t :=
  { chassis_log_backend_new with needs_timestamp := true, needs_compress := true }

/-- Model of `chassis_log_backend_syslog_new`. -/
def chassis_log_backend_syslog_new : chassis_log_backend_t :=
  { chassis_log_backend_new with needs_timestamp := false, needs_compress := false }

/-- The conversion `"%.3d"` of `printf`: at least three digits. -/
def printf_03d (v : Int) : String :=
  (if v < 0 then "-" else "") ++
    (if v.natAbs < 10 then "00" else if v.natAbs < 100 then "0" else "") ++ toString v.natAbs

/-- The text `chassis_log_backend_update_timestamp` puts into `log_str`: the
output of `strftime`, followed by the milliseconds when the resolution asks for
them. -/
def timestamp_text (env : log_env) (res : chassis_log_backend_resolution_t) (tv : GTimeVal) :
    String :=
  if res = .CHASSIS_LOG_BACKEND_RESOLUTION_MS then
    env.strftime_local tv.tv_sec ++ "." ++ printf_03d (Int.tdiv tv.tv_usec 1000)
  else env.strftime_local tv.tv_sec

/-- Model of `chassis_log_backend_update_timestamp`: `log_str` becomes the
timestamp. -/
def chassis_log_backend_update_timestamp (env : log_env) (backend : chassis_log_backend_t)
    (tv : GTimeVal) : chassis_log_backend_t :=
  { backend with log_str := timestamp_text env backend.log_ts_resolution tv }

/-- The name of the level, the `switch` of `chassis_log_backend_log`. -/
def log_lvl_name (level : Nat) : String :=
  if level &&& G_LOG_LEVEL_MASK = G_LOG_LEVEL_CRITICAL then "critical"
  else if level &&& G_LOG_LEVEL_MASK = G_LOG_LEVEL_ERROR then "error"
  else if level &&& G_LOG_LEVEL_MASK = G_LOG_LEVEL_WARNING then "warning"
  else if level &&& G_LOG_LEVEL_MASK = G_LOG_LEVEL_MESSAGE then "message"
  else if level &&& G_LOG_LEVEL_MASK = G_LOG_LEVEL_INFO then "info"
  else if level &&& G_LOG_LEVEL_MASK = G_LOG_LEVEL_DEBUG then "debug"
  else if level &&& G_LOG_LEVEL_MASK = CHASSIS_LOG_LEVEL_BROADCAST then "*"
  else "unknown"

/-- The loop over `last_loggers` that builds `logger_names`: the names, separated
by a comma and a blank. -/
def logger_names : List String → String
  | [] => ""
  | [key] => key
  | key :: rest => key ++ ", " ++ logger_names rest

/-- The statement `logger_name[0] == 0 ? "global" : logger_name`. -/
def logger_name_clean (logger_name : String) : String :=
  if logger_name = "" then "global" else logger_name

/-- The step `if (needs_timestamp) { update_timestamp; append ": " }`. -/
def log_timestamp_start (env : log_env) (backend : chassis_log_backend_t) (tv : GTimeVal) :
    chassis_log_backend_t :=
  if backend.needs_timestamp then
    { chassis_log_backend_update_timestamp env backend tv with
      log_str := (chassis_log_backend_update_timestamp env backend tv).log_str ++ ": " }
  else backend

/-- The block `if (backend->last_msg_count) { ... }` of `chassis_log_backend_log`:
the line "last message repeated N times" is written and `last_loggers` is
emptied. -/
def log_repeated (env : log_env) (backend : chassis_log_backend_t) (level : Nat)
    (tv : GTimeVal) : chassis_log_backend_t :=
  if backend.last_msg_count ≠ 0 then
    let b1 := log_timestamp_start env backend tv
    let text := b1.log_str ++ "[" ++ logger_names backend.last_loggers ++
      "] last message repeated " ++ toString backend.last_msg_count ++ " times\n"
    { b1 with
      log_str := text,
      last_loggers := [],
      written := b1.written ++ [{ level := level, text := text,
                                  repeated := some backend.last_msg_count }] }
  else backend

/-- The `else` branch of `chassis_log_backend_log` on `last_loggers`: the name
is inserted unless the set holds it. -/
def add_logger (loggers : List String) (name : String) : List String :=
  if name ∈ loggers then loggers else loggers ++ [name]

/-- The test for a duplicate message of `chassis_log_backend_log`. -/
def log_is_duplicate (backend : chassis_log_backend_t) (level : Nat)
    (stripped_message : String) : Bool :=
  decide (backend.last_msg.length > 0) && decide (backend.last_msg = stripped_message) &&
    decide (level ≠ CHASSIS_LOG_LEVEL_BROADCAST) && backend.needs_compress

/-- Model of `chassis_log_backend_log`. -/
def chassis_log_backend_log (env : log_env) (backend : chassis_log_backend_t)
    (logger_name : String) (level : Nat) (message : String) (tv : GTimeVal) :
    chassis_log_backend_t :=
  let stripped_message := chassis_log_skip_topsrcdir env.my_filename message
  let is_duplicate := log_is_duplicate backend level stripped_message
  if ¬ is_duplicate ∨ backend.last_msg_count > 100 ∨ tv.tv_sec - backend.last_msg_ts > 30 then
    let b1 := log_repeated env backend level tv
    let b2 := log_timestamp_start env b1 tv
    let text := b2.log_str ++ "[" ++ logger_name_clean logger_name ++ "] (" ++
      log_lvl_name level ++ ") " ++ stripped_message
    { b2 with
      log_str := text,
      last_msg := stripped_message,
      last_msg_count := 0,
      last_msg_ts := tv.tv_sec,
      written := b2.written ++ [{ level := level, text := text, repeated := none }] }
  else
    { backend with
      last_loggers := add_logger backend.last_loggers (logger_name_clean logger_name),
      last_msg_count := backend.last_msg_count + 1 }

/-- A `chassis_log_domain_t`: the name, the levels and the backend. -/
structure chassis_log_domain_t where
  name : String
  min_level : Nat
  effective_level : Nat
  backend : chassis_log_backend_t
deriving DecidableEq, Repr

/-- Model of `chassis_log_domain_log`. -/
def chassis_log_domain_log (env : log_env) (domain : chassis_log_domain_t) (level : Nat)
    (message : String) (tv : GTimeVal) : chassis_log_domain_t :=
  if level ≠ CHASSIS_LOG_LEVEL_BROADCAST ∧ domain.effective_level < level then domain
  else
    { domain with
      backend := chassis_log_backend_log env domain.backend domain.name level message tv }

/-- One record handed to `chassis_log_backend_log`, with the reading of the clock
at the call. -/
structure log_record where
  logger_name : String
  level : Nat
  message : String
  tv : GTimeVal
deriving DecidableEq, Repr

/-- The backend after a sequence of records. -/
def log_all (env : log_env) (backend : chassis_log_backend_t) (records : List log_record) :
    chassis_log_backend_t :=
  records.foldl
    (fun b r => chassis_log_backend_log env b r.logger_name r.level r.message r.tv) backend

/-- What stands in front of a line in `log_str`: the timestamp, a colon and a
blank when the backend needs timestamps, and otherwise the text `old` that
`log_str` held before. -/
def line_start (env : log_env) (backend : chassis_log_backend_t) (tv : GTimeVal)
    (old : String) : String :=
  if backend.needs_timestamp then timestamp_text env backend.log_ts_resolution tv ++ ": "
  else old

/-- The text of the line of a record behind its prefix. -/
def record_text (env : log_env) (r : log_record) : String :=
  "[" ++ logger_name_clean r.logger_name ++ "] (" ++ log_lvl_name r.level ++ ") " ++
    chassis_log_skip_topsrcdir env.my_filename r.message

/-- The text of a line "last message repeated N times" behind its prefix. -/
def repeated_text (loggers : List String) (count : Nat) : String :=
  "[" ++ logger_names loggers ++ "] last message repeated " ++ toString count ++ " times\n"

/-- The names of the loggers of a run of records, as `last_loggers` collects
them behind the names `init` it holds already. -/
def loggers_from (init : List String) (records : List log_record) : List String :=
  records.foldl (fun l r => add_logger l (logger_name_clean r.logger_name)) init

/-- The text of the line "last message repeated N times" that the state of the
backend calls for. -/
def marker_text (env : log_env) (backend : chassis_log_backend_t) (tv : GTimeVal) : String :=
  line_start env backend tv backend.log_str ++
    repeated_text backend.last_loggers backend.last_msg_count

/-- What `chassis_log_backend_log` writes before the line of a record at `level`
that it does not suppress: the line "last message repeated N times" if
duplicates are pending, nothing otherwise. -/
def pending_marker (env : log_env) (backend : chassis_log_backend_t) (level : Nat)
    (tv : GTimeVal) : List log_write :=
  if backend.last_msg_count ≠ 0 then
    [{ level := level, text := marker_text env backend tv,
       repeated := some backend.last_msg_count }]
  else []

/-- The text in `log_str` when the line of a record is appended. -/
def text_before_line (env : log_env) (backend : chassis_log_backend_t) (tv : GTimeVal) :
    String :=
  if backend.last_msg_count ≠ 0 then marker_text env backend tv else backend.log_str

/-- No line "last message repeated N times" in the list reports more than
`bound`. -/
def markers_at_most (bound : Nat) (written : List log_write) : Prop :=
  ∀ w ∈ written, ∀ n, w.repeated = some n → n ≤ bound

/-- A record of the evaluations: logger, message and second of the clock. -/
def message_record (logger_name message : String) (sec : Int) : log_record :=
  { logger_name := logger_name, level := G_LOG_LEVEL_MESSAGE, message := message,
    tv := { tv_sec := sec, tv_usec := 0 } }

/-- A warning of the evaluations. -/
def warning_record (logger_name message : String) (sec : Int) : log_record :=
  { logger_name := logger_name, level := G_LOG_LEVEL_WARNING, message := message,
    tv := { tv_sec := sec, tv_usec := 0 } }

/-- A setting for the evaluations: the file was compiled as
`../trunk/src/chassis_log_backend.c`, and the timestamp of every instant is
written `2004-01-01 00:00:00`. -/
def env_trunk : log_env :=
  { my_filename := "../trunk/src/chassis_log_backend.c",
    strftime_local := fun _ => "2004-01-01 00:00:00" }

/-! ## Definitions for the claims on the OID, the syslog sink and the check -/

/-- The exact value of a segment of an OID: its bytes are the base-128 digits,
most significant first, bit 7 being the continuation flag. -/
def oid_segment_value (segment : List UInt8) : Nat :=
  segment.foldl (fun acc b => acc * 128 + b.toNat % 128) 0

/-- An OID body: the first byte `2a` and a segment of ten bytes, nine of them
continuation bytes, whose value is 2 ^ 64 + 1. -/
def oid_wrapping_segment : List UInt8 :=
  [0x2a, 0x82, 0x80, 0x80, 0x80, 0x80, 0x80, 0x80, 0x80, 0x80, 0x01]

/-- Modelled from the spec: `<syslog.h>` is not among the sources.  The priorities
the sink passes to `syslog`. -/
inductive syslog_priority where
  | LOG_CRIT
  | LOG_ERR
  | LOG_WARNING
  | LOG_NOTICE
  | LOG_INFO
  | LOG_DEBUG
deriving DecidableEq, Repr

/-- The operator `&&` of C on two integers: both are not zero. -/
def c_logical_and (a b : Nat) : Bool := decide (a ≠ 0) && decide (b ≠ 0)

/-- Model of `chassis_log_backend_syslog_log`: the priority it passes to `syslog`
with the message. -/
def chassis_log_backend_syslog_log (level : Nat) : syslog_priority :=
  if c_logical_and level G_LOG_LEVEL_ERROR then .LOG_CRIT
  else if c_logical_and level G_LOG_LEVEL_CRITICAL then .LOG_ERR
  else if c_logical_and level G_LOG_LEVEL_WARNING then .LOG_WARNING
  else if c_logical_and level G_LOG_LEVEL_MESSAGE then .LOG_NOTICE
  else if c_logical_and level G_LOG_LEVEL_INFO then .LOG_INFO
  else if c_logical_and level G_LOG_LEVEL_DEBUG then .LOG_DEBUG
  else .LOG_ERR

/-- What `network_backends_check` may do to one backend: leave it as it is, or,
if it is down and the seconds of `state_since` lie more than 4 before the seconds
of the clock, set its state to unknown and `state_since` to the clock. -/
def check_step (now : GTimeVal) (b b1 : network_backend_t) : Prop :=
  b1 = b ∨
    (b.state = .BACKEND_STATE_DOWN ∧ now.tv_sec - b.state_since.tv_sec > 4 ∧
      b1 = { b with state := .BACKEND_STATE_UNKNOWN, state_since := now })

/-! ## The account of the lines written -/

/-- The number of lines of records among the lines written. -/
def record_lines (written : List log_write) : Nat :=
  (written.filter (fun w => w.repeated.isNone)).length

/-- The sum of the N of the lines "last message repeated N times" among the lines
written. -/
def marker_sum (written : List log_write) : Nat :=
  (written.map (fun w => w.repeated.getD 0)).sum

/-! ## The path normalisation, written with indices -/

/-- What a read of `s[i]` gives, for a C string whose bytes before the
terminating zero are `s`: one of the bytes, the terminating zero, or nothing,
the index being behind the terminating zero. -/
inductive c_read where
  | byte (c : Char)
  | terminator
  | beyond
deriving DecidableEq, Repr

/-- The read `s[i]` of a C string. -/
def c_str_read (s : List Char) (i : Nat) : c_read :=
  match s[i]? with
  | some c => .byte c
  | none => if i = s.length then .terminator else .beyond

/-- The loop of `chassis_log_skip_topsrcdir` on the index `ndx`, with the reads of
`message[ndx]` and `my_filename[ndx]` written out.  The result is the index at
which the loop is left; `none` stands for a read behind a terminating zero, or
for a run of more turns than `fuel`. -/
def skip_topsrcdir_ndx : Nat → List Char → List Char → Nat → Option Nat
  | 0, _, _, _ => none
  | fuel + 1, message, my_filename, ndx =>
    match c_str_read message ndx with
    | .beyond => none
    | .terminator => some ndx
    | .byte m =>
      if src_dir.isPrefixOf (message.drop ndx) then some ndx
      else
        match c_str_read my_filename ndx with
        | .beyond => none
        | .terminator => some ndx
        | .byte c =>
          if m ≠ c then some ndx
          else skip_topsrcdir_ndx fuel message my_filename (ndx + 1)

/-- Model of `chassis_log_skip_topsrcdir` with the index loop: `message + ndx`
unless `message[ndx]` is the terminating zero. -/
def chassis_log_skip_topsrcdir_ndx (my_filename message : String) : Option String :=
  match skip_topsrcdir_ndx (message.toList.length + 1) message.toList my_filename.toList 0 with
  | none => none
  | some ndx =>
    if c_str_read message.toList ndx ≠ .terminator then
      some (String.mk (message.toList.drop ndx))
    else some message

/-! ## Lemmas on the hash table -/

theorem lookup_store (t : GHashTable) (k u : String) (q : GQueue) :
    g_hash_table_lookup (g_hash_table_store t k q) u =
      if u = k then (g_hash_table_lookup t k).map (fun _ => q) else g_hash_table_lookup t u := by
  induction t with
  | nil => simp [g_hash_table_store, g_hash_table_lookup]
  | cons hd t ih =>
    obtain ⟨k1, q1⟩ := hd
    by_cases h1 : k1 = k
    · subst h1
      by_cases h2 : u = k1
      · subst h2; simp [g_hash_table_store, g_hash_table_lookup]
      · have h3 : ¬ k1 = u := fun h => h2 h.symm
        simp [g_hash_table_store, g_hash_table_lookup, h2, h3]
    · by_cases h2 : u = k
      · subst h2
        simp [g_hash_table_store, g_hash_table_lookup, h1, ih]
      · by_cases h3 : k1 = u
        · simp [g_hash_table_store, g_hash_table_lookup, h1, h2, h3]
        · simp [g_hash_table_store, g_hash_table_lookup, h1, h2, h3, ih]

theorem lookup_none_of_not_mem (t : GHashTable) (k : String) (h : k ∉ t.keys) :
    g_hash_table_lookup t k = none := by
  induction t with
  | nil => rfl
  | cons hd t ih =>
    obtain ⟨k1, q1⟩ := hd
    simp only [GHashTable.keys, List.map_cons, List.mem_cons, not_or] at h
    have h1 : ¬ k1 = k := fun e => h.1 e.symm
    simp only [g_hash_table_lookup, h1, if_false]
    exact ih h.2

theorem remove_absent (t : GHashTable) (k : String) (h : g_hash_table_lookup t k = none) :
    g_hash_table_remove t k = (t, []) := by
  induction t with
  | nil => rfl
  | cons hd t ih =>
    obtain ⟨k1, q1⟩ := hd
    by_cases h1 : k1 = k
    · simp [g_hash_table_lookup, h1] at h
    · simp only [g_hash_table_lookup, h1, if_false] at h
      simp [g_hash_table_remove, h1, ih h]

theorem lookup_remove (t : GHashTable) (k u : String) (hwf : t.wf) :
    g_hash_table_lookup (g_hash_table_remove t k).1 u =
      if u = k then none else g_hash_table_lookup t u := by
  induction t with
  | nil => simp [g_hash_table_remove, g_hash_table_lookup]
  | cons hd t ih =>
    obtain ⟨k1, q1⟩ := hd
    have hwf1 : k1 ∉ GHashTable.keys t ∧ GHashTable.wf t := by
      simpa [GHashTable.wf, GHashTable.keys] using hwf
    by_cases h1 : k1 = k
    · subst h1
      by_cases h2 : u = k1
      · subst h2
        simp only [g_hash_table_remove, if_true]
        exact lookup_none_of_not_mem t u hwf1.1
      · have h3 : ¬ k1 = u := fun h => h2 h.symm
        simp [g_hash_table_remove, g_hash_table_lookup, h2, h3]
    · by_cases h2 : u = k
      · subst h2
        simp [g_hash_table_remove, g_hash_table_lookup, h1, ih hwf1.2]
      · by_cases h3 : k1 = u
        · simp [g_hash_table_remove, g_hash_table_lookup, h1, h2, h3]
        · simp [g_hash_table_remove, g_hash_table_lookup, h1, h2, h3, ih hwf1.2]

theorem find_none (t : GHashTable) (pred : String → GQueue → Bool)
    (h : ∀ k q, g_hash_table_lookup t k = some q → pred k q = false) (hwf : t.wf) :
    g_hash_table_find t pred = none := by
  induction t with
  | nil => rfl
  | cons hd t ih =>
    obtain ⟨k1, q1⟩ := hd
    have hwf1 : k1 ∉ GHashTable.keys t ∧ GHashTable.wf t := by
      simpa [GHashTable.wf, GHashTable.keys] using hwf
    have h1 : pred k1 q1 = false := h k1 q1 (by simp [g_hash_table_lookup])
    simp only [g_hash_table_find, h1]
    apply ih _ hwf1.2
    intro k q hk
    apply h k q
    by_cases h2 : k1 = k
    · subst h2
      rw [lookup_none_of_not_mem t k1 hwf1.1] at hk
      exact absurd hk (by simp)
    · simp [g_hash_table_lookup, h2, hk]

theorem find_some (t : GHashTable) (pred : String → GQueue → Bool) (k : String) (q : GQueue)
    (h : g_hash_table_find t pred = some (k, q)) (hwf : t.wf) :
    g_hash_table_lookup t k = some q ∧ pred k q = true := by
  induction t with
  | nil => simp [g_hash_table_find] at h
  | cons hd t ih =>
    obtain ⟨k1, q1⟩ := hd
    have hwf1 : k1 ∉ GHashTable.keys t ∧ GHashTable.wf t := by
      simpa [GHashTable.wf, GHashTable.keys] using hwf
    by_cases h1 : pred k1 q1 = true
    · simp only [g_hash_table_find, h1, if_true, Option.some.injEq, Prod.mk.injEq] at h
      obtain ⟨rfl, rfl⟩ := h
      simp [g_hash_table_lookup, h1]
    · simp only [g_hash_table_find, h1] at h
      have h2 := ih h hwf1.2
      have h3 : ¬ k1 = k := by
        intro e
        subst e
        rw [lookup_none_of_not_mem t k1 hwf1.1] at h2
        exact absurd h2.1 (by simp)
      simp [g_hash_table_lookup, h3, h2]

theorem find_isSome (t : GHashTable) (pred : String → GQueue → Bool) (k : String) (q : GQueue)
    (h : g_hash_table_lookup t k = some q) (hp : pred k q = true) :
    ∃ kq, g_hash_table_find t pred = some kq := by
  induction t with
  | nil => simp [g_hash_table_lookup] at h
  | cons hd t ih =>
    obtain ⟨k1, q1⟩ := hd
    by_cases h1 : pred k1 q1 = true
    · exact ⟨(k1, q1), by simp [g_hash_table_find, h1]⟩
    · by_cases h2 : k1 = k
      · subst h2
        simp only [g_hash_table_lookup, if_true, Option.some.injEq] at h
        subst h
        exact absurd hp h1
      · simp only [g_hash_table_lookup, h2, if_false] at h
        obtain ⟨kq, hkq⟩ := ih h
        exact ⟨kq, by simp [g_hash_table_find, h1, hkq]⟩

theorem keys_store (t : GHashTable) (k : String) (q : GQueue) :
    (g_hash_table_store t k q).keys = t.keys := by
  induction t with
  | nil => rfl
  | cons hd t ih =>
    obtain ⟨k1, q1⟩ := hd
    by_cases h1 : k1 = k
    · simp [g_hash_table_store, GHashTable.keys, h1]
    · simp only [GHashTable.keys] at ih
      simp [g_hash_table_store, GHashTable.keys, h1, ih]

theorem wf_store (t : GHashTable) (k : String) (q : GQueue) (hwf : t.wf) :
    (g_hash_table_store t k q).wf := by
  unfold GHashTable.wf
  rw [keys_store]
  exact hwf

theorem freed_remove_store (t : GHashTable) (k : String) (q : GQueue) :
    (g_hash_table_remove (g_hash_table_store t k q) k).2 =
      if (g_hash_table_lookup t k).isSome then g_queue_free_all q else [] := by
  induction t with
  | nil => rfl
  | cons hd t ih =>
    obtain ⟨k1, q1⟩ := hd
    by_cases h1 : k1 = k
    · simp [g_hash_table_store, g_hash_table_remove, g_hash_table_lookup, h1]
    · simp [g_hash_table_store, g_hash_table_remove, g_hash_table_lookup, h1, ih]

theorem not_mem_keys_of_lookup_none (t : GHashTable) (k : String)
    (h : g_hash_table_lookup t k = none) : k ∉ t.keys := by
  induction t with
  | nil => simp [GHashTable.keys]
  | cons hd t ih =>
    obtain ⟨k1, q1⟩ := hd
    by_cases h1 : k1 = k
    · simp [g_hash_table_lookup, h1] at h
    · simp only [g_hash_table_lookup, h1, if_false] at h
      have h2 := ih h
      simp only [GHashTable.keys] at h2
      simp only [GHashTable.keys, List.map_cons, List.mem_cons, not_or]
      exact ⟨fun e => h1 e.symm, h2⟩

theorem keys_remove_sublist (t : GHashTable) (k : String) :
    List.Sublist (g_hash_table_remove t k).1.keys t.keys := by
  induction t with
  | nil => simp [g_hash_table_remove, GHashTable.keys]
  | cons hd t ih =>
    obtain ⟨k1, q1⟩ := hd
    by_cases h1 : k1 = k
    · simp [g_hash_table_remove, GHashTable.keys, h1]
    · simp only [GHashTable.keys] at ih
      simp only [g_hash_table_remove, h1, if_false, GHashTable.keys, List.map_cons]
      exact List.Sublist.cons₂ _ ih

theorem wf_remove_key (t : GHashTable) (k : String) (hwf : t.wf) :
    (g_hash_table_remove t k).1.wf :=
  List.Nodup.sublist (keys_remove_sublist t k) hwf

/-- Every call of `network_connection_pool_add` keeps the keys of `users` distinct. -/
theorem wf_add (pool : network_connection_pool) (sock : network_socket) (addr now : Nat)
    (hwf : pool.users.wf) : (network_connection_pool_add pool sock addr now).2.users.wf := by
  unfold network_connection_pool_add
  cases h : g_hash_table_lookup pool.users sock.username with
  | none =>
    have hk := not_mem_keys_of_lookup_none _ _ h
    simp only [GHashTable.keys] at hk
    simp only [GHashTable.wf, GHashTable.keys, g_hash_table_insert, List.map_append,
      List.map_cons, List.map_nil]
    rw [List.nodup_append]
    refine ⟨hwf, by simp, ?_⟩
    intro a ha hb
    simp only [List.mem_singleton] at hb
    subst hb
    exact hk ha
  | some conns => exact wf_store _ _ _ hwf

/-- Every call of `network_connection_pool_get` keeps the keys of `users` distinct. -/
theorem wf_get (pool : network_connection_pool) (username : String) (hwf : pool.users.wf) :
    (network_connection_pool_get pool username).pool.users.wf := by
  unfold network_connection_pool_get
  cases h : network_connection_pool_get_conns pool username with
  | none => exact hwf
  | some kq =>
    obtain ⟨k, conns⟩ := kq
    by_cases hl : conns.tail.length = 0
    · simp only [hl, if_true]
      exact wf_remove_key _ _ (wf_store _ _ _ hwf)
    · simp only [hl, if_false]
      exact wf_store _ _ _ hwf

/-- Every call of `network_connection_pool_remove` keeps the keys of `users`
distinct. -/
theorem wf_remove (pool : network_connection_pool) (entry : network_connection_pool_entry)
    (hwf : pool.users.wf) : (network_connection_pool_remove pool entry).1.users.wf := by
  unfold network_connection_pool_remove
  cases h : g_hash_table_lookup pool.users entry.sock.username with
  | none => exact hwf
  | some conns => exact wf_store _ _ _ hwf

theorem length_pos_of_ne_empty (s : String) (h : s ≠ "") : s.length > 0 := by
  rcases s with ⟨l⟩
  cases l with
  | nil => exact absurd rfl h
  | cons c l => simp [String.length]

theorem get_conns_own (pool : network_connection_pool) (username : String) (q : GQueue)
    (hne : username ≠ "") (hq : g_hash_table_lookup pool.users username = some q) :
    network_connection_pool_get_conns pool username = some (username, q) := by
  have hlen := length_pos_of_ne_empty username hne
  simp [network_connection_pool_get_conns, hlen, hq]

theorem get_conns_other (pool : network_connection_pool) (username : String)
    (hq : g_hash_table_lookup pool.users username = none) :
    network_connection_pool_get_conns pool username =
      g_hash_table_find pool.users (find_idle_conns pool.min_idle_connections) := by
  by_cases hlen : username.length > 0
  · simp [network_connection_pool_get_conns, hlen, hq]
  · simp [network_connection_pool_get_conns, hlen]

/-! ## Connection pool: the claims -/

/-- C1 (the claim fails on the code): on a fresh pool, whose `min_idle_connections`
is 0, that holds one socket of "alice", `get("bob")` hands out that socket and
leaves the emptied queue of "alice" in the mapping, because the key it removes is
"bob"; `remove` of the only entry of "alice" leaves her empty queue in the mapping
as well. -/
theorem pool_keeps_empty_queue :
    (network_connection_pool_get pool_alice "bob").sock = some ⟨1, "alice"⟩ ∧
    (network_connection_pool_get pool_alice "bob").pool.users = [("alice", [])] ∧
    (network_connection_pool_remove pool_alice ⟨100, ⟨1, "alice"⟩, 0⟩).1.users =
      [("alice", [])] := by
  decide

/-- C2: when a non-empty `username` has the non-empty queue `e :: rest`, `get`
returns the socket of the head entry `e`, leaves `rest` under `username` (or no
entry at all when `rest` is empty), leaves the queue of every other user as it
was and frees nothing; and `add` puts a new entry of that user behind `rest`, so
the head is the entry that was added first. -/
theorem get_pops_head_of_own_queue (pool : network_connection_pool) (username : String)
    (e : network_connection_pool_entry) (rest : GQueue)
    (hwf : pool.users.wf) (hne : username ≠ "")
    (hq : g_hash_table_lookup pool.users username = some (e :: rest)) :
    (network_connection_pool_get pool username).sock = some e.sock ∧
    g_hash_table_lookup (network_connection_pool_get pool username).pool.users username =
      (if rest = [] then none else some rest) ∧
    (∀ u, u ≠ username →
      g_hash_table_lookup (network_connection_pool_get pool username).pool.users u =
        g_hash_table_lookup pool.users u) ∧
    (network_connection_pool_get pool username).freed = [] ∧
    (network_connection_pool_get pool username).pool.min_idle_connections =
      pool.min_idle_connections ∧
    (∀ sock addr now, sock.username = username →
      g_hash_table_lookup (network_connection_pool_add pool sock addr now).2.users username =
        some (e :: rest ++ [⟨addr, sock, now⟩])) := by
  have hc := get_conns_own pool username (e :: rest) hne hq
  refine ⟨?_, ?_, ?_, ?_, ?_, ?_⟩
  · simp [network_connection_pool_get, hc]
  · cases rest with
    | nil =>
      have hwf1 := wf_store pool.users username [] hwf
      simp [network_connection_pool_get, hc, lookup_remove _ _ _ hwf1]
    | cons e1 rest => simp [network_connection_pool_get, hc, lookup_store, hq]
  · intro u hu
    cases rest with
    | nil =>
      have hwf1 := wf_store pool.users username [] hwf
      simp [network_connection_pool_get, hc, lookup_remove _ _ _ hwf1, hu, lookup_store]
    | cons e1 rest => simp [network_connection_pool_get, hc, lookup_store, hu]
  · cases rest with
    | nil => simp [network_connection_pool_get, hc, freed_remove_store, g_queue_free_all]
    | cons e1 rest => simp [network_connection_pool_get, hc]
  · cases rest with
    | nil => simp [network_connection_pool_get, hc]
    | cons e1 rest => simp [network_connection_pool_get, hc]
  · intro sock addr now hs
    subst hs
    simp [network_connection_pool_add, hq, lookup_store]

/-- C2, at the pool with alice = [a, b, c]: `get("alice")` returns a and leaves
[b, c]. -/
theorem get_pops_head_of_own_queue_witness :
    (network_connection_pool_get pool_abc "alice").sock = some ⟨1, "alice"⟩ ∧
    g_hash_table_lookup (network_connection_pool_get pool_abc "alice").pool.users "alice" =
      some [⟨101, ⟨2, "alice"⟩, 1⟩, ⟨102, ⟨3, "alice"⟩, 2⟩] :=
  have h := get_pops_head_of_own_queue pool_abc "alice" ⟨100, ⟨1, "alice"⟩, 0⟩
    [⟨101, ⟨2, "alice"⟩, 1⟩, ⟨102, ⟨3, "alice"⟩, 2⟩] (by decide) (by decide) (by decide)
  ⟨h.1, by simpa using h.2.1⟩

/-- C3: when `username` has no queue of its own, then (a) if some queue is longer
than `min_idle_connections`, `get` returns the socket of the head entry of such a
queue, leaves the rest of that queue in its order under the same key, leaves the
other queues as they were and frees nothing; (b) if no queue is longer than
`min_idle_connections`, `get` returns no socket and the pool is unchanged; and
(c) in the reuse scenario (`min_idle_connections = 1`, alice = [a, b, c])
`get("bob")` returns a and leaves alice = [b, c]. -/
theorem get_reassigns_idle_connection (pool : network_connection_pool) (username : String)
    (hwf : pool.users.wf) (hq : g_hash_table_lookup pool.users username = none) :
    ((∃ k q, g_hash_table_lookup pool.users k = some q ∧
          q.length > pool.min_idle_connections) →
      ∃ k e rest, g_hash_table_lookup pool.users k = some (e :: rest) ∧
        (e :: rest).length > pool.min_idle_connections ∧
        (network_connection_pool_get pool username).sock = some e.sock ∧
        g_hash_table_lookup (network_connection_pool_get pool username).pool.users k =
          some rest ∧
        (∀ u, u ≠ k →
          g_hash_table_lookup (network_connection_pool_get pool username).pool.users u =
            g_hash_table_lookup pool.users u) ∧
        (network_connection_pool_get pool username).freed = []) ∧
    ((∀ k q, g_hash_table_lookup pool.users k = some q →
          ¬ q.length > pool.min_idle_connections) →
      network_connection_pool_get pool username =
        { sock := none, pool := pool, freed := [] }) ∧
    ((network_connection_pool_get pool_abc "bob").sock = some ⟨1, "alice"⟩ ∧
      (network_connection_pool_get pool_abc "bob").pool.users =
        [("alice", [⟨101, ⟨2, "alice"⟩, 1⟩, ⟨102, ⟨3, "alice"⟩, 2⟩])]) := by
  have hc := get_conns_other pool username hq
  refine ⟨?_, ?_, by decide⟩
  · rintro ⟨k0, q0, hk0, hlen0⟩
    obtain ⟨⟨k, q⟩, hf⟩ := find_isSome pool.users
      (find_idle_conns pool.min_idle_connections) k0 q0 hk0 (by simp [find_idle_conns, hlen0])
    obtain ⟨hk, hp⟩ := find_some pool.users _ k q hf hwf
    have hlen : q.length > pool.min_idle_connections := by
      simpa [find_idle_conns] using hp
    cases q with
    | nil => simp at hlen
    | cons e rest =>
      have hku : username ≠ k := by
        intro heq
        rw [heq, hk] at hq
        exact absurd hq (by simp)
      have hstore : g_hash_table_lookup (g_hash_table_store pool.users k rest) username = none := by
        rw [lookup_store]
        simp [hku, hq]
      have hget : network_connection_pool_get pool username =
          { sock := some e.sock,
            pool := { pool with users := g_hash_table_store pool.users k rest },
            freed := [] } := by
        by_cases hr : rest.length = 0
        · simp [network_connection_pool_get, hc, hf, hr, remove_absent _ _ hstore]
        · simp [network_connection_pool_get, hc, hf, hr]
      refine ⟨k, e, rest, hk, hlen, ?_, ?_, ?_, ?_⟩
      · rw [hget]
      · rw [hget]
        simp [lookup_store, hk]
      · intro u hu
        rw [hget]
        simp [lookup_store, hu]
      · rw [hget]
  · intro hall
    have hf : g_hash_table_find pool.users (find_idle_conns pool.min_idle_connections) = none := by
      apply find_none _ _ _ hwf
      intro k q hk
      simpa [find_idle_conns] using hall k q hk
    simp [network_connection_pool_get, hc, hf]

/-- C3, at the pool with `min_idle_connections = 1` and alice = [a, b, c]:
`get("bob")` returns a and alice keeps [b, c]. -/
theorem get_reassigns_idle_connection_witness :
    ∃ k e rest, g_hash_table_lookup pool_abc.users k = some (e :: rest) ∧
      (e :: rest).length > pool_abc.min_idle_connections ∧
      (network_connection_pool_get pool_abc "bob").sock = some e.sock ∧
      g_hash_table_lookup (network_connection_pool_get pool_abc "bob").pool.users k =
        some rest :=
  have h := (get_reassigns_idle_connection pool_abc "bob" (by decide) (by decide)).1
    ⟨"alice", [⟨100, ⟨1, "alice"⟩, 0⟩, ⟨101, ⟨2, "alice"⟩, 1⟩, ⟨102, ⟨3, "alice"⟩, 2⟩],
      by decide, by decide⟩
  match h with
  | ⟨k, e, rest, h1, h2, h3, h4, _⟩ => ⟨k, e, rest, h1, h2, h3, h4⟩

/-- C4 (the claim fails on the code): on a fresh pool to which a socket of user "b"
and then a socket of the user with the empty name were added, `get("")` takes the
queue of "b" (the first one longer than `min_idle_connections = 0`), returns the
socket of "b", and, that queue being empty now, removes the key "" from the
mapping: the queue of the empty name is destroyed and its socket is freed, although
it was neither returned by a `get` nor passed to `remove`. -/
theorem get_frees_socket_of_other_queue :
    network_connection_pool_get pool_b_anon "" =
      { sock := some ⟨1, "b"⟩,
        pool := { users := [("b", [])], min_idle_connections := 0 },
        freed := [⟨2, ""⟩] } := by
  decide

theorem has_more_data_iff (p : network_packet) (n : Nat) :
    network_packet_has_more_data p n = true ↔ p.offset + n ≤ p.data.length := by
  unfold network_packet_has_more_data
  by_cases h1 : p.offset > p.data.length
  · simp only [h1, if_true]
    constructor
    · intro h; exact absurd h (by decide)
    · intro h; omega
  · by_cases h2 : n > p.data.length - p.offset
    · simp only [h1, h2, if_true, if_false]
      constructor
      · intro h; exact absurd h (by decide)
      · intro h; omega
    · simp only [h1, h2, if_false]
      constructor
      · intro _; omega
      · intro _; trivial

theorem get_data_eq (p : network_packet) (n : Nat) :
    network_packet_get_data p n =
      if p.offset + n ≤ p.data.length then
        some ((p.data.drop p.offset).take n, { p with offset := p.offset + n })
      else none := by
  unfold network_packet_get_data network_packet_peek_data
  by_cases h : p.offset + n ≤ p.data.length
  · have h1 := (has_more_data_iff p n).2 h
    simp [h1, h]
  · have h1 : network_packet_has_more_data p n = false := by
      cases hb : network_packet_has_more_data p n
      · rfl
      · exact absurd ((has_more_data_iff p n).1 hb) h
    simp [h1, h]

theorem get_data_some (p : network_packet) (n : Nat) (dst : List UInt8) (p1 : network_packet)
    (h : network_packet_get_data p n = some (dst, p1)) :
    p1 = { p with offset := p.offset + n } ∧ p.offset + n ≤ p.data.length ∧
      dst = (p.data.drop p.offset).take n := by
  rw [get_data_eq] at h
  by_cases hc : p.offset + n ≤ p.data.length
  · simp only [hc, if_true, Option.some.injEq, Prod.mk.injEq] at h
    exact ⟨h.2.symm, hc, h.1.symm⟩
  · simp [hc] at h

theorem get_id_post (p : network_packet) :
    ret_post (fun p1 => p1.data = p.data ∧ p1.offset = p.offset + 1 ∧ p1.offset ≤ p.data.length)
      (fun p1 => p1.data = p.data) (network_asn1_proto_get_id p) := by
  unfold network_asn1_proto_get_id
  split
  · simp [ret_post]
  · rename_i dst p1 h
    obtain ⟨h1, h2, _⟩ := get_data_some p 1 dst p1 h
    subst h1
    dsimp only
    split
    · simp [ret_post]
    · simp [ret_post, h2]

theorem get_length_post (p : network_packet) :
    ret_post (fun p1 => p1.data = p.data ∧ p.offset + 1 ≤ p1.offset ∧ p1.offset ≤ p.data.length)
      (fun p1 => p1.data = p.data) (network_asn1_proto_get_length p) := by
  unfold network_asn1_proto_get_length
  split
  · simp [ret_post]
  · rename_i dst p1 h
    obtain ⟨h1, h2, _⟩ := get_data_some p 1 dst p1 h
    subst h1
    dsimp only
    split
    · split
      · simp [ret_post]
      · split
        · simp [ret_post]
        · split
          · simp [ret_post]
          · split
            · simp [ret_post]
            · rename_i len_bytes p2 h3
              obtain ⟨h4, h5, _⟩ := get_data_some _ _ len_bytes p2 h3
              subst h4
              simp only [ret_post]
              simp only at h5
              refine ⟨trivial, ?_, ?_⟩ <;> omega
    · simp [ret_post, h2]

theorem get_header_post (p : network_packet) :
    ret_post (fun p1 => p1.data = p.data ∧ p.offset + 2 ≤ p1.offset ∧ p1.offset ≤ p.data.length)
      (fun p1 => p1.data = p.data) (network_asn1_proto_get_header p) := by
  unfold network_asn1_proto_get_header
  have h1 := get_id_post p
  split
  · simp [ret_post]
  · rename_i e p1 he
    rw [he] at h1
    simpa [ret_post] using h1
  · rename_i id p1 he
    rw [he] at h1
    simp only [ret_post] at h1
    have h2 := get_length_post p1
    split
    · simp [ret_post]
    · rename_i e p2 he2
      rw [he2] at h2
      simp only [ret_post] at h2
      simp only [ret_post]
      rw [h2, h1.1]
    · rename_i len p2 he2
      rw [he2] at h2
      simp only [ret_post] at h2
      simp only [ret_post]
      rw [h1.1] at h2
      refine ⟨h2.1, ?_, h2.2.2⟩
      omega

theorem skip_eq (p : network_packet) (n : Nat) :
    network_packet_skip p n =
      if p.offset + n ≤ p.data.length then (true, { p with offset := p.offset + n })
      else (false, p) := by
  unfold network_packet_skip
  by_cases h : p.offset + n ≤ p.data.length
  · have h1 := (has_more_data_iff p n).2 h
    simp [h1, h]
  · have h1 : network_packet_has_more_data p n = false := by
      cases hb : network_packet_has_more_data p n
      · rfl
      · exact absurd ((has_more_data_iff p n).1 hb) h
    simp [h1, h]

theorem has_more_data_false (p : network_packet) (n : Nat)
    (h : ¬ network_packet_has_more_data p n = true) :
    network_packet_has_more_data p n = false := by
  cases hb : network_packet_has_more_data p n
  · rfl
  · exact absurd hb h

/-- With `r + 1` units of fuel for a view with `r` unread bytes, and `len + 2` units
for the loop over `len` announced bytes, the walk ends; it never changes the
bytes; when it succeeds it has consumed a whole element (at least two bytes), and
the loop has consumed exactly `len` bytes. -/
theorem is_valid_fuel_total (fuel : Nat) :
    (∀ p : network_packet, p.data.length - p.offset + 1 ≤ fuel →
      ∃ r, network_asn1_is_valid_internal_fuel fuel p = some r ∧
        ret_post (fun p1 => p1.data = p.data ∧ p.offset + 2 ≤ p1.offset ∧
            p1.offset ≤ p.data.length)
          (fun p1 => p1.data = p.data) r) ∧
    (∀ (id : ASN1Identifier) (len : Nat) (p : network_packet),
      p.offset + len ≤ p.data.length → len + 2 ≤ fuel →
      ∃ r, is_valid_while fuel id len p = some r ∧
        ret_post (fun p1 => p1.data = p.data ∧ p1.offset = p.offset + len)
          (fun p1 => p1.data = p.data) r) := by
  induction fuel with
  | zero =>
    refine ⟨?_, ?_⟩
    · intro p hp; omega
    · intro id len p _ hf; omega
  | succ f ih =>
    obtain ⟨ihI, ihW⟩ := ih
    refine ⟨?_, ?_⟩
    · intro p hp
      rw [network_asn1_is_valid_internal_fuel]
      have hh := get_header_post p
      split
      · exact ⟨_, rfl, trivial⟩
      · rename_i e p1 he
        rw [he] at hh
        exact ⟨_, rfl, hh⟩
      · rename_i id len p1 he
        rw [he] at hh
        simp only [ret_post] at hh
        obtain ⟨hd, ho1, ho2⟩ := hh
        by_cases hm : network_packet_has_more_data p1 len = true
        · simp only [hm, Bool.not_true, Bool.false_eq_true, if_false]
          have hb := (has_more_data_iff p1 len).1 hm
          rw [hd] at hb
          obtain ⟨r, hr, hpost⟩ := ihW id len p1 (by rw [hd]; exact hb) (by omega)
          refine ⟨r, hr, ?_⟩
          cases r with
          | assert_failed => trivial
          | fail e p2 =>
            simp only [ret_post] at hpost ⊢
            rw [hpost, hd]
          | ok v p2 =>
            simp only [ret_post] at hpost ⊢
            refine ⟨by rw [hpost.1, hd], ?_, ?_⟩ <;> omega
        · simp only [has_more_data_false p1 len hm, Bool.not_false, if_true]
          exact ⟨_, rfl, hd⟩
    · intro id len p hb hf
      rw [is_valid_while]
      by_cases hl : len = 0
      · subst hl
        simp only [if_true]
        exact ⟨_, rfl, rfl, rfl⟩
      · simp only [hl, if_false]
        by_cases hn : is_nested id = true
        · simp only [hn, if_true]
          have hsub : ((p.data.drop p.offset).take len).length = len := by
            simp only [List.length_take, List.length_drop]
            omega
          obtain ⟨r0, hr0, hpost0⟩ :=
            ihI { data := (p.data.drop p.offset).take len, offset := 0 }
              (by simp only [hsub]; omega)
          rw [hr0]
          cases r0 with
          | assert_failed => exact ⟨_, rfl, trivial⟩
          | fail e p2 => exact ⟨_, rfl, rfl⟩
          | ok v sub =>
            simp only [ret_post, hsub] at hpost0
            obtain ⟨_, hs1, hs2⟩ := hpost0
            have hle : sub.offset ≤ len := hs2
            have hskip : network_packet_skip p sub.offset =
                (true, { p with offset := p.offset + sub.offset }) := by
              rw [skip_eq]
              have : p.offset + sub.offset ≤ p.data.length := by omega
              simp [this]
            simp only [hle, not_true_eq_false, if_false, hskip]
            obtain ⟨r, hr, hpost⟩ := ihW id (len - sub.offset)
              { p with offset := p.offset + sub.offset }
              (by simp only; omega) (by omega)
            have hconv : ret_post (fun p1 => p1.data = p.data ∧ p1.offset = p.offset + len)
                (fun p1 => p1.data = p.data) r := by
              cases r with
              | assert_failed => trivial
              | fail e p2 => exact hpost
              | ok v p2 =>
                simp only [ret_post] at hpost ⊢
                refine ⟨hpost.1, ?_⟩
                omega
            by_cases hseq : is_sequence id = true
            · simp only [hseq, if_true]
              exact ⟨r, hr, hconv⟩
            · simp only [hseq, Bool.false_eq_true, if_false]
              by_cases hl1 : len - sub.offset = 0
              · simp only [hl1, ne_eq, not_true_eq_false, if_false]
                rw [hl1] at hr
                exact ⟨r, hr, hconv⟩
              · simp only [hl1, ne_eq, not_false_eq_true, if_true]
                exact ⟨_, rfl, rfl⟩
        · simp only [hn, Bool.false_eq_true, if_false]
          have hskip : network_packet_skip p len =
              (true, { p with offset := p.offset + len }) := by
            rw [skip_eq]
            simp [hb]
          rw [hskip]
          obtain ⟨r, hr, hpost⟩ := ihW id 0 { p with offset := p.offset + len }
            (by simp only; omega) (by omega)
          refine ⟨r, hr, ?_⟩
          cases r with
          | assert_failed => trivial
          | fail e p2 => exact hpost
          | ok v p2 =>
            simp only [ret_post] at hpost ⊢
            exact ⟨hpost.1, by omega⟩

/-- A run that ends within `fuel` gives the same result with one more unit. -/
theorem is_valid_fuel_succ (fuel : Nat) :
    (∀ (p : network_packet) (r : asn1_ret Unit),
      network_asn1_is_valid_internal_fuel fuel p = some r →
      network_asn1_is_valid_internal_fuel (fuel + 1) p = some r) ∧
    (∀ (id : ASN1Identifier) (len : Nat) (p : network_packet) (r : asn1_ret Unit),
      is_valid_while fuel id len p = some r →
      is_valid_while (fuel + 1) id len p = some r) := by
  induction fuel with
  | zero =>
    refine ⟨?_, ?_⟩
    · intro p r h
      simp [network_asn1_is_valid_internal_fuel] at h
    · intro id len p r h
      simp [is_valid_while] at h
  | succ f ih =>
    obtain ⟨ihI, ihW⟩ := ih
    refine ⟨?_, ?_⟩
    · intro p r h
      rw [network_asn1_is_valid_internal_fuel] at h
      rw [network_asn1_is_valid_internal_fuel]
      split at h
      · exact h
      · exact h
      · rename_i id len p1 he
        split at h
        · rename_i hc
          simp only [hc, if_true]
          exact h
        · rename_i hc
          simp only [hc, if_false]
          exact ihW _ _ _ _ h
    · intro id len p r h
      rw [is_valid_while] at h
      rw [is_valid_while]
      by_cases hl : len = 0
      · simp only [hl, if_true] at h ⊢
        exact h
      · simp only [hl, if_false] at h ⊢
        by_cases hn : is_nested id = true
        · simp only [hn, if_true] at h ⊢
          cases hsub : network_asn1_is_valid_internal_fuel f
              { data := (p.data.drop p.offset).take len, offset := 0 } with
          | none =>
            rw [hsub] at h
            simp at h
          | some r0 =>
            rw [hsub] at h
            rw [ihI _ _ hsub]
            cases r0 with
            | assert_failed => exact h
            | fail e p2 => exact h
            | ok v sub =>
              dsimp only at h ⊢
              by_cases hle : sub.offset ≤ len
              · simp only [hle, not_true_eq_false, if_false] at h ⊢
                by_cases hseq : is_sequence id = true
                · simp only [hseq, if_true] at h ⊢
                  exact ihW _ _ _ _ h
                · simp only [hseq, Bool.false_eq_true, if_false] at h ⊢
                  by_cases hl1 : len - sub.offset = 0
                  · simp only [hl1, ne_eq, not_true_eq_false, if_false] at h ⊢
                    exact ihW _ _ _ _ h
                  · simp only [hl1, ne_eq, not_false_eq_true, if_true] at h ⊢
                    exact h
              · simp only [hle, not_false_eq_true, if_true] at h ⊢
                exact h
        · simp only [hn, Bool.false_eq_true, if_false] at h ⊢
          cases hs : network_packet_skip p len with
          | mk b p1 =>
            rw [hs] at h
            cases b with
            | false => exact h
            | true => exact ihW _ _ _ _ h

theorem is_valid_fuel_mono (fuel k : Nat) (p : network_packet) (r : asn1_ret Unit)
    (h : network_asn1_is_valid_internal_fuel fuel p = some r) :
    network_asn1_is_valid_internal_fuel (fuel + k) p = some r := by
  induction k with
  | zero => exact h
  | succ k ih => exact (is_valid_fuel_succ (fuel + k)).1 p r ih

theorem is_valid_while_mono (fuel k : Nat) (id : ASN1Identifier) (len : Nat)
    (p : network_packet) (r : asn1_ret Unit) (h : is_valid_while fuel id len p = some r) :
    is_valid_while (fuel + k) id len p = some r := by
  induction k with
  | zero => exact h
  | succ k ih => exact (is_valid_fuel_succ (fuel + k)).2 id len p r ih

/-- The walk of `network_asn1_is_valid_internal` ends on every view, without
changing the bytes. -/
theorem is_valid_internal_total (p : network_packet) :
    ∃ r, network_asn1_is_valid_internal p = some r ∧
      ret_post (fun p1 => p1.data = p.data ∧ p.offset + 2 ≤ p1.offset ∧
          p1.offset ≤ p.data.length)
        (fun p1 => p1.data = p.data) r :=
  (is_valid_fuel_total (p.data.length + 1)).1 p (by omega)

/-! ## ASN.1: the claims -/

/-- C5: on every packet view `network_asn1_is_valid` ends, and unless an assertion
aborts the process it returns (with success or with one of the errors EOF, INVALID,
UNSUPPORTED) leaving the view exactly as it was: same cursor, same bytes. -/
theorem is_valid_restores_packet (packet : network_packet) :
    network_asn1_is_valid packet = some .assert_failed ∨
    network_asn1_is_valid packet = some (.ok () packet) ∨
    ∃ e, network_asn1_is_valid packet = some (.fail e packet) := by
  obtain ⟨r, hr, hpost⟩ := is_valid_internal_total packet
  unfold network_asn1_is_valid
  rw [hr]
  cases r with
  | assert_failed => exact Or.inl rfl
  | fail e p1 =>
    simp only [ret_post] at hpost
    refine Or.inr (Or.inr ⟨e, ?_⟩)
    cases p1
    simp only at hpost
    simp [hpost]
  | ok v p1 =>
    simp only [ret_post] at hpost
    refine Or.inr (Or.inl ?_)
    cases p1
    simp only at hpost
    simp [hpost.1]

set_option maxRecDepth 100000 in
theorem length_bits : ∀ n, n < 256 →
    ((n &&& 0x80 ≠ 0 ↔ 0x80 ≤ n) ∧ (0x80 ≤ n → n &&& 0x7f = n - 0x80)) := by
  decide

/-- Reading the first of the unread bytes. -/
theorem get_data_one (p : network_packet) (b : UInt8) (rest : List UInt8)
    (h : p.data.drop p.offset = b :: rest) :
    network_packet_get_data p 1 = some ([b], { p with offset := p.offset + 1 }) := by
  have hlen : (p.data.drop p.offset).length = rest.length + 1 := by rw [h]; rfl
  simp only [List.length_drop] at hlen
  rw [get_data_eq, h]
  have hle : p.offset + 1 ≤ p.data.length := by omega
  simp [hle]

/-- Reading the first `n` of the unread bytes. -/
theorem get_data_many (p : network_packet) (n : Nat) (rest : List UInt8)
    (h : p.data.drop p.offset = rest) (hn : n ≤ rest.length) (hpos : 0 < n) :
    network_packet_get_data p n = some (rest.take n, { p with offset := p.offset + n }) := by
  have hlen : (p.data.drop p.offset).length = rest.length := by rw [h]
  simp only [List.length_drop] at hlen
  rw [get_data_eq, h]
  have hle : p.offset + n ≤ p.data.length := by omega
  simp [hle]

theorem get_data_none (p : network_packet) (n : Nat) (rest : List UInt8)
    (h : p.data.drop p.offset = rest) (hn : rest.length < n) :
    network_packet_get_data p n = none := by
  have hlen : (p.data.drop p.offset).length = rest.length := by rw [h]
  simp only [List.length_drop] at hlen
  rw [get_data_eq]
  have hle : ¬ p.offset + n ≤ p.data.length := by omega
  simp [hle]

theorem get_length_for_eq_be_value (bs : List UInt8) (hlen : bs.length ≤ 8) :
    get_length_for bs = be_value bs := by
  have key : ∀ (l : List UInt8) (k acc : Nat), acc < 2 ^ (8 * k) → l.length + k ≤ 8 →
      l.foldl (fun len x => ((len <<< 8) % 2 ^ 64) ||| x.toNat) acc =
        l.foldl (fun acc x => acc * 256 + x.toNat) acc := by
    intro l
    induction l with
    | nil => intro k acc _ _; rfl
    | cons x l ih =>
      intro k acc hacc hk
      simp only [List.length_cons] at hk
      simp only [List.foldl_cons]
      have hx : x.toNat < 2 ^ 8 := x.toNat_lt_size
      have hpow : (2 : Nat) ^ (8 * k) ≤ 2 ^ 56 :=
        Nat.pow_le_pow_right (by decide) (by omega)
      have hlt : acc * 256 < 2 ^ 64 := by omega
      have hstep : ((acc <<< 8) % 2 ^ 64) ||| x.toNat = acc * 256 + x.toNat := by
        rw [Nat.shiftLeft_eq, show (2 : Nat) ^ 8 = 256 by rfl, Nat.mod_eq_of_lt hlt]
        have h := Nat.mul_add_lt_is_or hx acc
        rw [show (2 : Nat) ^ 8 = 256 by rfl, Nat.mul_comm 256 acc] at h
        exact h.symm
      rw [hstep]
      apply ih (k + 1) _ _ (by omega)
      have e : (2 : Nat) ^ (8 * (k + 1)) = 2 ^ (8 * k) * 256 := by
        rw [Nat.mul_add, Nat.pow_add]
      rw [e]
      have h256 : x.toNat < 256 := hx
      nlinarith
  exact key bs 0 0 (by decide) (by omega)

/-- What `network_asn1_proto_get_length` does, by the first unread byte `b`:
short form, length byte `80`, more than eight length bytes, exactly eight length
bytes (the assertion fails), and one to seven length bytes, missing or there. -/
theorem get_length_eq (p : network_packet) (b : UInt8) (rest : List UInt8)
    (h : p.data.drop p.offset = b :: rest) :
    network_asn1_proto_get_length p =
      if b.toNat < 0x80 then .ok b.toNat { p with offset := p.offset + 1 }
      else if b.toNat = 0x80 then .fail .INVALID { p with offset := p.offset + 1 }
      else if b.toNat > 0x88 then .fail .UNSUPPORTED { p with offset := p.offset + 1 }
      else if b.toNat = 0x88 then .assert_failed
      else if rest.length < b.toNat - 0x80 then .fail .EOF { p with offset := p.offset + 1 }
      else .ok (be_value (rest.take (b.toNat - 0x80)))
        { p with offset := p.offset + 1 + (b.toNat - 0x80) } := by
  have hb : b.toNat < 256 := b.toNat_lt_size
  obtain ⟨hbit, hlow⟩ := length_bits b.toNat hb
  have hrest : ({ p with offset := p.offset + 1 } : network_packet).data.drop
      ({ p with offset := p.offset + 1 } : network_packet).offset = rest := by
    simp only
    rw [← List.drop_drop, h]
    rfl
  unfold network_asn1_proto_get_length
  rw [get_data_one p b rest h]
  simp only [List.headD_cons]
  by_cases h1 : b.toNat < 0x80
  · have h2 : ¬ (b.toNat &&& 0x80 ≠ 0) := fun hc => absurd (hbit.1 hc) (by omega)
    rw [if_neg h2, if_pos h1]
  · have h2 : b.toNat &&& 0x80 ≠ 0 := hbit.2 (by omega)
    have h3 : b.toNat &&& 0x7f = b.toNat - 0x80 := hlow (by omega)
    rw [if_pos h2, if_neg h1, h3]
    by_cases h4 : b.toNat = 0x80
    · have h5 : b.toNat - 0x80 = 0 := by omega
      rw [if_pos h5, if_pos h4]
    · have h5 : ¬ b.toNat - 0x80 = 0 := by omega
      rw [if_neg h5, if_neg h4]
      by_cases h6 : b.toNat > 0x88
      · have h7 : b.toNat - 0x80 > 8 := by omega
        rw [if_pos h7, if_pos h6]
      · have h7 : ¬ b.toNat - 0x80 > 8 := by omega
        rw [if_neg h7, if_neg h6]
        by_cases h8 : b.toNat = 0x88
        · have h9 : ¬ b.toNat - 0x80 < 8 := by omega
          rw [if_pos h9, if_pos h8]
        · have h9 : ¬ ¬ b.toNat - 0x80 < 8 := by omega
          rw [if_neg h9, if_neg h8]
          by_cases h10 : rest.length < b.toNat - 0x80
          · rw [if_pos h10, get_data_none _ _ rest hrest h10]
          · rw [if_neg h10, get_data_many _ _ rest hrest (by omega) (by omega)]
            simp only
            rw [get_length_for_eq_be_value _ (by simp only [List.length_take]; omega)]

set_option maxRecDepth 100000 in
theorem id_bits : ∀ n, n < 256 → (n &&& 0x1f = n % 32 ∧ (n >>> 6) &&& 0x3 = n / 64 % 4 ∧
    (n >>> 5) &&& 0x1 = n / 32 % 2) := by
  decide

/-- What `network_asn1_proto_get_id` does, by the first unread byte `b`: tag 31 is
UNSUPPORTED, otherwise the class is bits 7-6, the constructed flag bit 5 and the
tag bits 4-0, and the cursor has advanced by one. -/
theorem get_id_eq (p : network_packet) (b : UInt8) (rest : List UInt8)
    (h : p.data.drop p.offset = b :: rest) :
    network_asn1_proto_get_id p =
      if b.toNat % 32 = 31 then .fail .UNSUPPORTED { p with offset := p.offset + 1 }
      else .ok { klass := b.toNat / 64 % 4, type := b.toNat / 32 % 2, value := b.toNat % 32 }
        { p with offset := p.offset + 1 } := by
  have hb : b.toNat < 256 := b.toNat_lt_size
  obtain ⟨b1, b2, b3⟩ := id_bits b.toNat hb
  unfold network_asn1_proto_get_id
  rw [get_data_one p b rest h]
  simp only [List.headD_cons, b1, b2, b3]

/-- With no unread byte, `network_asn1_proto_get_id` and
`network_asn1_proto_get_length` fail with EOF. -/
theorem get_id_length_eof (p : network_packet) (h : p.data.length ≤ p.offset) :
    network_asn1_proto_get_id p = .fail .EOF p ∧
    network_asn1_proto_get_length p = .fail .EOF p := by
  have hn : network_packet_get_data p 1 = none := by
    rw [get_data_eq]
    have : ¬ p.offset + 1 ≤ p.data.length := by omega
    simp [this]
  simp [network_asn1_proto_get_id, network_asn1_proto_get_length, hn]

theorem tag_bits : ∀ n, n < 31 →
    (n &&& 0x1f = n ∧ (n >>> 6) &&& 0x3 = 0 ∧ (n >>> 5) &&& 0x1 = 0) := by
  decide

theorem short_length_bits : ∀ n, n < 128 → n &&& 0x80 = 0 := by
  decide

/-- The header of an element whose length has the short form, read at the start of
a view. -/
theorem get_header_short (b l : UInt8) (rest : List UInt8)
    (hb : b.toNat &&& 0x1f ≠ 0x1f) (hl : l.toNat &&& 0x80 = 0) :
    network_asn1_proto_get_header ⟨b :: l :: rest, 0⟩ =
      .ok ({ klass := (b.toNat >>> 6) &&& 0x3, type := (b.toNat >>> 5) &&& 0x1,
             value := b.toNat &&& 0x1f }, l.toNat) ⟨b :: l :: rest, 2⟩ := by
  simp [network_asn1_proto_get_header, network_asn1_proto_get_id,
    network_asn1_proto_get_length, get_data_eq, hb, hl]

theorem encode_length (e : der_primitive) : e.encode.length = e.content.length + 2 := by
  simp [der_primitive.encode]

/-- The walk over one primitive element at the start of a view consumes the
element. -/
theorem is_valid_primitive (e : der_primitive) (rest : List UInt8) (fuel : Nat)
    (hwf : e.wf) :
    network_asn1_is_valid_internal_fuel (fuel + 3) ⟨e.encode ++ rest, 0⟩ =
      some (.ok () ⟨e.encode ++ rest, e.encode.length⟩) := by
  obtain ⟨h1, h2, h3⟩ := hwf
  obtain ⟨t1, t2, t3⟩ := tag_bits e.id.toNat h1
  have hlen : (UInt8.ofNat e.content.length).toNat = e.content.length :=
    UInt8.toNat_ofNat_of_lt (by simp only [UInt8.size]; omega)
  have hb : e.id.toNat &&& 0x1f ≠ 0x1f := by rw [t1]; omega
  have hl : (UInt8.ofNat e.content.length).toNat &&& 0x80 = 0 := by
    rw [hlen]; exact short_length_bits _ (by omega)
  have hh := get_header_short e.id (UInt8.ofNat e.content.length) (e.content ++ rest) hb hl
  rw [t1, t2, t3, hlen] at hh
  have hdata : e.encode ++ rest = e.id :: UInt8.ofNat e.content.length :: (e.content ++ rest) := by
    simp [der_primitive.encode]
  rw [encode_length, hdata, network_asn1_is_valid_internal_fuel, hh]
  have hm : network_packet_has_more_data
      ⟨e.id :: UInt8.ofNat e.content.length :: (e.content ++ rest), 2⟩ e.content.length = true := by
    rw [has_more_data_iff]
    simp
    omega
  have hnest : is_nested ⟨0, 0, e.id.toNat⟩ = false := by
    simp [is_nested, ASN1_IDENTIFIER_KLASS_APPLICATION, ASN1_IDENTIFIER_KLASS_CONTEXT_SPECIFIC,
      ASN1_IDENTIFIER_KLASS_UNIVERSAL, ASN1_IDENTIFIER_UNIVERSAL_SEQUENCE, h2]
  simp only [hm, Bool.not_true, Bool.false_eq_true, if_false]
  rw [is_valid_while]
  by_cases h0 : e.content.length = 0
  · simp [h0]
  · simp only [h0, if_false, hnest, Bool.false_eq_true, skip_eq]
    have hle : 2 + e.content.length ≤
        (e.id :: UInt8.ofNat e.content.length :: (e.content ++ rest)).length := by
      simp
      omega
    simp only [hle, if_true]
    rw [is_valid_while]
    simp only [if_true, Nat.add_zero, Nat.add_comm]

theorem encode_all_length (es : List der_primitive) :
    2 * es.length ≤ (der_encode_all es).length := by
  induction es with
  | nil => simp [der_encode_all]
  | cons e es ih =>
    simp only [der_encode_all, List.length_append, List.length_cons, encode_length]
    omega

/-- The loop of a SEQUENCE over the encodings of primitive elements consumes them
all. -/
theorem is_valid_while_primitives (es : List der_primitive) (hwf : ∀ e ∈ es, e.wf)
    (id : ASN1Identifier) (hseq : is_sequence id = true) :
    ∀ (pre : List UInt8) (fuel : Nat), 2 * es.length + 2 ≤ fuel →
      is_valid_while fuel id (der_encode_all es).length
          ⟨pre ++ der_encode_all es, pre.length⟩ =
        some (.ok () ⟨pre ++ der_encode_all es, pre.length + (der_encode_all es).length⟩) := by
  have hnest : is_nested id = true := by
    simp only [is_sequence] at hseq
    simp [is_nested, hseq]
  induction es with
  | nil =>
    intro pre fuel hf
    obtain ⟨f, rfl⟩ : ∃ f, fuel = f + 1 := ⟨fuel - 1, by omega⟩
    simp [is_valid_while, der_encode_all]
  | cons e es ih =>
    intro pre fuel hf
    obtain ⟨f, rfl⟩ : ∃ f, fuel = f + 4 := ⟨fuel - 4, by simp only [List.length_cons] at hf; omega⟩
    have hwe : e.wf := hwf e (List.mem_cons_self _ _)
    have hwes : ∀ x ∈ es, x.wf := fun x hx => hwf x (List.mem_cons_of_mem _ hx)
    have hne : ¬ (der_encode_all (e :: es)).length = 0 := by
      simp only [der_encode_all, List.length_append, encode_length]
      omega
    rw [is_valid_while]
    simp only [hne, if_false, hnest, if_true]
    have hsub : List.take (der_encode_all (e :: es)).length
        (List.drop pre.length (pre ++ der_encode_all (e :: es))) =
        e.encode ++ der_encode_all es := by
      simp [der_encode_all]
    simp only [hsub]
    rw [is_valid_primitive e (der_encode_all es) f hwe]
    have hle : e.encode.length ≤ (der_encode_all (e :: es)).length := by
      simp [der_encode_all]
    have hskip : network_packet_skip ⟨pre ++ der_encode_all (e :: es), pre.length⟩
        e.encode.length =
        (true, ⟨pre ++ der_encode_all (e :: es), pre.length + e.encode.length⟩) := by
      rw [skip_eq]
      simp [der_encode_all]
    simp only [hle, not_true_eq_false, if_false, hskip, hseq, if_true]
    have hlen1 : (der_encode_all (e :: es)).length - e.encode.length =
        (der_encode_all es).length := by
      simp [der_encode_all]
    have hih := ih hwes (pre ++ e.encode) (f + 3) (by simp only [List.length_cons] at hf; omega)
    rw [hlen1]
    simp only [der_encode_all, List.append_assoc, List.length_append] at hih ⊢
    rw [hih]
    simp [Nat.add_assoc]

/-- C6 (the claim fails on the code for N = 8): on the length bytes
`88 00 00 00 00 00 00 00 01`, a long form with eight length bytes that encodes 1,
`network_asn1_proto_get_length` does not return: the assertion
`len_len < sizeof(len_bytes)` fails, `sizeof(len_bytes)` being 8.  With seven length
bytes, `87 00 00 00 00 00 00 01`, it returns 1 and has advanced by 8. -/
theorem get_length_eight_bytes_asserts :
    network_asn1_proto_get_length ⟨[0x88, 0, 0, 0, 0, 0, 0, 0, 1], 0⟩ = .assert_failed ∧
    network_asn1_proto_get_length ⟨[0x87, 0, 0, 0, 0, 0, 0, 1], 0⟩ =
      .ok 1 ⟨[0x87, 0, 0, 0, 0, 0, 0, 1], 8⟩ := by
  decide

/-- C7 (the claim fails on the code for N = 8): on the bytes `30 88 01`, a header
whose length byte announces eight length bytes of which one is there,
`network_asn1_proto_get_header` does not return EOF: the assertion
`len_len < sizeof(len_bytes)` of `network_asn1_proto_get_length` fails first.  With
seven announced length bytes, `30 87 01`, the result is EOF. -/
theorem get_header_eight_bytes_asserts :
    network_asn1_proto_get_header ⟨[0x30, 0x88, 0x01], 0⟩ = .assert_failed ∧
    network_asn1_proto_get_header ⟨[0x30, 0x87, 0x01], 0⟩ =
      .fail .EOF ⟨[0x30, 0x87, 0x01], 2⟩ := by
  decide

/-- C8: for every list of primitive universal elements (tag below 31 and not
SEQUENCE, short-form length) whose encodings have `L ≤ 127` bytes in total, the
bytes `30 L` followed by the encodings validate, and the walk consumes all `2 + L`
bytes. -/
theorem sequence_of_primitives_valid (es : List der_primitive) (hwf : ∀ e ∈ es, e.wf)
    (hL : (der_encode_all es).length ≤ 127) :
    network_asn1_is_valid ⟨der_sequence es, 0⟩ = some (.ok () ⟨der_sequence es, 0⟩) ∧
    network_asn1_is_valid_internal ⟨der_sequence es, 0⟩ =
      some (.ok () ⟨der_sequence es, 2 + (der_encode_all es).length⟩) := by
  have hlen : (UInt8.ofNat (der_encode_all es).length).toNat = (der_encode_all es).length :=
    UInt8.toNat_ofNat_of_lt (by simp only [UInt8.size]; omega)
  have hl : (UInt8.ofNat (der_encode_all es).length).toNat &&& 0x80 = 0 := by
    rw [hlen]; exact short_length_bits _ (by omega)
  have hh := get_header_short 0x30 (UInt8.ofNat (der_encode_all es).length)
    (der_encode_all es) (by decide) hl
  rw [hlen] at hh
  have hm : network_packet_has_more_data
      ⟨0x30 :: UInt8.ofNat (der_encode_all es).length :: der_encode_all es, 2⟩
      (der_encode_all es).length = true := by
    rw [has_more_data_iff]
    simp
    omega
  have hw := is_valid_while_primitives es hwf
    { klass := ((0x30 : UInt8).toNat >>> 6) &&& 0x3, type := ((0x30 : UInt8).toNat >>> 5) &&& 0x1,
      value := (0x30 : UInt8).toNat &&& 0x1f } (by decide)
    [0x30, UInt8.ofNat (der_encode_all es).length] ((der_encode_all es).length + 2)
    (by have := encode_all_length es; omega)
  have hint : network_asn1_is_valid_internal ⟨der_sequence es, 0⟩ =
      some (.ok () ⟨der_sequence es, 2 + (der_encode_all es).length⟩) := by
    simp only [network_asn1_is_valid_internal, der_sequence, List.length_cons]
    rw [network_asn1_is_valid_internal_fuel, hh]
    simp only [hm, Bool.not_true, Bool.false_eq_true, if_false]
    simpa using hw
  refine ⟨?_, hint⟩
  simp only [network_asn1_is_valid, hint]

/-- C8, at the two INTEGERs 1 and 2: the bytes `30 06 02 01 01 02 01 02` validate
and the walk consumes 8 bytes. -/
theorem sequence_of_primitives_valid_witness :
    network_asn1_is_valid ⟨[0x30, 0x06, 0x02, 0x01, 0x01, 0x02, 0x01, 0x02], 0⟩ =
      some (.ok () ⟨[0x30, 0x06, 0x02, 0x01, 0x01, 0x02, 0x01, 0x02], 0⟩) ∧
    network_asn1_is_valid_internal ⟨[0x30, 0x06, 0x02, 0x01, 0x01, 0x02, 0x01, 0x02], 0⟩ =
      some (.ok () ⟨[0x30, 0x06, 0x02, 0x01, 0x01, 0x02, 0x01, 0x02], 8⟩) :=
  sequence_of_primitives_valid [⟨0x02, [0x01]⟩, ⟨0x02, [0x02]⟩] (by decide) (by decide)

/-- C9: for an element whose class is application or context-specific and whose
announced length `len` is not 0, `network_asn1_is_valid` succeeds exactly when the
`len` content bytes are there and the walk over the content view succeeds having
consumed all `len` bytes; when the walk over the content succeeds but stops before
the end of the content, the result is INVALID. -/
theorem nested_content_consumed (packet : network_packet) (id : ASN1Identifier) (len : Nat)
    (p1 : network_packet)
    (hh : network_asn1_proto_get_header packet = .ok (id, len) p1)
    (hk : id.klass = ASN1_IDENTIFIER_KLASS_APPLICATION ∨
      id.klass = ASN1_IDENTIFIER_KLASS_CONTEXT_SPECIFIC)
    (hlen : len ≠ 0) :
    (network_asn1_is_valid packet = some (.ok () packet) ↔
      (network_packet_has_more_data p1 len = true ∧
        ∃ sub, network_asn1_is_valid_internal ⟨(p1.data.drop p1.offset).take len, 0⟩ =
          some (.ok () sub) ∧ sub.offset = len)) ∧
    (∀ sub, network_asn1_is_valid_internal ⟨(p1.data.drop p1.offset).take len, 0⟩ =
        some (.ok () sub) → sub.offset < len →
      network_asn1_is_valid packet = some (.fail .INVALID packet)) := by
  obtain ⟨hd, ho1, ho2⟩ : p1.data = packet.data ∧ packet.offset + 2 ≤ p1.offset ∧
      p1.offset ≤ packet.data.length := by
    have h := get_header_post packet
    rw [hh] at h
    exact h
  have hnest : is_nested id = true := by
    rcases hk with h | h <;> simp [is_nested, h]
  have hnseq : is_sequence id = false := by
    rcases hk with h | h <;>
      simp [is_sequence, h, ASN1_IDENTIFIER_KLASS_APPLICATION,
        ASN1_IDENTIFIER_KLASS_CONTEXT_SPECIFIC, ASN1_IDENTIFIER_KLASS_UNIVERSAL]
  obtain ⟨L, hL⟩ : ∃ L, packet.data.length = L + 2 := ⟨packet.data.length - 2, by omega⟩
  have hrestore : ∀ q : network_packet, q.data = packet.data →
      ({ q with offset := packet.offset } : network_packet) = packet := by
    intro q hq
    cases q
    cases packet
    simp only at hq
    simp [hq]
  by_cases hm : network_packet_has_more_data p1 len = true
  · have hb := (has_more_data_iff p1 len).1 hm
    have hsublen : ((p1.data.drop p1.offset).take len).length = len := by
      simp only [List.length_take, List.length_drop]
      omega
    obtain ⟨r0, hr0, hpost0⟩ :=
      is_valid_internal_total ⟨(p1.data.drop p1.offset).take len, 0⟩
    have hr1 : network_asn1_is_valid_internal_fuel (L + 1)
        ⟨(p1.data.drop p1.offset).take len, 0⟩ = some r0 := by
      have h := is_valid_fuel_mono (len + 1) (L - len)
        ⟨(p1.data.drop p1.offset).take len, 0⟩ r0
        (by simpa only [network_asn1_is_valid_internal, hsublen] using hr0)
      have e : len + 1 + (L - len) = L + 1 := by rw [hd] at hb; omega
      rwa [e] at h
    have hrun : network_asn1_is_valid_internal packet = is_valid_while (L + 2) id len p1 := by
      simp only [network_asn1_is_valid_internal, hL]
      rw [network_asn1_is_valid_internal_fuel, hh]
      simp only [hm, Bool.not_true, Bool.false_eq_true, if_false]
    rw [is_valid_while] at hrun
    simp only [hlen, if_false, hnest, if_true, hr1] at hrun
    cases r0 with
    | assert_failed =>
      simp only [network_asn1_is_valid, hrun, hr0]
      simp
    | fail e p2 =>
      simp only [network_asn1_is_valid, hrun, hr0]
      simp
    | ok v sub =>
      simp only [ret_post, hsublen] at hpost0
      have hle : sub.offset ≤ len := hpost0.2.2
      have hskip : network_packet_skip p1 sub.offset =
          (true, { p1 with offset := p1.offset + sub.offset }) := by
        rw [skip_eq]
        have : p1.offset + sub.offset ≤ p1.data.length := by omega
        simp [this]
      simp only [hle, not_true_eq_false, if_false, hskip, hnseq, Bool.false_eq_true] at hrun
      by_cases hall : sub.offset = len
      · have h0 : len - sub.offset = 0 := by omega
        simp only [h0, ne_eq, not_true_eq_false, if_false] at hrun
        rw [is_valid_while] at hrun
        simp only [if_true] at hrun
        have hv : network_asn1_is_valid packet = some (.ok () packet) := by
          simp only [network_asn1_is_valid, hrun]
          rw [hrestore _ hd]
        refine ⟨⟨fun _ => ⟨hm, sub, hr0, hall⟩, fun _ => hv⟩, ?_⟩
        intro sub2 hs2 hlt
        rw [hr0] at hs2
        simp only [Option.some.injEq, asn1_ret.ok.injEq, true_and] at hs2
        subst hs2
        omega
      · have h0 : len - sub.offset ≠ 0 := by omega
        simp only [h0, ne_eq, not_false_eq_true, if_true] at hrun
        have hv : network_asn1_is_valid packet = some (.fail .INVALID packet) := by
          simp only [network_asn1_is_valid, hrun]
          rw [hrestore _ hd]
        refine ⟨⟨?_, ?_⟩, fun _ _ _ => hv⟩
        · intro h
          rw [hv] at h
          simp at h
        · rintro ⟨_, sub2, hs2, hs3⟩
          rw [hr0] at hs2
          simp only [Option.some.injEq, asn1_ret.ok.injEq, true_and] at hs2
          subst hs2
          exact absurd hs3 hall
  · have hrun : network_asn1_is_valid_internal packet = some (.fail .INVALID p1) := by
      simp only [network_asn1_is_valid_internal, hL]
      rw [network_asn1_is_valid_internal_fuel, hh]
      simp only [has_more_data_false p1 len hm, Bool.not_false, if_true]
    have hv : network_asn1_is_valid packet = some (.fail .INVALID packet) := by
      simp only [network_asn1_is_valid, hrun]
      rw [hrestore _ hd]
    refine ⟨⟨?_, ?_⟩, fun _ _ _ => hv⟩
    · intro h
      rw [hv] at h
      simp at h
    · rintro ⟨h, _⟩
      exact absurd h hm

/-- C9, at the bytes `a0 04 02 01 01 00`: the context-specific element announces
four content bytes, the nested INTEGER takes three of them, and the result is
INVALID. -/
theorem nested_content_consumed_witness :
    network_asn1_is_valid ⟨[0xa0, 0x04, 0x02, 0x01, 0x01, 0x00], 0⟩ =
      some (.fail .INVALID ⟨[0xa0, 0x04, 0x02, 0x01, 0x01, 0x00], 0⟩) :=
  (nested_content_consumed ⟨[0xa0, 0x04, 0x02, 0x01, 0x01, 0x00], 0⟩ ⟨2, 1, 0⟩ 4
    ⟨[0xa0, 0x04, 0x02, 0x01, 0x01, 0x00], 2⟩ (by decide) (by decide) (by decide)).2
    ⟨[0x02, 0x01, 0x01, 0x00], 3⟩ (by decide) (by decide)

/-- C10: on a view that holds exactly the byte `b`, `b < 0x80`,
`network_asn1_proto_get_oid` with `len = 1` succeeds, consumes the byte and yields
the decimal of `b / 40`, a dot and the decimal of `b % 40`, whatever `oid` held
before. -/
theorem get_oid_first_byte (b : UInt8) (oid : String) (_hb : b.toNat < 0x80) :
    network_asn1_proto_get_oid ⟨[b], 0⟩ 1 oid =
      some (.ok (toString (b.toNat / 40) ++ "." ++ toString (b.toNat % 40)) ⟨[b], 1⟩) := by
  simp [network_asn1_proto_get_oid, get_oid_while, get_data_eq]

/-- C10, at the byte `2b`: the text is "1.3". -/
theorem get_oid_first_byte_witness :
    network_asn1_proto_get_oid ⟨[0x2b], 0⟩ 1 "junk" = some (.ok "1.3" ⟨[0x2b], 1⟩) :=
  get_oid_first_byte 0x2b "junk" (by decide)

/-! ## OID segments: the claim -/

/-- C11 (the claim fails on the code): on an OID body whose second segment has
eleven continuation bytes, all bytes being there, `network_asn1_proto_get_oid`
fails with the error code EOF, not UNSUPPORTED; and on a segment with ten
continuation bytes, which is more than nine, it does not fail at all: the test
`rounds > 9` lets the tenth one pass and the value wraps in 64 bits. -/
theorem get_oid_long_segment_reports_eof :
    network_asn1_proto_get_oid ⟨oid_long_segment 11, 0⟩ 13 "" =
      some (.fail .EOF ⟨oid_long_segment 11, 12⟩) ∧
    network_asn1_proto_get_oid ⟨oid_long_segment 10, 0⟩ 12 "" =
      some (.ok "1.2.9295997013522923649" ⟨oid_long_segment 10, 12⟩) := by
  decide

/-! ## Backend registry: lemmas and claims -/

theorem backends_add_for_iff (l : List network_backend_t) (name : String) :
    backends_add_for l name = true ↔ ∃ old ∈ l, old.addr_name = name := by
  induction l with
  | nil => simp [backends_add_for]
  | cons b l ih =>
    by_cases h : b.addr_name = name
    · simp [backends_add_for, h]
    · simp [backends_add_for, h, ih]

theorem backends_add_names_nodup (set_address : String → Option String)
    (bs : network_backends_t) (address : String) (type : backend_type_t)
    (h : (bs.backends.map (fun b => b.addr_name)).Nodup) :
    ((network_backends_add set_address bs address type).2.backends.map
      (fun b => b.addr_name)).Nodup := by
  unfold network_backends_add
  cases hp : set_address address with
  | none => exact h
  | some name =>
    by_cases hk : backends_add_for bs.backends name = true
    · simp only [hk, if_true]
      exact h
    · simp only [hk, Bool.false_eq_true, if_false, List.map_append, List.map_cons, List.map_nil]
      rw [List.nodup_append]
      refine ⟨h, by simp, ?_⟩
      intro a ha hb
      simp only [List.mem_singleton] at hb
      subst hb
      apply hk
      rw [backends_add_for_iff]
      simp only [List.mem_map] at ha
      obtain ⟨old, ho, hn⟩ := ha
      exact ⟨old, ho, hn⟩

theorem backends_add_all_names_nodup (set_address : String → Option String)
    (adds : List (String × backend_type_t)) :
    ∀ bs : network_backends_t, (bs.backends.map (fun b => b.addr_name)).Nodup →
      ((backends_add_all set_address bs adds).backends.map (fun b => b.addr_name)).Nodup := by
  induction adds with
  | nil => intro bs h; exact h
  | cons a adds ih =>
    intro bs h
    obtain ⟨address, type⟩ := a
    simp only [backends_add_all]
    exact ih _ (backends_add_names_nodup set_address bs address type h)

/-- C17: `network_backends_add` returns -1 and leaves the registry as it was when
the name of the parsed address is the name of a backend of the registry, and when
the address does not parse; and in a registry built from the empty one by calls of
`network_backends_add` no two backends have the same address name. -/
theorem backends_add_rejects_duplicate (set_address : String → Option String)
    (bs : network_backends_t) (address : String) (type : backend_type_t) :
    (∀ name, set_address address = some name →
      (∃ old ∈ bs.backends, old.addr_name = name) →
      network_backends_add set_address bs address type = (-1, bs)) ∧
    (set_address address = none →
      network_backends_add set_address bs address type = (-1, bs)) ∧
    (∀ adds : List (String × backend_type_t),
      ((backends_add_all set_address network_backends_new adds).backends.map
        (fun b => b.addr_name)).Nodup) := by
  refine ⟨?_, ?_, ?_⟩
  · intro name hp hdup
    have hk := (backends_add_for_iff bs.backends name).2 hdup
    simp [network_backends_add, hp, hk]
  · intro hp
    simp [network_backends_add, hp]
  · intro adds
    exact backends_add_all_names_nodup set_address adds network_backends_new
      (by simp [network_backends_new])

/-- C17, with the parser that takes the address as the name: a second add of
"db1:3306" is rejected and the registry keeps its one backend. -/
theorem backends_add_rejects_duplicate_witness :
    network_backends_add (fun a => some a)
        (network_backends_add (fun a => some a) network_backends_new "db1:3306"
          .BACKEND_TYPE_RW).2 "db1:3306" .BACKEND_TYPE_RO =
      (-1, (network_backends_add (fun a => some a) network_backends_new "db1:3306"
          .BACKEND_TYPE_RW).2) :=
  (backends_add_rejects_duplicate (fun a => some a)
    (network_backends_add (fun a => some a) network_backends_new "db1:3306"
      .BACKEND_TYPE_RW).2 "db1:3306" .BACKEND_TYPE_RO).1 "db1:3306" rfl
    ⟨{ network_backend_new with type := .BACKEND_TYPE_RW, addr_name := "db1:3306" },
      by decide, rfl⟩

/-- C18: when the address parses to a name no backend of the registry has,
`network_backends_add` returns 0 and appends one backend with that name, the given
type and the state unknown: the count grows by one, every earlier index gives the
backend it gave before and the old count gives the new backend; and
`network_backends_get` returns nothing exactly for the indices from the count on. -/
theorem backends_add_appends (set_address : String → Option String)
    (bs : network_backends_t) (address name : String) (type : backend_type_t)
    (hparse : set_address address = some name)
    (hnew : ∀ old ∈ bs.backends, old.addr_name ≠ name) :
    (network_backends_add set_address bs address type).1 = 0 ∧
    network_backends_count (network_backends_add set_address bs address type).2 =
      network_backends_count bs + 1 ∧
    (∀ i, i < network_backends_count bs →
      network_backends_get (network_backends_add set_address bs address type).2 i =
        network_backends_get bs i) ∧
    network_backends_get (network_backends_add set_address bs address type).2
        (network_backends_count bs) =
      some { network_backend_new with
        addr_name := name, type := type, state := .BACKEND_STATE_UNKNOWN } ∧
    (network_backends_add set_address bs address type).2.backend_last_check =
      bs.backend_last_check ∧
    (∀ (bs1 : network_backends_t) (ndx : Nat),
      network_backends_get bs1 ndx = none ↔ ndx ≥ network_backends_count bs1) := by
  have hk : backends_add_for bs.backends name = false := by
    cases hb : backends_add_for bs.backends name
    · rfl
    · obtain ⟨old, ho, hn⟩ := (backends_add_for_iff bs.backends name).1 hb
      exact absurd hn (hnew old ho)
  have hadd : network_backends_add set_address bs address type =
      (0, { bs with backends := bs.backends ++
        [{ network_backend_new with addr_name := name, type := type }] }) := by
    simp [network_backends_add, hparse, hk]
  rw [hadd]
  refine ⟨rfl, ?_, ?_, ?_, rfl, ?_⟩
  · simp [network_backends_count]
  · intro i hi
    simp only [network_backends_count] at hi
    have h1 : ¬ i ≥ bs.backends.length + 1 := by omega
    have h2 : ¬ i ≥ bs.backends.length := by omega
    simp [network_backends_get, network_backends_count, h1, h2, List.getElem?_append_left hi]
  · simp [network_backends_get, network_backends_count, network_backend_new]
  · intro bs1 ndx
    unfold network_backends_get network_backends_count
    by_cases h : ndx ≥ bs1.backends.length
    · simp [h]
    · simp only [h, if_false, iff_false]
      have : ndx < bs1.backends.length := by omega
      simp [List.getElem?_eq_getElem this]

/-- C18, with the parser that takes the address as the name: the first add to the
empty registry returns 0 and index 0 gives the new backend. -/
theorem backends_add_appends_witness :
    (network_backends_add (fun a => some a) network_backends_new "db1:3306"
      .BACKEND_TYPE_RO).1 = 0 ∧
    network_backends_get (network_backends_add (fun a => some a) network_backends_new
      "db1:3306" .BACKEND_TYPE_RO).2 0 =
      some { network_backend_new with
        addr_name := "db1:3306", type := .BACKEND_TYPE_RO,
        state := .BACKEND_STATE_UNKNOWN } :=
  have h := backends_add_appends (fun a => some a) network_backends_new "db1:3306"
    "db1:3306" .BACKEND_TYPE_RO rfl (by simp [network_backends_new])
  ⟨h.1, h.2.2.2.1⟩

theorem check_throttled (bs : network_backends_t) (now : GTimeVal)
    (h : ge_gtimeval_diff bs.backend_last_check now < G_USEC_PER_SEC) :
    (network_backends_check bs now).1 = 0 ∧
    (network_backends_check bs now).2.backends = bs.backends := by
  unfold network_backends_check
  simp only [h, if_true]
  by_cases h0 : ge_gtimeval_diff bs.backend_last_check now < 0
  · simp [h0]
  · simp [h0]

theorem check_sweep (bs : network_backends_t) (now : GTimeVal)
    (h : G_USEC_PER_SEC ≤ ge_gtimeval_diff bs.backend_last_check now) :
    network_backends_check bs now =
      ((backends_check_for bs.backends now).2,
        { backends := (backends_check_for bs.backends now).1, backend_last_check := now }) := by
  unfold network_backends_check
  have h1 : ¬ ge_gtimeval_diff bs.backend_last_check now < G_USEC_PER_SEC := by omega
  simp only [h1, if_false]

/-- C19 (the claim as stated fails): the registry holds a backend that is down
since t = 90 s and `backend_last_check` is t = 100 s.  The call at 100.9 s is
throttled and leaves `backend_last_check` at 100 s; the next call, 0.6 s later at
101.5 s, is 1.5 s after `backend_last_check`: it sweeps, returns 1 and flips the
backend to unknown. -/
theorem check_second_call_sweeps :
    0 ≤ ge_gtimeval_diff ⟨100, 900000⟩ ⟨101, 500000⟩ ∧
    ge_gtimeval_diff ⟨100, 900000⟩ ⟨101, 500000⟩ < G_USEC_PER_SEC ∧
    (network_backends_check
      (network_backends_check (registry_x_down ⟨90, 0⟩ ⟨100, 0⟩) ⟨100, 900000⟩).2
      ⟨101, 500000⟩).1 = 1 ∧
    (network_backends_check
      (network_backends_check (registry_x_down ⟨90, 0⟩ ⟨100, 0⟩) ⟨100, 900000⟩).2
      ⟨101, 500000⟩).2.backends =
      [{ backend_down "x" ⟨90, 0⟩ with
          state := .BACKEND_STATE_UNKNOWN, state_since := ⟨101, 500000⟩ }] := by
  decide

/-- C19 (amended): when the first of two consecutive calls of
`network_backends_check` is not throttled, so that it records its clock reading in
`backend_last_check`, and the second reading is less than one second after the
first, the second call returns 0 and leaves every backend, in particular `state`
and `state_since`, as the first call left it. -/
theorem check_twice_within_a_second (bs : network_backends_t) (now1 now2 : GTimeVal)
    (h1 : G_USEC_PER_SEC ≤ ge_gtimeval_diff bs.backend_last_check now1)
    (h2 : ge_gtimeval_diff now1 now2 < G_USEC_PER_SEC) :
    (network_backends_check (network_backends_check bs now1).2 now2).1 = 0 ∧
    (network_backends_check (network_backends_check bs now1).2 now2).2.backends =
      (network_backends_check bs now1).2.backends := by
  apply check_throttled
  rw [check_sweep bs now1 h1]
  exact h2

/-- C19 (amended), at the health-recovery scenario: the call at t = 5 s sweeps and
the call at t = 5.5 s returns 0 and changes no backend. -/
theorem check_twice_within_a_second_witness :
    (network_backends_check
      (network_backends_check (registry_x_down ⟨0, 0⟩ ⟨0, 0⟩) ⟨5, 0⟩).2 ⟨5, 500000⟩).1 = 0 ∧
    (network_backends_check
      (network_backends_check (registry_x_down ⟨0, 0⟩ ⟨0, 0⟩) ⟨5, 0⟩).2 ⟨5, 500000⟩).2.backends =
      (network_backends_check (registry_x_down ⟨0, 0⟩ ⟨0, 0⟩) ⟨5, 0⟩).2.backends :=
  check_twice_within_a_second (registry_x_down ⟨0, 0⟩ ⟨0, 0⟩) ⟨5, 0⟩ ⟨5, 500000⟩
    (by decide) (by decide)

/-- C20 (the claim fails on the code): the backend is down since t = 0 and the
call at t = 4.5 s is not throttled.  The backend is down for more than four
seconds at the resolution of the timestamps, but the loop compares whole seconds,
`4 - 0 > 4`, and leaves it down: the call returns 0.  At t = 5 s the backend is
flipped and the call returns 1. -/
theorem check_compares_whole_seconds :
    G_USEC_PER_SEC ≤ ge_gtimeval_diff (registry_x_down ⟨0, 0⟩ ⟨0, 0⟩).backend_last_check
      ⟨4, 500000⟩ ∧
    down_longer_than_4s (registry_x_down ⟨0, 0⟩ ⟨0, 0⟩) ⟨4, 500000⟩ =
      [backend_down "x" ⟨0, 0⟩] ∧
    network_backends_check (registry_x_down ⟨0, 0⟩ ⟨0, 0⟩) ⟨4, 500000⟩ =
      (0, registry_x_down ⟨0, 0⟩ ⟨4, 500000⟩) ∧
    network_backends_check (registry_x_down ⟨0, 0⟩ ⟨0, 0⟩) ⟨5, 0⟩ =
      (1, { backends := [{ backend_down "x" ⟨0, 0⟩ with
              state := .BACKEND_STATE_UNKNOWN, state_since := ⟨5, 0⟩ }],
            backend_last_check := ⟨5, 0⟩ }) := by
  decide

/-! ## Packet buffer: lemmas -/

theorem unread_length (q : network_queue) (hwf : q.wf) : q.unread.length = q.len := by
  obtain ⟨_, h2⟩ := hwf
  simp only [network_queue.unread, List.length_drop]
  omega

/-- What the loop of `network_queue_pop_string` does when the invariant holds and
at least `we_want` bytes are queued: the queue afterwards satisfies the invariant,
`len` went down by `we_want`, the unread bytes lost their first `we_want` bytes,
the chunks left are a tail of the chunks before, and the string returned holds the
bytes of the destination followed by those `we_want` bytes; `NULL` is returned
only when there is neither a destination nor a chunk. -/
theorem pop_while_spec (chunks : List GString) :
    ∀ (offset len we_want steal_len : Nat) (dest : Option GString),
      (match chunks with
        | [] => offset = 0
        | c :: _ => offset ≤ c.len) →
      len + offset = (queue_bytes chunks).length →
      we_want ≤ len →
      (dest = none → we_want = steal_len) →
      (pop_while chunks offset len we_want steal_len dest).2.wf ∧
      (pop_while chunks offset len we_want steal_len dest).2.len = len - we_want ∧
      (pop_while chunks offset len we_want steal_len dest).2.unread =
        ((queue_bytes chunks).drop offset).drop we_want ∧
      (pop_while chunks offset len we_want steal_len dest).2.chunks <:+ chunks ∧
      (∀ g, (pop_while chunks offset len we_want steal_len dest).1 = some g →
        g.str = dest_str dest ++ ((queue_bytes chunks).drop offset).take we_want) ∧
      ((pop_while chunks offset len we_want steal_len dest).1 = none →
        dest = none ∧ chunks = []) := by
  induction chunks with
  | nil =>
    intro offset len we_want steal_len dest hoff hlen hw hd
    simp only at hoff
    simp only [queue_bytes, List.length_nil] at hlen
    have hl0 : len = 0 := by omega
    have hw0 : we_want = 0 := by omega
    subst hoff hl0 hw0
    refine ⟨?_, ?_, ?_, ?_, ?_, ?_⟩
    · simp [pop_while, network_queue.wf, queue_bytes]
    · simp [pop_while]
    · simp [pop_while, network_queue.unread, queue_bytes]
    · simp [pop_while]
    · intro g hg
      simp only [pop_while] at hg
      simp [hg, dest_str, queue_bytes]
    · intro h
      simp only [pop_while] at h
      exact ⟨h, rfl⟩
  | cons c rest ih =>
    intro offset len we_want steal_len dest hoff hlen hw hd
    simp only [GString.len] at hoff
    simp only [queue_bytes, List.length_append] at hlen
    have hdrop : (c.str ++ queue_bytes rest).drop offset =
        c.str.drop offset ++ queue_bytes rest := by
      rw [List.drop_append_eq_append_drop]
      have e : offset - c.str.length = 0 := by omega
      simp [e]
    unfold pop_while
    simp only [GString.len, queue_bytes, hdrop]
    by_cases hfast : dest.isNone = true ∧ offset = 0 ∧ c.str.length = steal_len
    · obtain ⟨hnone, ho, hs⟩ := hfast
      have hdn : dest = none := by
        cases dest with
        | none => rfl
        | some d => simp at hnone
      have hws : we_want = c.str.length := by rw [hd hdn, hs]
      subst hdn ho hs hws
      simp only [Option.isNone_none, and_self, if_true, Nat.sub_zero, Nat.lt_irrefl, if_false]
      refine ⟨?_, ?_, ?_, ?_, ?_, ?_⟩
      · refine ⟨?_, ?_⟩
        · cases rest with
          | nil => rfl
          | cons c1 r1 => exact Nat.zero_le _
        · simp only [Nat.add_zero]
          omega
      · trivial
      · simp [network_queue.unread]
      · exact List.suffix_cons c rest
      · intro g hg
        simp only [Option.some.injEq] at hg
        subst hg
        simp [dest_str]
      · intro h
        simp at h
    · simp only [hfast, if_false]
      have hdstr : (dest_or_new dest steal_len).str = dest_str dest := by
        cases dest with
        | none => rfl
        | some d => rfl
      by_cases hlt : we_want < c.str.length - offset
      · -- the chunk is not read to its end
        have hne : ¬ c.str.length = offset + we_want := by omega
        simp only [hlt, if_true, hne, if_false]
        refine ⟨?_, ?_, ?_, ?_, ?_, ?_⟩
        · refine ⟨?_, ?_⟩
          · simp only [GString.len]
            omega
          · simp only [queue_bytes, List.length_append]
            omega
        · trivial
        · simp only [network_queue.unread, queue_bytes]
          rw [← hdrop, List.drop_drop]
        · exact List.suffix_refl _
        · intro g hg
          simp only [Option.some.injEq] at hg
          subst hg
          simp only [g_string_append_len, hdstr]
          rw [List.take_append_eq_append_take]
          have e : we_want - (c.str.length - offset) = 0 := by omega
          simp [e]
        · intro h
          simp at h
      · -- the chunk is read to its end
        have heq : c.str.length = offset + (c.str.length - offset) := by omega
        simp only [hlt, if_false, ← heq, if_true]
        obtain ⟨i1, i2, i3, i4, i5, i6⟩ := ih 0 (len - (c.str.length - offset))
          (we_want - (c.str.length - offset)) steal_len
          (some (g_string_append_len (dest_or_new dest steal_len)
            ((c.str.drop offset).take (c.str.length - offset))))
          (by cases rest with
              | nil => rfl
              | cons c1 r1 => exact Nat.zero_le _)
          (by omega) (by omega) (by intro h; simp at h)
        have hA : (c.str.drop offset).length ≤ we_want := by
          simp only [List.length_drop]
          omega
        refine ⟨i1, ?_, ?_, ?_, ?_, ?_⟩
        · rw [i2]
          omega
        · rw [i3, List.drop_zero, List.drop_append_eq_append_drop,
            List.drop_eq_nil_of_le hA]
          simp
        · exact List.IsSuffix.trans i4 (List.suffix_cons c rest)
        · intro g hg
          rw [i5 g hg]
          simp only [dest_str, g_string_append_len, hdstr, List.drop_zero]
          rw [List.take_append_eq_append_take, List.take_of_length_le hA]
          have e : c.str.length - offset = (c.str.drop offset).length := by
            simp only [List.length_drop]
          rw [e, List.take_length]
          simp
        · intro h
          have := (i6 h).1
          simp at this

/-- What `network_queue_pop_string` does on a queue that satisfies the invariant
and holds at least `steal_len` unread bytes. -/
theorem pop_string_spec (q : network_queue) (hwf : q.wf) (steal_len : Nat)
    (dest : Option GString) (hn : steal_len ≤ q.len) :
    (network_queue_pop_string q steal_len dest).2.wf ∧
    (network_queue_pop_string q steal_len dest).2.len = q.len - steal_len ∧
    (network_queue_pop_string q steal_len dest).2.unread = q.unread.drop steal_len ∧
    (network_queue_pop_string q steal_len dest).2.chunks <:+ q.chunks ∧
    (∀ g, (network_queue_pop_string q steal_len dest).1 = some g →
      g.str = dest_str dest ++ q.unread.take steal_len) ∧
    ((network_queue_pop_string q steal_len dest).1 = none → dest = none ∧ q.chunks = []) := by
  have hlt : ¬ q.len < steal_len := by omega
  unfold network_queue_pop_string
  simp only [hlt, if_false]
  exact pop_while_spec q.chunks q.offset q.len steal_len steal_len dest hwf.1 hwf.2 hn
    (fun _ => rfl)

theorem pop_string_wf (q : network_queue) (hwf : q.wf) (steal_len : Nat)
    (dest : Option GString) : (network_queue_pop_string q steal_len dest).2.wf := by
  by_cases hn : steal_len ≤ q.len
  · exact (pop_string_spec q hwf steal_len dest hn).1
  · have hlt : q.len < steal_len := by omega
    simp only [network_queue_pop_string, hlt, if_true]
    exact hwf

theorem queue_bytes_append (cs : List GString) (c : GString) :
    queue_bytes (cs ++ [c]) = queue_bytes cs ++ c.str := by
  induction cs with
  | nil => simp [queue_bytes]
  | cons c1 cs ih => simp [queue_bytes, ih]

theorem append_wf (q : network_queue) (hwf : q.wf) (c : GString) :
    (network_queue_append q c).wf ∧
    (network_queue_append q c).unread = q.unread ++ c.str := by
  obtain ⟨h1, h2⟩ := hwf
  have hle : q.offset ≤ (queue_bytes q.chunks).length := by omega
  refine ⟨⟨?_, ?_⟩, ?_⟩
  · simp only [network_queue_append]
    cases hc : q.chunks with
    | nil =>
      rw [hc] at h1
      simp only at h1
      simp [h1]
    | cons c1 cs =>
      rw [hc] at h1
      exact h1
  · simp only [network_queue_append, queue_bytes_append, List.length_append, GString.len]
    omega
  · simp only [network_queue.unread, network_queue_append, queue_bytes_append]
    rw [List.drop_append_eq_append_drop]
    have e : q.offset - (queue_bytes q.chunks).length = 0 := by omega
    simp [e]

theorem peek_string_queue (q : network_queue) (peek_len : Nat) (dest : Option GString) :
    (network_queue_peek_string q peek_len dest).2 = q := by
  unfold network_queue_peek_string
  split
  · rfl
  · dsimp only
    split <;> rfl

theorem queue_step_wf (q : network_queue) (hwf : q.wf) (op : queue_op) :
    (queue_step q op).wf := by
  cases op with
  | append chunk => exact (append_wf q hwf chunk).1
  | peek peek_len dest =>
    simp only [queue_step, peek_string_queue]
    exact hwf
  | pop steal_len dest => exact pop_string_wf q hwf steal_len dest

theorem queue_run_wf (ops : List queue_op) :
    ∀ q : network_queue, q.wf → (queue_run q ops).wf := by
  induction ops with
  | nil => intro q h; exact h
  | cons op ops ih =>
    intro q h
    simp only [queue_run, List.foldl_cons]
    exact ih _ (queue_step_wf q h op)

theorem new_queue_wf : network_queue_new.wf := by
  simp [network_queue.wf, network_queue_new, queue_bytes]

theorem append_all_spec (cs : List GString) :
    ∀ q : network_queue, q.wf →
      (append_all q cs).wf ∧ (append_all q cs).unread = q.unread ++ queue_bytes cs := by
  induction cs with
  | nil =>
    intro q h
    simp [append_all, queue_bytes, h]
  | cons c cs ih =>
    intro q h
    obtain ⟨h1, h2⟩ := append_wf q h c
    obtain ⟨h3, h4⟩ := ih _ h1
    simp only [append_all, List.foldl_cons] at h3 h4 ⊢
    refine ⟨h3, ?_⟩
    rw [h4, h2]
    simp [queue_bytes]

/-- The loop of `network_queue_pop_string` once nothing more is wanted: it releases
the empty chunks at the head and stops at the first chunk that is not empty. -/
theorem pop_while_zero (rest : List GString) :
    ∀ (len steal_len : Nat) (d : GString),
      ∃ d1, pop_while rest 0 len 0 steal_len (some d) =
          (some d1, { chunks := rest.dropWhile is_empty_chunk, len := len, offset := 0 }) ∧
        d1.str = d.str := by
  induction rest with
  | nil =>
    intro len steal_len d
    exact ⟨d, by simp [pop_while], rfl⟩
  | cons c rest ih =>
    intro len steal_len d
    have hnf : ¬ ((some d).isNone = true ∧ 0 = 0 ∧ c.len = steal_len) := by simp
    have hwe : (if 0 < c.len - 0 then 0 else c.len - 0) = 0 := by
      by_cases h : 0 < c.len - 0
      · simp [h]
      · simp only [h, if_false]
        omega
    rw [pop_while]
    dsimp only
    rw [if_neg hnf, hwe]
    by_cases hc : c.len = 0
    · obtain ⟨d1, h1, h2⟩ := ih (len - 0) steal_len
        (g_string_append_len (dest_or_new (some d) steal_len) ((c.str.drop 0).take 0))
      refine ⟨d1, ?_, ?_⟩
      · rw [if_pos (by omega), Nat.sub_zero 0, h1]
        simp [is_empty_chunk, hc]
      · rw [h2]
        simp [g_string_append_len, dest_or_new]
    · refine ⟨g_string_append_len (dest_or_new (some d) steal_len) ((c.str.drop 0).take 0),
        ?_, ?_⟩
      · rw [if_neg (by omega)]
        simp [is_empty_chunk, hc]
      · simp [g_string_append_len, dest_or_new]

theorem pop_all_spec (pops : List (Nat × Option GString)) :
    ∀ q : network_queue, q.wf → (pops.map Prod.fst).sum ≤ q.len →
      (pop_all q pops).map pop_call.new_bytes = slices q.unread (pops.map Prod.fst) ∧
      (∀ c ∈ pop_all q pops, c.ret = none → c.steal_len = 0 ∧ c.dest = none) := by
  induction pops with
  | nil =>
    intro q _ _
    simp [pop_all, slices]
  | cons p pops ih =>
    intro q hwf hsum
    obtain ⟨n, d⟩ := p
    simp only [List.map_cons, List.sum_cons] at hsum
    have hn : n ≤ q.len := by omega
    obtain ⟨s1, s2, s3, _, s5, s6⟩ := pop_string_spec q hwf n d hn
    obtain ⟨i1, i2⟩ := ih (network_queue_pop_string q n d).2 s1 (by rw [s2]; omega)
    have hnull : (network_queue_pop_string q n d).1 = none → n = 0 ∧ d = none := by
      intro h
      obtain ⟨hd, hc⟩ := s6 h
      have h2 := hwf.2
      rw [hc] at h2
      simp only [queue_bytes, List.length_nil] at h2
      exact ⟨by omega, hd⟩
    refine ⟨?_, ?_⟩
    · simp only [pop_all, List.map_cons, slices, i1, s3, List.cons.injEq, and_true]
      cases hr : (network_queue_pop_string q n d).1 with
      | none =>
        obtain ⟨h0, _⟩ := hnull hr
        simp [pop_call.new_bytes, hr, h0]
      | some g =>
        have hg := s5 g hr
        cases d with
        | none => simpa [pop_call.new_bytes, hr, dest_str] using hg
        | some d0 => simp [pop_call.new_bytes, hr, hg, dest_str]
    · intro c hc
      simp only [pop_all, List.mem_cons] at hc
      rcases hc with hc | hc
      · subst hc
        exact hnull
      · exact i2 c hc

/-! ## Packet buffer: the claims -/

/-- C12: when the chunks `cs` were appended to an empty queue and the sizes of a
sequence of pops add up to at most the number of appended bytes, the bytes the
pops hand out are, pop by pop, the consecutive pieces of those sizes of the
concatenation of the chunks, whatever destination each pop is given; a pop returns
`NULL` only when it asks for 0 bytes without a destination.  In the framing
scenario `pop(4)` yields `03 00 00 00` and the next `pop(4)` yields `05 00 00 ff`. -/
theorem pops_return_appended_bytes (cs : List GString) (pops : List (Nat × Option GString))
    (hsum : (pops.map Prod.fst).sum ≤ (queue_bytes cs).length) :
    (pop_all (append_all network_queue_new cs) pops).map pop_call.new_bytes =
      slices (queue_bytes cs) (pops.map Prod.fst) ∧
    (∀ c ∈ pop_all (append_all network_queue_new cs) pops,
      c.ret = none → c.steal_len = 0 ∧ c.dest = none) ∧
    (pop_all queue_framing [(4, none), (4, none)]).map pop_call.new_bytes =
      [[0x03, 0, 0, 0], [0x05, 0, 0, 0xff]] := by
  obtain ⟨h1, h2⟩ := append_all_spec cs network_queue_new new_queue_wf
  have hu : (append_all network_queue_new cs).unread = queue_bytes cs := by
    rw [h2]
    simp [network_queue.unread, network_queue_new, queue_bytes]
  have hl : (append_all network_queue_new cs).len = (queue_bytes cs).length := by
    rw [← unread_length _ h1, hu]
  obtain ⟨p1, p2⟩ := pop_all_spec pops (append_all network_queue_new cs) h1 (by rw [hl]; exact hsum)
  rw [hu] at p1
  exact ⟨p1, p2, by decide⟩

/-- C12, at the framing scenario: the chunks `03 00 00 00 05` and `00 00 ff`,
then `pop(4)` twice. -/
theorem pops_return_appended_bytes_witness :
    (pop_all (append_all network_queue_new [⟨[0x03, 0, 0, 0, 0x05], 8⟩, ⟨[0, 0, 0xff], 4⟩])
        [(4, none), (4, none)]).map pop_call.new_bytes =
      slices (queue_bytes [⟨[0x03, 0, 0, 0, 0x05], 8⟩, ⟨[0, 0, 0xff], 4⟩]) [4, 4] :=
  (pops_return_appended_bytes [⟨[0x03, 0, 0, 0, 0x05], 8⟩, ⟨[0, 0, 0xff], 4⟩]
    [(4, none), (4, none)] (by decide)).1

/-- C14 (the claim fails on the code): on the empty queue, where 0 bytes are
queued, `network_queue_pop_string` with `steal_len = 0` and no destination returns
`NULL`: the destination is only created inside the loop over the chunks and there
is no chunk.  `network_queue_peek_string` creates it before its loop and returns
an empty string for the same arguments. -/
theorem pop_zero_bytes_returns_null :
    ¬ (network_queue_new.len < 0) ∧
    network_queue_pop_string network_queue_new 0 none = (none, network_queue_new) ∧
    network_queue_peek_string network_queue_new 0 none =
      (.dest (g_string_sized_new 0), network_queue_new) := by
  decide

theorem pop_while_fast (c : GString) (rest : List GString) (len : Nat) :
    pop_while (c :: rest) 0 len c.len c.len none =
      (some c, { chunks := rest, len := len - c.len, offset := 0 }) := by
  rw [pop_while]
  dsimp only
  have hcond : (none : Option GString).isNone = true ∧ 0 = 0 ∧ c.len = c.len := ⟨rfl, rfl, rfl⟩
  have hwe : (if c.len < c.len - 0 then c.len else c.len - 0) = c.len := by
    have h : ¬ c.len < c.len - 0 := by omega
    rw [if_neg h]
    omega
  rw [if_pos hcond, hwe]

theorem pop_while_copy (c : GString) (rest : List GString) (len : Nat) (d : GString) :
    ∃ d1, pop_while (c :: rest) 0 len c.len c.len (some d) =
        (some d1, { chunks := rest.dropWhile is_empty_chunk, len := len - c.len, offset := 0 }) ∧
      d1.str = d.str ++ c.str := by
  have hnf : ¬ ((some d).isNone = true ∧ 0 = 0 ∧ c.len = c.len) := by simp
  have hwe : (if c.len < c.len - 0 then c.len else c.len - 0) = c.len := by
    have h : ¬ c.len < c.len - 0 := by omega
    rw [if_neg h]
    omega
  obtain ⟨d1, h1, h2⟩ := pop_while_zero rest (len - c.len) c.len
    (g_string_append_len (dest_or_new (some d) c.len) ((c.str.drop 0).take c.len))
  refine ⟨d1, ?_, ?_⟩
  · rw [pop_while]
    dsimp only
    rw [if_neg hnf, hwe, if_pos (by omega), Nat.sub_self, h1]
  · rw [h2]
    simp [g_string_append_len, dest_or_new, GString.len]

/-- C15: every queue reached from the empty queue by `append`, `peek` and `pop`
satisfies the invariant (`offset` at most the length of the head chunk and 0
without a chunk, `len` the sum of the chunk lengths minus `offset`); and when a
`pop` on a queue that satisfies the invariant reads the head chunk to its end, the
chunks left are a tail of the chunks behind the head, so the head chunk was
released, and when the pop ends at the end of the head chunk `offset` is 0. -/
theorem queue_invariant (ops : List queue_op) :
    (queue_run network_queue_new ops).wf ∧
    (∀ (q : network_queue) (c : GString) (rest : List GString) (n : Nat)
        (dest : Option GString),
      q.wf → q.chunks = c :: rest → c.len - q.offset ≤ n → n ≤ q.len →
      (network_queue_pop_string q n dest).2.chunks <:+ rest ∧
      (n = c.len - q.offset → (network_queue_pop_string q n dest).2.offset = 0)) := by
  refine ⟨queue_run_wf ops network_queue_new new_queue_wf, ?_⟩
  intro q c rest n dest hwf hc hge hn
  obtain ⟨h1, h2⟩ := hwf
  rw [hc] at h1 h2
  simp only [GString.len] at h1 hge
  simp only [queue_bytes, List.length_append] at h2
  have hlt : ¬ q.len < n := by omega
  simp only [network_queue_pop_string, hlt, if_false, hc]
  rw [pop_while]
  dsimp only
  simp only [GString.len]
  by_cases hfast : dest.isNone = true ∧ q.offset = 0 ∧ c.str.length = n
  · rw [if_pos hfast]
    exact ⟨List.suffix_refl _, fun _ => hfast.2.1⟩
  · rw [if_neg hfast]
    have hnl : ¬ n < c.str.length - q.offset := by omega
    have heq : c.str.length = q.offset + (c.str.length - q.offset) := by omega
    rw [if_neg hnl, if_pos heq]
    refine ⟨?_, ?_⟩
    · exact (pop_while_spec rest 0 (q.len - (c.str.length - q.offset))
        (n - (c.str.length - q.offset)) n
        (some (g_string_append_len (dest_or_new dest n)
          ((c.str.drop q.offset).take (c.str.length - q.offset))))
        (by cases rest with
            | nil => rfl
            | cons c1 r1 => exact Nat.zero_le _)
        (by omega) (by omega)
        (by intro h; simp at h)).2.2.2.1
    · intro hexact
      have h0 : n - (c.str.length - q.offset) = 0 := by omega
      rw [h0]
      obtain ⟨d1, hd1, _⟩ := pop_while_zero rest (q.len - (c.str.length - q.offset)) n
        (g_string_append_len (dest_or_new dest n)
          ((c.str.drop q.offset).take (c.str.length - q.offset)))
      rw [hd1]

/-- C16 (the claim as stated fails): the queue holds the chunk `01 02` followed by
an empty chunk, `offset` is 0.  `pop(2)` without a destination hands out the head
chunk and leaves the empty chunk queued; `pop(2)` with a fresh destination copies
the same two bytes and releases the empty chunk as well. -/
theorem pop_fast_path_keeps_empty_chunk :
    queue_empty_chunk.offset = 0 ∧
    queue_empty_chunk.chunks.head? = some ⟨[0x01, 0x02], 4⟩ ∧
    network_queue_pop_string queue_empty_chunk 2 none =
      (some ⟨[0x01, 0x02], 4⟩, { chunks := [⟨[], 4⟩], len := 0, offset := 0 }) ∧
    network_queue_pop_string queue_empty_chunk 2 (some (g_string_sized_new 2)) =
      (some ⟨[0x01, 0x02], 4⟩, { chunks := [], len := 0, offset := 0 }) := by
  decide

/-- C16 (amended): on a queue with `offset = 0` whose head chunk `c` has `n` bytes,
`pop(n)` without a destination and `pop(n)` with a fresh destination return the
same bytes and leave the same `len` and the same `offset`; the copying path leaves
the chunks the fast path leaves, less the empty chunks at their head; so when the
chunk behind `c` is not empty, or there is none, the two leave the same queue. -/
theorem pop_fast_path_refines (q : network_queue) (c : GString) (rest : List GString)
    (hc : q.chunks = c :: rest) (hoff : q.offset = 0) :
    (network_queue_pop_string q c.len none).1.map GString.str =
      (network_queue_pop_string q c.len (some (g_string_sized_new c.len))).1.map GString.str ∧
    (network_queue_pop_string q c.len none).2.len =
      (network_queue_pop_string q c.len (some (g_string_sized_new c.len))).2.len ∧
    (network_queue_pop_string q c.len none).2.offset =
      (network_queue_pop_string q c.len (some (g_string_sized_new c.len))).2.offset ∧
    (network_queue_pop_string q c.len (some (g_string_sized_new c.len))).2.chunks =
      (network_queue_pop_string q c.len none).2.chunks.dropWhile is_empty_chunk ∧
    ((∀ c1, rest.head? = some c1 → c1.len ≠ 0) →
      (network_queue_pop_string q c.len none).2 =
        (network_queue_pop_string q c.len (some (g_string_sized_new c.len))).2) := by
  by_cases hlt : q.len < c.len
  · have hne : is_empty_chunk c = false := by
      simp only [is_empty_chunk, decide_eq_false_iff_not]
      omega
    simp [network_queue_pop_string, hlt, hc, hne]
  · obtain ⟨d1, hd1, hstr⟩ := pop_while_copy c rest q.len (g_string_sized_new c.len)
    have hf : network_queue_pop_string q c.len none =
        (some c, { chunks := rest, len := q.len - c.len, offset := 0 }) := by
      simp only [network_queue_pop_string, hlt, if_false, hc, hoff]
      exact pop_while_fast c rest q.len
    have hg : network_queue_pop_string q c.len (some (g_string_sized_new c.len)) =
        (some d1, { chunks := rest.dropWhile is_empty_chunk, len := q.len - c.len,
                    offset := 0 }) := by
      simp only [network_queue_pop_string, hlt, if_false, hc, hoff]
      exact hd1
    rw [hf, hg]
    refine ⟨?_, rfl, rfl, rfl, ?_⟩
    · simp [hstr, g_string_sized_new]
    · intro hnext
      cases rest with
      | nil => rfl
      | cons c1 r1 =>
        have h1 : is_empty_chunk c1 = false := by
          simp only [is_empty_chunk, decide_eq_false_iff_not]
          exact hnext c1 rfl
        simp [List.dropWhile_cons, h1]

/-- C16 (amended), at the framing scenario with a second chunk that is not empty:
`pop(5)` without and with a destination leave the same queue. -/
theorem pop_fast_path_refines_witness :
    (network_queue_pop_string queue_framing 5 none).2 =
      (network_queue_pop_string queue_framing 5 (some (g_string_sized_new 5))).2 :=
  (pop_fast_path_refines queue_framing ⟨[0x03, 0, 0, 0, 0x05], 8⟩ [⟨[0, 0, 0xff], 4⟩]
    rfl rfl).2.2.2.2 (by decide)

/-! ## Backend registry: the clock went backwards -/

/-- C21: a call of `network_backends_check` whose clock reading is earlier than
`backend_last_check` returns 0, leaves every backend as it was and sets
`backend_last_check` to zero; a throttled call whose reading is not earlier than
`backend_last_check` returns 0 and leaves the whole registry, `backend_last_check`
included, as it was. -/
theorem check_clock_went_backwards (bs : network_backends_t) (now : GTimeVal) :
    (ge_gtimeval_diff bs.backend_last_check now < 0 →
      network_backends_check bs now = (0, { bs with backend_last_check := ⟨0, 0⟩ })) ∧
    (0 ≤ ge_gtimeval_diff bs.backend_last_check now →
      ge_gtimeval_diff bs.backend_last_check now < G_USEC_PER_SEC →
      network_backends_check bs now = (0, bs)) := by
  refine ⟨?_, ?_⟩
  · intro h
    have h1 : ge_gtimeval_diff bs.backend_last_check now < G_USEC_PER_SEC := by
      simp only [G_USEC_PER_SEC] at *
      omega
    simp only [network_backends_check, h1, h, if_true]
  · intro h0 h1
    have h2 : ¬ ge_gtimeval_diff bs.backend_last_check now < 0 := by omega
    simp only [network_backends_check, h1, h2, if_true, if_false]

/-- C21, with `backend_last_check` at 100 s: the reading 50 s resets it to zero,
the reading 100.5 s leaves it. -/
theorem check_clock_went_backwards_witness :
    network_backends_check (registry_x_down ⟨90, 0⟩ ⟨100, 0⟩) ⟨50, 0⟩ =
      (0, registry_x_down ⟨90, 0⟩ ⟨0, 0⟩) ∧
    network_backends_check (registry_x_down ⟨90, 0⟩ ⟨100, 0⟩) ⟨100, 500000⟩ =
      (0, registry_x_down ⟨90, 0⟩ ⟨100, 0⟩) :=
  ⟨(check_clock_went_backwards (registry_x_down ⟨90, 0⟩ ⟨100, 0⟩) ⟨50, 0⟩).1 (by decide),
   (check_clock_went_backwards (registry_x_down ⟨90, 0⟩ ⟨100, 0⟩) ⟨100, 500000⟩).2
     (by decide) (by decide)⟩

/-! ## Column types: the claim -/

/-- C29, refuted as stated: the type values 257 and 510 are none of the twelve
listed codes, and `network_mysqld_column_get_typestring` gives "TINYINT" and
"CHAR" for them, not "UNKNOWN": the types are compared as `guchar`, and the low
bytes of 257 and 510 are 1 (TINY) and 254 (STRING). -/
theorem get_typestring_above_255 :
    network_mysqld_column_get_typestring 257 = "TINYINT" ∧
    network_mysqld_column_get_typestring 510 = "CHAR" ∧
    spec_typestring 257 = "UNKNOWN" ∧ spec_typestring 510 = "UNKNOWN" := by
  decide

set_option maxRecDepth 100000 in
/-- C29, amended: `network_mysqld_column_get_typestring` returns a name for every
type value, and the name is the one the spec lists for the low byte of the value
(the types are compared as `guchar`): the names of the twelve listed codes when
the low byte is one of them, and "UNKNOWN" for every other low byte, 0 included,
which is the type of the terminating entry of the table.  So every value below
256 has the name the spec lists for it. -/
theorem get_typestring_table :
    (∀ type, network_mysqld_column_get_typestring type = spec_typestring (type % 256)) ∧
    (∀ type, type < 256 → network_mysqld_column_get_typestring type = spec_typestring type) ∧
    network_mysqld_column_get_typestring 0 = "UNKNOWN" := by
  have hsmall : ∀ type, type < 256 →
      network_mysqld_column_get_typestring type = spec_typestring type := by
    decide
  refine ⟨?_, hsmall, by decide⟩
  intro type
  have h : ∀ (l : List (Nat × Option String)),
      get_typestring_for l type = get_typestring_for l (type % 256) := by
    intro l
    induction l with
    | nil => rfl
    | cons e l ih =>
      obtain ⟨ty, name⟩ := e
      cases name with
      | none => rfl
      | some name => simp only [get_typestring_for, Nat.mod_mod, ih]
  have e : network_mysqld_column_get_typestring type =
      network_mysqld_column_get_typestring (type % 256) := by
    simp only [network_mysqld_column_get_typestring, h]
  rw [e]
  exact hsmall (type % 256) (Nat.mod_lt _ (by decide))

/-- C29 (amended), at the value 257: the name is the one of its low byte 1,
"TINYINT". -/
theorem get_typestring_table_witness :
    (257 : Nat) % 256 < 256 ∧
    network_mysqld_column_get_typestring (257 % 256) = spec_typestring (257 % 256) ∧
    network_mysqld_column_get_typestring 257 = spec_typestring (257 % 256) :=
  ⟨by decide, get_typestring_table.2.1 (257 % 256) (by decide), get_typestring_table.1 257⟩

/-! ## Packet view: the claim -/

/-- C30: `network_packet_has_more_data` is true exactly when the offset is inside
the data and `n` bytes are left; `peek`, `get` and `skip` succeed exactly then; a
failed `skip` leaves the packet as it was and a failed `peek` or `get` returns
nothing; on success `get` and `skip` move the offset forward by `n`, `peek` and
`get` both return the `n` bytes from the offset on; and an offset inside the data
stays inside the data. -/
theorem packet_operations (p : network_packet) (n : Nat) :
    (network_packet_has_more_data p n = true ↔
      (p.offset ≤ p.data.length ∧ n ≤ p.data.length - p.offset)) ∧
    ((network_packet_peek_data p n).isSome = network_packet_has_more_data p n) ∧
    ((network_packet_get_data p n).isSome = network_packet_has_more_data p n) ∧
    ((network_packet_skip p n).1 = network_packet_has_more_data p n) ∧
    (network_packet_has_more_data p n = false →
      network_packet_skip p n = (false, p) ∧ network_packet_peek_data p n = none ∧
      network_packet_get_data p n = none) ∧
    (network_packet_has_more_data p n = true →
      network_packet_skip p n = (true, { p with offset := p.offset + n }) ∧
      network_packet_peek_data p n = some ((p.data.drop p.offset).take n) ∧
      network_packet_get_data p n =
        some ((p.data.drop p.offset).take n, { p with offset := p.offset + n }) ∧
      ((p.data.drop p.offset).take n).length = n ∧
      p.offset + n ≤ p.data.length) ∧
    (p.offset ≤ p.data.length → (network_packet_skip p n).2.offset ≤ p.data.length) := by
  have hiff := has_more_data_iff p n
  refine ⟨?_, ?_, ?_, ?_, ?_, ?_, ?_⟩
  · rw [hiff]
    constructor
    · intro h; omega
    · intro h; omega
  · cases h : network_packet_has_more_data p n <;> simp [network_packet_peek_data, h]
  · cases h : network_packet_has_more_data p n <;>
      simp [network_packet_get_data, network_packet_peek_data, h]
  · cases h : network_packet_has_more_data p n <;> simp [network_packet_skip, h]
  · intro h
    simp [network_packet_skip, network_packet_get_data, network_packet_peek_data, h]
  · intro h
    have hle := hiff.1 h
    refine ⟨?_, ?_, ?_, ?_, hle⟩
    · simp [network_packet_skip, h]
    · simp [network_packet_peek_data, h]
    · simp [network_packet_get_data, network_packet_peek_data, h]
    · simp only [List.length_take, List.length_drop]
      omega
  · intro hoff
    cases h : network_packet_has_more_data p n
    · simp [network_packet_skip, h, hoff]
    · have hle := hiff.1 h
      simp [network_packet_skip, h, hle]

/-! ## Shutdown hooks: lemmas and claims -/

theorem hooks_lookup_append (hooks : hooks_table) (key k : String)
    (hook : chassis_shutdown_hook_t) :
    hooks_lookup (hooks ++ [(key, hook)]) k =
      match hooks_lookup hooks k with
      | some h => some h
      | none => if key = k then some hook else none := by
  induction hooks with
  | nil => simp [hooks_lookup]
  | cons e t ih =>
    obtain ⟨k1, h1⟩ := e
    by_cases hk : k1 = k
    · simp [hooks_lookup, hk]
    · simp [hooks_lookup, hk, ih]

theorem hooks_call_table (hooks : hooks_table) :
    (chassis_shutdown_hooks_call hooks).1 =
      hooks.map (fun kh => (kh.1, { kh.2 with is_called := true })) := by
  induction hooks with
  | nil => rfl
  | cons e t ih =>
    obtain ⟨k, h⟩ := e
    simp [chassis_shutdown_hooks_call, ih]

theorem hooks_call_calls (hooks : hooks_table) :
    (chassis_shutdown_hooks_call hooks).2 = hooks_due hooks := by
  induction hooks with
  | nil => rfl
  | cons e t ih =>
    obtain ⟨k, h⟩ := e
    simp only [chassis_shutdown_hooks_call, ih, hooks_due, List.filterMap_cons]
    cases hf : h.func with
    | none => simp
    | some f =>
      cases hc : h.is_called <;> simp

theorem hooks_due_called (hooks : hooks_table)
    (h : ∀ kh ∈ hooks, kh.2.is_called = true) : hooks_due hooks = [] := by
  induction hooks with
  | nil => rfl
  | cons e t ih =>
    have h1 := h e (List.mem_cons_self _ _)
    have h2 := ih (fun kh hk => h kh (List.mem_cons_of_mem _ hk))
    simp only [hooks_due] at h2
    simp only [hooks_due, List.filterMap_cons, h1]
    cases hf : e.2.func <;> simp [h2]

theorem hooks_due_append (a b : hooks_table) : hooks_due (a ++ b) = hooks_due a ++ hooks_due b := by
  simp [hooks_due, List.filterMap_append]

/-- C27: the first of two consecutive calls of `chassis_shutdown_hooks_call` makes
one call for every hook that has a callback and was not called yet, and marks
every hook as called; the second makes no call and leaves the table as it is; so
the two together make exactly the calls that were due, each once.  A hook that is
registered after a call of `chassis_shutdown_hooks_call` is the only one the next
call invokes. -/
theorem hooks_call_twice (hooks : hooks_table) :
    (chassis_shutdown_hooks_call hooks).2 = hooks_due hooks ∧
    (chassis_shutdown_hooks_call hooks).1 =
      hooks.map (fun kh => (kh.1, { kh.2 with is_called := true })) ∧
    chassis_shutdown_hooks_call (chassis_shutdown_hooks_call hooks).1 =
      ((chassis_shutdown_hooks_call hooks).1, []) ∧
    (chassis_shutdown_hooks_call hooks).2 ++
      (chassis_shutdown_hooks_call (chassis_shutdown_hooks_call hooks).1).2 =
        hooks_due hooks ∧
    (∀ (key : String) (hook : chassis_shutdown_hook_t),
      hooks_lookup (chassis_shutdown_hooks_call hooks).1 key = none →
      (chassis_shutdown_hooks_call
        (chassis_shutdown_hooks_register (chassis_shutdown_hooks_call hooks).1 key hook).2).2 =
          hooks_due [(key, hook)]) := by
  have hcalled : ∀ kh ∈ (chassis_shutdown_hooks_call hooks).1, kh.2.is_called = true := by
    intro kh hk
    rw [hooks_call_table] at hk
    simp only [List.mem_map] at hk
    obtain ⟨x, _, rfl⟩ := hk
    rfl
  have hsecond : chassis_shutdown_hooks_call (chassis_shutdown_hooks_call hooks).1 =
      ((chassis_shutdown_hooks_call hooks).1, []) := by
    apply Prod.ext
    · rw [hooks_call_table (chassis_shutdown_hooks_call hooks).1, hooks_call_table hooks]
      simp [List.map_map, Function.comp_def]
    · rw [hooks_call_calls]
      exact hooks_due_called _ hcalled
  refine ⟨hooks_call_calls hooks, hooks_call_table hooks, hsecond, ?_, ?_⟩
  · rw [hsecond, hooks_call_calls]
    simp
  · intro key hook hnone
    simp only [chassis_shutdown_hooks_register, hnone]
    rw [hooks_call_calls, hooks_due_append, hooks_due_called _ hcalled]
    simp

/-- C28: `chassis_shutdown_hooks_register` returns `TRUE` exactly when no hook is
registered under the key; when it returns `FALSE` the table is as it was; when it
returns `TRUE` the key is bound to the new hook, every other key is bound as
before and the table has one binding more. -/
theorem hooks_register_first_wins (hooks : hooks_table) (key : String)
    (hook : chassis_shutdown_hook_t) :
    ((chassis_shutdown_hooks_register hooks key hook).1 = true ↔
      hooks_lookup hooks key = none) ∧
    ((chassis_shutdown_hooks_register hooks key hook).1 = false →
      (chassis_shutdown_hooks_register hooks key hook).2 = hooks) ∧
    ((chassis_shutdown_hooks_register hooks key hook).1 = true →
      hooks_lookup (chassis_shutdown_hooks_register hooks key hook).2 key = some hook ∧
      (∀ k, k ≠ key →
        hooks_lookup (chassis_shutdown_hooks_register hooks key hook).2 k =
          hooks_lookup hooks k) ∧
      (chassis_shutdown_hooks_register hooks key hook).2.length = hooks.length + 1) := by
  cases hl : hooks_lookup hooks key with
  | some h => simp [chassis_shutdown_hooks_register, hl]
  | none =>
    simp only [chassis_shutdown_hooks_register, hl, true_iff, true_and]
    refine ⟨by simp, fun _ => ⟨?_, ?_, by simp⟩⟩
    · rw [hooks_lookup_append, hl]
      simp
    · intro k hk
      rw [hooks_lookup_append]
      have hne : ¬ key = k := fun e => hk e.symm
      cases hooks_lookup hooks k <;> simp [hne]

/-! ## Log backend: lemmas -/

theorem skip_for_strips (P F rest : List Char) :
    (∀ i, i < P.length → src_dir.isPrefixOf ((P ++ src_dir ++ rest).drop i) = false) →
    skip_topsrcdir_for (P ++ src_dir ++ rest) (P ++ F) = src_dir ++ rest := by
  induction P with
  | nil =>
    intro _
    simp [skip_topsrcdir_for, src_dir]
  | cons c P ih =>
    intro hno
    have h0 := hno 0 (by simp)
    simp only [List.drop_zero] at h0
    have hrec : ∀ i, i < P.length →
        src_dir.isPrefixOf ((P ++ src_dir ++ rest).drop i) = false := by
      intro i hi
      have := hno (i + 1) (by simp; omega)
      simpa using this
    simp only [List.cons_append] at h0 ⊢
    simp only [skip_topsrcdir_for, h0, Bool.false_eq_true, if_false, ne_eq,
      not_true_eq_false]
    exact ih hrec

theorem skip_for_suffix (m f : List Char) : skip_topsrcdir_for m f <:+ m := by
  induction m generalizing f with
  | nil => simp [skip_topsrcdir_for]
  | cons c ms ih =>
    cases f with
    | nil =>
      simp only [skip_topsrcdir_for]
      split <;> exact List.suffix_refl _
    | cons d fs =>
      simp only [skip_topsrcdir_for]
      split
      · exact List.suffix_refl _
      · split
        · exact List.suffix_refl _
        · exact List.IsSuffix.trans (ih fs) (List.suffix_cons c ms)

theorem skip_topsrcdir_ne_empty (my_filename message : String) (h : message ≠ "") :
    chassis_log_skip_topsrcdir my_filename message ≠ "" := by
  unfold chassis_log_skip_topsrcdir
  split
  · exact h
  · intro he
    have := congrArg String.data he
    simp at this

theorem log_start_str (env : log_env) (b : chassis_log_backend_t) (tv : GTimeVal) :
    log_timestamp_start env b tv =
      { b with log_str := line_start env b tv b.log_str } := by
  unfold log_timestamp_start line_start chassis_log_backend_update_timestamp
  cases b with
  | mk nt nc res ls lm lts lc ll w =>
    cases nt <;> simp

theorem log_repeated_eq (env : log_env) (b : chassis_log_backend_t) (level : Nat)
    (tv : GTimeVal) :
    log_repeated env b level tv =
      if b.last_msg_count ≠ 0 then
        { b with
          log_str := line_start env b tv b.log_str ++
            repeated_text b.last_loggers b.last_msg_count,
          last_loggers := [],
          written := b.written ++
            [{ level := level,
               text := line_start env b tv b.log_str ++
                 repeated_text b.last_loggers b.last_msg_count,
               repeated := some b.last_msg_count }] }
      else b := by
  unfold log_repeated
  by_cases h : b.last_msg_count ≠ 0
  · simp only [h, if_true, ne_eq, not_false_eq_true, log_start_str, repeated_text,
      String.append_assoc]
  · simp only [h, if_false]

/-- The branch of `chassis_log_backend_log` that writes the record. -/
theorem log_emit (env : log_env) (b : chassis_log_backend_t) (r : log_record)
    (h : log_is_duplicate b r.level (chassis_log_skip_topsrcdir env.my_filename r.message) =
        false ∨ b.last_msg_count > 100 ∨ r.tv.tv_sec - b.last_msg_ts > 30) :
    chassis_log_backend_log env b r.logger_name r.level r.message r.tv =
      { log_repeated env b r.level r.tv with
        log_str := line_start env b r.tv (log_repeated env b r.level r.tv).log_str ++
          record_text env r,
        last_msg := chassis_log_skip_topsrcdir env.my_filename r.message,
        last_msg_count := 0,
        last_msg_ts := r.tv.tv_sec,
        written := (log_repeated env b r.level r.tv).written ++
          [{ level := r.level,
             text := line_start env b r.tv (log_repeated env b r.level r.tv).log_str ++
               record_text env r,
             repeated := none }] } := by
  have hc : ¬ (log_is_duplicate b r.level
      (chassis_log_skip_topsrcdir env.my_filename r.message) = true) ∨
      b.last_msg_count > 100 ∨ r.tv.tv_sec - b.last_msg_ts > 30 := by
    rcases h with h | h | h
    · exact Or.inl (by simp [h])
    · exact Or.inr (Or.inl h)
    · exact Or.inr (Or.inr h)
  have hts : (log_repeated env b r.level r.tv).needs_timestamp = b.needs_timestamp ∧
      (log_repeated env b r.level r.tv).log_ts_resolution = b.log_ts_resolution := by
    rw [log_repeated_eq]
    split <;> exact ⟨rfl, rfl⟩
  have hp : line_start env (log_repeated env b r.level r.tv) r.tv
      (log_repeated env b r.level r.tv).log_str =
      line_start env b r.tv (log_repeated env b r.level r.tv).log_str := by
    simp only [line_start, hts.1, hts.2]
  unfold chassis_log_backend_log
  simp only [hc, if_true, log_start_str, hp, record_text, String.append_assoc]

/-- The branch of `chassis_log_backend_log` that suppresses the record. -/
theorem log_suppress (env : log_env) (b : chassis_log_backend_t) (r : log_record)
    (hd : log_is_duplicate b r.level (chassis_log_skip_topsrcdir env.my_filename r.message) =
        true)
    (hc : b.last_msg_count ≤ 100) (ht : r.tv.tv_sec - b.last_msg_ts ≤ 30) :
    chassis_log_backend_log env b r.logger_name r.level r.message r.tv =
      { b with
        last_loggers := add_logger b.last_loggers (logger_name_clean r.logger_name),
        last_msg_count := b.last_msg_count + 1 } := by
  have hcond : ¬ (¬ (log_is_duplicate b r.level
      (chassis_log_skip_topsrcdir env.my_filename r.message) = true) ∨
      b.last_msg_count > 100 ∨ r.tv.tv_sec - b.last_msg_ts > 30) := by
    simp only [hd, not_true_eq_false, false_or, not_or]
    exact ⟨by omega, by omega⟩
  unfold chassis_log_backend_log
  simp only [hcond, if_false]

/-! ## Log backend: the path of the source file in a message -/

/-- C26, refuted as stated: with the file compiled as
"../trunk/src/chassis_log_backend.c", the message
"../trunk/src/chassis-log.c:12: hello" comes back as
"src/chassis-log.c:12: hello", which still begins with "src/"; and a message
whose path has two "src/" and shares no beginning with the path of the file
comes back unchanged. -/
theorem skip_topsrcdir_keeps_src :
    chassis_log_skip_topsrcdir "../trunk/src/chassis_log_backend.c"
        "../trunk/src/chassis-log.c:12: hello" = "src/chassis-log.c:12: hello" ∧
      chassis_log_skip_topsrcdir "../trunk/src/chassis_log_backend.c"
        "/abs/lib/src/plugins/src/x.c: m" = "/abs/lib/src/plugins/src/x.c: m" := by
  decide

/-- C26, amended: when the message is `P ++ "src/" ++ rest`, the path of the
file the formatter was compiled from begins with the same `P`, and no "src/"
starts inside `P`, then `chassis_log_skip_topsrcdir` returns `"src/" ++ rest`:
the beginning shared with the path of the own file is removed up to, and not
including, the first "src/". -/
theorem skip_topsrcdir_strips_shared_prefix (P F rest : List Char)
    (hfirst : ∀ i, i < P.length →
      src_dir.isPrefixOf ((P ++ src_dir ++ rest).drop i) = false) :
    chassis_log_skip_topsrcdir (String.mk (P ++ F)) (String.mk (P ++ src_dir ++ rest)) =
      String.mk (src_dir ++ rest) := by
  unfold chassis_log_skip_topsrcdir
  simp only [String.toList]
  rw [skip_for_strips P F rest hfirst]
  rfl

theorem skip_topsrcdir_strips_shared_prefix_witness :
    (∀ i, i < "../trunk/".toList.length →
      src_dir.isPrefixOf
        (("../trunk/".toList ++ src_dir ++ "chassis-log.c:12: hello".toList).drop i) = false) ∧
    chassis_log_skip_topsrcdir
        (String.mk ("../trunk/".toList ++ "src/chassis_log_backend.c".toList))
        (String.mk ("../trunk/".toList ++ src_dir ++ "chassis-log.c:12: hello".toList)) =
      String.mk (src_dir ++ "chassis-log.c:12: hello".toList) :=
  ⟨by decide, skip_topsrcdir_strips_shared_prefix "../trunk/".toList
    "src/chassis_log_backend.c".toList "chassis-log.c:12: hello".toList (by decide)⟩

/-! ## Log backend: the text of a line -/

/-- C24, the code departs from it: a backend without timestamps (the one for
syslog) never empties `log_str`, so the text handed to the sink for the second
record begins with the whole text of the first. With timestamps the text is
the timestamp, ": " and the line of the record alone. -/
theorem log_without_timestamp_accumulates :
    (log_all env_trunk chassis_log_backend_syslog_new
        [message_record "" "a" 0, message_record "" "b" 1]).written =
      [{ level := G_LOG_LEVEL_MESSAGE, text := "[global] (message) a", repeated := none },
       { level := G_LOG_LEVEL_MESSAGE,
         text := "[global] (message) a[global] (message) b", repeated := none }] ∧
    (log_all env_trunk chassis_log_backend_stderr_new
        [message_record "" "a" 0, message_record "" "b" 1]).written =
      [{ level := G_LOG_LEVEL_MESSAGE,
         text := "2004-01-01 00:00:00: [global] (message) a", repeated := none },
       { level := G_LOG_LEVEL_MESSAGE,
         text := "2004-01-01 00:00:00: [global] (message) b", repeated := none }] := by
  decide

/-! ## Log backend: the broadcast level -/

/-- C25: a record at the level of a broadcast is always written.
`chassis_log_domain_log` hands it to the backend whatever the effective level
of the domain, and `chassis_log_backend_log` writes it whatever the state of
the backend (the test for a duplicate fails): behind what was written before
comes the line "last message repeated N times" if N > 0 duplicates were
pending, then the line of the record (`record_text`, in which the level is
named "*"); no duplicate is pending afterwards. -/
theorem broadcast_always_written (env : log_env) (domain : chassis_log_domain_t)
    (backend : chassis_log_backend_t) (logger_name message : String) (tv : GTimeVal) :
    chassis_log_domain_log env domain CHASSIS_LOG_LEVEL_BROADCAST message tv =
        { domain with
          backend := chassis_log_backend_log env domain.backend domain.name
            CHASSIS_LOG_LEVEL_BROADCAST message tv } ∧
      log_is_duplicate backend CHASSIS_LOG_LEVEL_BROADCAST
        (chassis_log_skip_topsrcdir env.my_filename message) = false ∧
      (chassis_log_backend_log env backend logger_name CHASSIS_LOG_LEVEL_BROADCAST
          message tv).written =
        backend.written ++ pending_marker env backend CHASSIS_LOG_LEVEL_BROADCAST tv ++
          [{ level := CHASSIS_LOG_LEVEL_BROADCAST,
             text := line_start env backend tv (text_before_line env backend tv) ++
               record_text env
                 { logger_name := logger_name, level := CHASSIS_LOG_LEVEL_BROADCAST,
                   message := message, tv := tv },
             repeated := none }] ∧
      log_lvl_name CHASSIS_LOG_LEVEL_BROADCAST = "*" ∧
      (chassis_log_backend_log env backend logger_name CHASSIS_LOG_LEVEL_BROADCAST
          message tv).last_msg_count = 0 := by
  have hd : log_is_duplicate backend CHASSIS_LOG_LEVEL_BROADCAST
      (chassis_log_skip_topsrcdir env.my_filename message) = false := by
    simp [log_is_duplicate]
  have hl : log_lvl_name CHASSIS_LOG_LEVEL_BROADCAST = "*" := by decide
  refine ⟨?_, hd, ?_, hl, ?_⟩
  · simp [chassis_log_domain_log]
  · have h := log_emit env backend
      { logger_name := logger_name, level := CHASSIS_LOG_LEVEL_BROADCAST,
        message := message, tv := tv } (Or.inl hd)
    dsimp only at h
    rw [h, log_repeated_eq]
    by_cases hc : backend.last_msg_count ≠ 0
    · simp only [pending_marker, text_before_line, marker_text, hc, if_true,
        ne_eq, not_false_eq_true, List.append_assoc]
    · simp only [pending_marker, text_before_line, marker_text, hc, if_false,
        List.append_nil]
  · have h := log_emit env backend
      { logger_name := logger_name, level := CHASSIS_LOG_LEVEL_BROADCAST,
        message := message, tv := tv } (Or.inl hd)
    dsimp only at h
    rw [h]

/-! ## Log backend: runs of duplicates -/

theorem log_all_cons (env : log_env) (b : chassis_log_backend_t) (r : log_record)
    (rs : List log_record) :
    log_all env b (r :: rs) =
      log_all env (chassis_log_backend_log env b r.logger_name r.level r.message r.tv) rs := by
  simp [log_all]

theorem log_all_nil (env : log_env) (b : chassis_log_backend_t) : log_all env b [] = b := rfl

theorem log_all_append (env : log_env) (b : chassis_log_backend_t) (rs ss : List log_record) :
    log_all env b (rs ++ ss) = log_all env (log_all env b rs) ss := by
  simp [log_all]

/-- A run of duplicates within the limits only counts and collects the names of
the loggers. -/
theorem log_suppress_run (env : log_env) (M : String) (hM : M ≠ "") (ts : Int)
    (dups : List log_record) :
    ∀ s : chassis_log_backend_t, s.needs_compress = true → s.last_msg = M →
      s.last_msg_ts = ts →
      (∀ r ∈ dups, chassis_log_skip_topsrcdir env.my_filename r.message = M ∧
        r.level ≠ CHASSIS_LOG_LEVEL_BROADCAST ∧ r.tv.tv_sec - ts ≤ 30) →
      s.last_msg_count + dups.length ≤ 101 →
      log_all env s dups =
        { s with
          last_loggers := loggers_from s.last_loggers dups,
          last_msg_count := s.last_msg_count + dups.length } := by
  induction dups with
  | nil =>
    intro s _ _ _ _ _
    simp [log_all, loggers_from]
  | cons r rs ih =>
    intro s hc hm hts hd hn
    have hr := hd r (List.mem_cons_self r rs)
    have hlen : M.length > 0 := length_pos_of_ne_empty M hM
    have hdup : log_is_duplicate s r.level
        (chassis_log_skip_topsrcdir env.my_filename r.message) = true := by
      simp [log_is_duplicate, hm, hr.1, hr.2.1, hc, hlen]
    simp only [List.length_cons] at hn
    rw [log_all_cons, log_suppress env s r hdup (by omega) (by rw [hts]; exact hr.2.2)]
    rw [ih { s with
        last_loggers := add_logger s.last_loggers (logger_name_clean r.logger_name),
        last_msg_count := s.last_msg_count + 1 } hc hm hts
      (fun x hx => hd x (List.mem_cons_of_mem r hx)) (by simp only []; omega)]
    simp only [loggers_from, List.foldl_cons, List.length_cons]
    have : s.last_msg_count + 1 + rs.length = s.last_msg_count + (rs.length + 1) := by omega
    rw [this]

/-- One call of `chassis_log_backend_log` either writes the record, behind the
line for the pending duplicates, or counts it as one more duplicate, and the
latter only while at most 100 are pending. -/
theorem log_step (env : log_env) (b : chassis_log_backend_t) (r : log_record) :
    ((chassis_log_backend_log env b r.logger_name r.level r.message r.tv).written =
        b.written ++ pending_marker env b r.level r.tv ++
          [{ level := r.level,
             text := line_start env b r.tv (text_before_line env b r.tv) ++ record_text env r,
             repeated := none }] ∧
      (chassis_log_backend_log env b r.logger_name r.level r.message r.tv).last_msg_count = 0) ∨
    (b.last_msg_count ≤ 100 ∧
      (chassis_log_backend_log env b r.logger_name r.level r.message r.tv).written =
        b.written ∧
      (chassis_log_backend_log env b r.logger_name r.level r.message r.tv).last_msg_count =
        b.last_msg_count + 1) := by
  by_cases h : log_is_duplicate b r.level
      (chassis_log_skip_topsrcdir env.my_filename r.message) = false ∨
      b.last_msg_count > 100 ∨ r.tv.tv_sec - b.last_msg_ts > 30
  · left
    rw [log_emit env b r h, log_repeated_eq]
    by_cases hc : b.last_msg_count ≠ 0
    · simp only [pending_marker, text_before_line, marker_text, hc, if_true,
        ne_eq, not_false_eq_true, List.append_assoc, and_self]
    · simp only [pending_marker, text_before_line, marker_text, hc, if_false,
        List.append_nil, and_self]
  · right
    simp only [not_or, Bool.not_eq_false, not_lt, gt_iff_lt] at h
    rw [log_suppress env b r h.1 h.2.1 h.2.2]
    exact ⟨h.2.1, rfl, rfl⟩

theorem markers_at_most_append (bound : Nat) (xs ys : List log_write)
    (hx : markers_at_most bound xs) (hy : markers_at_most bound ys) :
    markers_at_most bound (xs ++ ys) := by
  intro w hw n hn
  rcases List.mem_append.mp hw with h | h
  · exact hx w h n hn
  · exact hy w h n hn

theorem log_step_bound (env : log_env) (b : chassis_log_backend_t) (r : log_record)
    (hc : b.last_msg_count ≤ 101) (hw : markers_at_most 101 b.written) :
    (chassis_log_backend_log env b r.logger_name r.level r.message r.tv).last_msg_count ≤ 101 ∧
      markers_at_most 101
        (chassis_log_backend_log env b r.logger_name r.level r.message r.tv).written := by
  rcases log_step env b r with ⟨h1, h2⟩ | ⟨h0, h1, h2⟩
  · refine ⟨by omega, ?_⟩
    rw [h1]
    refine markers_at_most_append _ _ _ (markers_at_most_append _ _ _ hw ?_) ?_
    · intro w hw2 n hn
      unfold pending_marker at hw2
      split at hw2
      · simp only [List.mem_singleton] at hw2
        subst hw2
        simp only [Option.some.injEq] at hn
        omega
      · cases hw2
    · intro w hw2 n hn
      simp only [List.mem_singleton] at hw2
      subst hw2
      cases hn
  · exact ⟨by omega, by rw [h1]; exact hw⟩

set_option maxRecDepth 100000 in
/-- C23, refuted as stated: 102 records with one message on a new backend for
stderr leave 101 duplicates pending (the first is written, the other 101 are
suppressed), and the record that ends the run is preceded by the line
"last message repeated 101 times". -/
theorem log_run_reaches_101 :
    (log_all env_trunk chassis_log_backend_stderr_new
        (List.replicate 102 (warning_record "" "a" 0))).last_msg_count = 101 ∧
    (log_all env_trunk chassis_log_backend_stderr_new
        (List.replicate 102 (warning_record "" "a" 0) ++ [warning_record "" "b" 0])).written =
      [{ level := G_LOG_LEVEL_WARNING, text := "2004-01-01 00:00:00: [global] (warning) a",
         repeated := none },
       { level := G_LOG_LEVEL_WARNING,
         text := "2004-01-01 00:00:00: [global] last message repeated 101 times\n",
         repeated := some 101 },
       { level := G_LOG_LEVEL_WARNING, text := "2004-01-01 00:00:00: [global] (warning) b",
         repeated := none }] := by
  decide

/-- C23, amended: on a backend that starts with at most 101 duplicates pending
and no line reporting more than 101 (a new backend has neither), after every
sequence of records at most 101 duplicates are pending and no line written
reports "last message repeated N times" with N above 101; and every single
call either writes its record or suppresses it, the latter only while at most
100 duplicates are pending. -/
theorem log_run_at_most_101 (env : log_env) (b : chassis_log_backend_t)
    (records : List log_record) (hc : b.last_msg_count ≤ 101)
    (hw : markers_at_most 101 b.written) :
    (log_all env b records).last_msg_count ≤ 101 ∧
      markers_at_most 101 (log_all env b records).written ∧
      ∀ (s : chassis_log_backend_t) (r : log_record),
        (chassis_log_backend_log env s r.logger_name r.level r.message r.tv).written =
            s.written →
          s.last_msg_count ≤ 100 ∧
            (chassis_log_backend_log env s r.logger_name r.level r.message r.tv).last_msg_count =
              s.last_msg_count + 1 := by
  refine ⟨?_, ?_, ?_⟩
  · induction records generalizing b with
    | nil => simpa [log_all] using hc
    | cons r rs ih =>
      rw [log_all_cons]
      exact ih _ (log_step_bound env b r hc hw).1 (log_step_bound env b r hc hw).2
  · induction records generalizing b with
    | nil => simpa [log_all] using hw
    | cons r rs ih =>
      rw [log_all_cons]
      exact ih _ (log_step_bound env b r hc hw).1 (log_step_bound env b r hc hw).2
  · intro s r hs
    rcases log_step env s r with ⟨h1, _⟩ | ⟨h0, _, h2⟩
    · rw [h1] at hs
      have := congrArg List.length hs
      simp only [List.length_append, List.length_singleton] at this
      omega
    · exact ⟨h0, h2⟩

theorem log_run_at_most_101_witness :
    chassis_log_backend_stderr_new.last_msg_count ≤ 101 ∧
    markers_at_most 101 chassis_log_backend_stderr_new.written ∧
    (log_all env_trunk chassis_log_backend_stderr_new
        (List.replicate 102 (warning_record "" "a" 0))).last_msg_count ≤ 101 :=
  ⟨by decide, (by intro w hw; cases hw),
    (log_run_at_most_101 env_trunk chassis_log_backend_stderr_new
      (List.replicate 102 (warning_record "" "a" 0)) (by decide)
      (by intro w hw; cases hw)).1⟩

/-- C22: on a backend that compresses duplicates, with no duplicate pending and
a last message other than the stripped `r0.message`, which is not empty: after
the record `r0`, then `k` records `dups` (1 ≤ k < 100) with the same stripped
message, none at the level of a broadcast and each at most 30 seconds after
`r0`, and then a record `r1` with another stripped message, exactly three lines
were written behind the earlier ones: the line of `r0`, the line
"[loggers] last message repeated k times" (at the level of `r1`, with the names
of the loggers of the duplicates and a newline at its end), and the line of
`r1`; each begins with the timestamp and ": " when the backend needs
timestamps. -/
theorem duplicates_compressed (env : log_env) (b : chassis_log_backend_t)
    (r0 r1 : log_record) (dups : List log_record)
    (hcompress : b.needs_compress = true) (hcount : b.last_msg_count = 0)
    (hne : r0.message ≠ "")
    (hnew : b.last_msg ≠ chassis_log_skip_topsrcdir env.my_filename r0.message)
    (hk1 : 1 ≤ dups.length) (hk : dups.length < 100)
    (hdup : ∀ r ∈ dups,
      chassis_log_skip_topsrcdir env.my_filename r.message =
          chassis_log_skip_topsrcdir env.my_filename r0.message ∧
        r.level ≠ CHASSIS_LOG_LEVEL_BROADCAST ∧ r.tv.tv_sec - r0.tv.tv_sec ≤ 30)
    (hdiff : chassis_log_skip_topsrcdir env.my_filename r1.message ≠
      chassis_log_skip_topsrcdir env.my_filename r0.message) :
    (log_all env b (r0 :: dups ++ [r1])).written =
      b.written ++
        [{ level := r0.level,
           text := line_start env b r0.tv b.log_str ++ record_text env r0,
           repeated := none },
         { level := r1.level,
           text := line_start env b r1.tv
               (line_start env b r0.tv b.log_str ++ record_text env r0) ++
             repeated_text (loggers_from b.last_loggers dups) dups.length,
           repeated := some dups.length },
         { level := r1.level,
           text := line_start env b r1.tv
               (line_start env b r1.tv
                   (line_start env b r0.tv b.log_str ++ record_text env r0) ++
                 repeated_text (loggers_from b.last_loggers dups) dups.length) ++
             record_text env r1,
           repeated := none }] := by
  have hM := skip_topsrcdir_ne_empty env.my_filename r0.message hne
  have h0 : log_is_duplicate b r0.level
      (chassis_log_skip_topsrcdir env.my_filename r0.message) = false := by
    simp [log_is_duplicate, hnew]
  have e0 := log_emit env b r0 (Or.inl h0)
  rw [log_repeated_eq] at e0
  simp only [hcount, ne_eq, not_true_eq_false, if_false] at e0
  have hrun := log_suppress_run env _ hM r0.tv.tv_sec dups
    (chassis_log_backend_log env b r0.logger_name r0.level r0.message r0.tv)
    (by rw [e0]; exact hcompress) (by rw [e0]) (by rw [e0]) hdup
    (by rw [e0]; simp only []; omega)
  rw [e0] at hrun
  simp only [Nat.zero_add] at hrun
  rw [← e0] at hrun
  have h1 : log_is_duplicate
      (log_all env (chassis_log_backend_log env b r0.logger_name r0.level r0.message r0.tv)
        dups) r1.level
      (chassis_log_skip_topsrcdir env.my_filename r1.message) = false := by
    rw [hrun]
    simp [log_is_duplicate, Ne.symm hdiff]
  have hk0 : dups.length ≠ 0 := by omega
  rw [List.cons_append, log_all_cons, log_all_append, log_all_cons, log_all_nil,
    log_emit env _ r1 (Or.inl h1), log_repeated_eq, hrun]
  simp only [hk0, ne_eq, not_false_eq_true, if_true, line_start, List.append_assoc,
    List.singleton_append, List.cons_append, List.nil_append]

theorem duplicates_compressed_witness :
    (log_all env_trunk chassis_log_backend_stderr_new
        (warning_record "" "a" 0 ::
          [warning_record "x" "a" 1, warning_record "y" "a" 2] ++
          [warning_record "" "b" 2])).written =
      [{ level := G_LOG_LEVEL_WARNING, text := "2004-01-01 00:00:00: [global] (warning) a",
         repeated := none },
       { level := G_LOG_LEVEL_WARNING,
         text := "2004-01-01 00:00:00: [x, y] last message repeated 2 times\n",
         repeated := some 2 },
       { level := G_LOG_LEVEL_WARNING, text := "2004-01-01 00:00:00: [global] (warning) b",
         repeated := none }] :=
  (duplicates_compressed env_trunk chassis_log_backend_stderr_new (warning_record "" "a" 0)
    (warning_record "" "b" 2) [warning_record "x" "a" 1, warning_record "y" "a" 2]
    (by decide) (by decide) (by decide) (by decide) (by decide) (by decide) (by decide)
    (by decide)).trans (by decide)

/-! ## OID: the value and the length of a segment -/

/-- C31 (the claim fails on the code): on the OID body `2a 82 80 80 80 80 80 80 80
80 01`, whose second segment has ten bytes with the value 2 ^ 64 + 1,
`network_asn1_proto_get_oid` succeeds and renders the segment as "1": the value
was reduced modulo 2 ^ 64. -/
theorem get_oid_segment_wraps :
    network_asn1_proto_get_oid ⟨oid_wrapping_segment, 0⟩ 11 "" =
      some (.ok "1.2.1" ⟨oid_wrapping_segment, 11⟩) ∧
    oid_segment_value (oid_wrapping_segment.drop 1) = 2 ^ 64 + 1 := by
  decide

/-- C32 (the claim fails on the code): on the bytes `2a 81 01` with `len = 2`,
`network_asn1_proto_get_oid` succeeds with the text "1.2.129" and the cursor at 3:
the segment that starts inside the first two bytes is read to its end, one byte
behind them; with `2a 81 02` the text is "1.2.130"; and when only the two bytes
are there, the call fails with EOF. -/
theorem get_oid_reads_beyond_len :
    network_asn1_proto_get_oid ⟨[0x2a, 0x81, 0x01], 0⟩ 2 "" =
      some (.ok "1.2.129" ⟨[0x2a, 0x81, 0x01], 3⟩) ∧
    network_asn1_proto_get_oid ⟨[0x2a, 0x81, 0x02], 0⟩ 2 "" =
      some (.ok "1.2.130" ⟨[0x2a, 0x81, 0x02], 3⟩) ∧
    network_asn1_proto_get_oid ⟨[0x2a, 0x81], 0⟩ 2 "" =
      some (.fail .EOF ⟨[0x2a, 0x81], 2⟩) := by
  decide

/-! ## Log backend: the priority of syslog -/

/-- C34 (the claim fails on the code): `chassis_log_backend_syslog_log` tests
`level && G_LOG_LEVEL_ERROR`, with the logical and, which holds for every level
but 0; so every record is passed to `syslog` with `LOG_CRIT`, also those at the
levels CRITICAL, WARNING, MESSAGE, INFO and DEBUG. -/
theorem syslog_log_always_crit :
    (∀ level, chassis_log_backend_syslog_log level =
      if level = 0 then .LOG_ERR else .LOG_CRIT) ∧
    chassis_log_backend_syslog_log G_LOG_LEVEL_ERROR = .LOG_CRIT ∧
    chassis_log_backend_syslog_log G_LOG_LEVEL_CRITICAL = .LOG_CRIT ∧
    chassis_log_backend_syslog_log G_LOG_LEVEL_WARNING = .LOG_CRIT ∧
    chassis_log_backend_syslog_log G_LOG_LEVEL_MESSAGE = .LOG_CRIT ∧
    chassis_log_backend_syslog_log G_LOG_LEVEL_INFO = .LOG_CRIT ∧
    chassis_log_backend_syslog_log G_LOG_LEVEL_DEBUG = .LOG_CRIT := by
  refine ⟨?_, by decide, by decide, by decide, by decide, by decide, by decide⟩
  intro level
  by_cases h : level = 0
  · subst h
    decide
  · simp [chassis_log_backend_syslog_log, c_logical_and, h, G_LOG_LEVEL_ERROR]

/-! ## Backend registry: what a check may change -/

theorem check_for_steps (now : GTimeVal) (l : List network_backend_t) :
    List.Forall₂ (check_step now) l (backends_check_for l now).1 := by
  induction l with
  | nil => exact List.Forall₂.nil
  | cons b l ih =>
    rw [backends_check_for]
    by_cases h1 : b.state ≠ .BACKEND_STATE_DOWN
    · rw [if_pos h1]
      exact List.Forall₂.cons (Or.inl rfl) ih
    · rw [if_neg h1]
      by_cases h2 : now.tv_sec - b.state_since.tv_sec > 4
      · rw [if_pos h2]
        exact List.Forall₂.cons (Or.inr ⟨not_not.mp h1, h2, rfl⟩) ih
      · rw [if_neg h2]
        exact List.Forall₂.cons (Or.inl rfl) ih

theorem forall2_refl_step (now : GTimeVal) (l : List network_backend_t) :
    List.Forall₂ (check_step now) l l := by
  induction l with
  | nil => exact List.Forall₂.nil
  | cons b l ih => exact List.Forall₂.cons (Or.inl rfl) ih

/-- C36: whatever the clock reading, throttled or not, `network_backends_check`
leaves the number and the order of the backends, and backend by backend either
leaves the backend as it is or, if its state is down and the seconds of its
`state_since` lie more than 4 before the seconds of the clock, sets the state to
unknown and `state_since` to the clock: address, role, uuid, pool and client
count never change, a backend that is not down is unchanged, and a flipped
backend was down for more than 4 seconds (with microseconds inside a second). -/
theorem check_frame (bs : network_backends_t) (now : GTimeVal) :
    (network_backends_check bs now).2.backends.length = bs.backends.length ∧
    List.Forall₂ (check_step now) bs.backends (network_backends_check bs now).2.backends ∧
    (∀ b b1, check_step now b b1 →
      b1.addr_name = b.addr_name ∧ b1.type = b.type ∧ b1.uuid = b.uuid ∧
      b1.pool = b.pool ∧ b1.connected_clients = b.connected_clients ∧
      (b.state ≠ .BACKEND_STATE_DOWN → b1 = b) ∧
      (b1.state ≠ b.state →
        b.state = .BACKEND_STATE_DOWN ∧ b1.state = .BACKEND_STATE_UNKNOWN) ∧
      (b1 ≠ b → 0 ≤ b.state_since.tv_usec → b.state_since.tv_usec < G_USEC_PER_SEC →
        0 ≤ now.tv_usec → now.tv_usec < G_USEC_PER_SEC →
        ge_gtimeval_diff b.state_since now > 4 * G_USEC_PER_SEC)) := by
  have hsteps : List.Forall₂ (check_step now) bs.backends
      (network_backends_check bs now).2.backends := by
    unfold network_backends_check
    dsimp only
    split
    · split
      · exact forall2_refl_step now _
      · exact forall2_refl_step now _
    · exact check_for_steps now _
  refine ⟨hsteps.length_eq.symm, hsteps, ?_⟩
  intro b b1 h
  rcases h with h | ⟨hd, ht, h⟩
  · subst h
    exact ⟨rfl, rfl, rfl, rfl, rfl, fun _ => rfl, fun hc => absurd rfl hc,
      fun hc => absurd rfl hc⟩
  · subst h
    refine ⟨rfl, rfl, rfl, rfl, rfl, fun hc => absurd hd hc, fun _ => ⟨hd, rfl⟩, ?_⟩
    intro _ h1 h2 h3 h4
    simp only [ge_gtimeval_diff, G_USEC_PER_SEC] at *
    omega

/-! ## Connection pool: the idle connections of the other users -/

/-- What `network_connection_pool_get` does for a name that has no queue: nothing
when no queue is longer than `min_idle_connections`, and otherwise it takes the
head of such a queue and leaves the rest under the same key. -/
theorem get_without_own_queue (pool : network_connection_pool) (username : String)
    (hwf : pool.users.wf) (hq : g_hash_table_lookup pool.users username = none) :
    network_connection_pool_get pool username = { sock := none, pool := pool, freed := [] } ∨
    ∃ k e rest, g_hash_table_lookup pool.users k = some (e :: rest) ∧
      (e :: rest).length > pool.min_idle_connections ∧
      network_connection_pool_get pool username =
        { sock := some e.sock,
          pool := { pool with users := g_hash_table_store pool.users k rest },
          freed := [] } := by
  have hc := get_conns_other pool username hq
  cases hf : g_hash_table_find pool.users (find_idle_conns pool.min_idle_connections) with
  | none =>
    left
    simp [network_connection_pool_get, hc, hf]
  | some kq =>
    obtain ⟨k, q⟩ := kq
    right
    obtain ⟨hk, hp⟩ := find_some pool.users _ k q hf hwf
    have hlen : q.length > pool.min_idle_connections := by
      simpa [find_idle_conns] using hp
    cases q with
    | nil => simp at hlen
    | cons e rest =>
      have hku : username ≠ k := by
        intro heq
        rw [heq, hk] at hq
        exact absurd hq (by simp)
      have hstore : g_hash_table_lookup (g_hash_table_store pool.users k rest) username =
          none := by
        rw [lookup_store]
        simp [hku, hq]
      refine ⟨k, e, rest, hk, hlen, ?_⟩
      by_cases hr : rest.length = 0
      · simp [network_connection_pool_get, hc, hf, hr, remove_absent _ _ hstore]
      · simp [network_connection_pool_get, hc, hf, hr]

/-- C33: when no queue is stored under `username`, every queue that held at least
`min_idle_connections` entries before `network_connection_pool_get` is still in
the mapping afterwards, under its key, and still holds at least that many; the
call frees nothing and leaves `min_idle_connections` as it is. -/
theorem get_keeps_min_idle (pool : network_connection_pool) (username : String)
    (hwf : pool.users.wf) (hq : g_hash_table_lookup pool.users username = none) :
    (∀ key q, g_hash_table_lookup pool.users key = some q →
      q.length ≥ pool.min_idle_connections →
      ∃ q1, g_hash_table_lookup (network_connection_pool_get pool username).pool.users key =
          some q1 ∧ q1.length ≥ pool.min_idle_connections) ∧
    (network_connection_pool_get pool username).freed = [] ∧
    (network_connection_pool_get pool username).pool.min_idle_connections =
      pool.min_idle_connections := by
  rcases get_without_own_queue pool username hwf hq with h | ⟨k, e, rest, hk, hlen, h⟩
  · rw [h]
    exact ⟨fun key q hkey hl => ⟨q, hkey, hl⟩, rfl, rfl⟩
  · rw [h]
    refine ⟨?_, rfl, rfl⟩
    intro key q hkey hl
    by_cases hkk : key = k
    · subst hkk
      refine ⟨rest, ?_, ?_⟩
      · simp [lookup_store, hk]
      · simp only [List.length_cons] at hlen
        omega
    · exact ⟨q, by simp [lookup_store, hkk, hkey], hl⟩

/-- C33, at the pool with `min_idle_connections = 1` and alice = [a, b, c]: after
`get("bob")` the queue of alice holds two entries. -/
theorem get_keeps_min_idle_witness :
    ∃ q1, g_hash_table_lookup (network_connection_pool_get pool_abc "bob").pool.users "alice" =
      some q1 ∧ q1.length ≥ pool_abc.min_idle_connections :=
  (get_keeps_min_idle pool_abc "bob" (by decide) (by decide)).1 "alice"
    [⟨100, ⟨1, "alice"⟩, 0⟩, ⟨101, ⟨2, "alice"⟩, 1⟩, ⟨102, ⟨3, "alice"⟩, 2⟩]
    (by decide) (by decide)

/-! ## Log backend: the account of the records -/

theorem record_lines_append (xs ys : List log_write) :
    record_lines (xs ++ ys) = record_lines xs + record_lines ys := by
  simp [record_lines]

theorem marker_sum_append (xs ys : List log_write) :
    marker_sum (xs ++ ys) = marker_sum xs + marker_sum ys := by
  simp [marker_sum]

theorem pending_marker_account (env : log_env) (b : chassis_log_backend_t) (level : Nat)
    (tv : GTimeVal) :
    record_lines (pending_marker env b level tv) = 0 ∧
      marker_sum (pending_marker env b level tv) = b.last_msg_count := by
  unfold pending_marker
  by_cases h : b.last_msg_count ≠ 0
  · simp [h, record_lines, marker_sum]
  · have h0 : b.last_msg_count = 0 := not_not.mp h
    simp [h0, record_lines, marker_sum]

theorem add_logger_ne_nil (l : List String) (name : String) : add_logger l name ≠ [] := by
  unfold add_logger
  split
  · rename_i h
    intro hc
    rw [hc] at h
    simp at h
  · simp

/-- One call keeps the account: lines, reported duplicates and pending
duplicates grow by one in all, and duplicates are pending exactly when names of
loggers are. -/
theorem log_step_account (env : log_env) (b : chassis_log_backend_t) (r : log_record)
    (hl : b.last_msg_count = 0 ↔ b.last_loggers = []) :
    (record_lines (chassis_log_backend_log env b r.logger_name r.level r.message r.tv).written +
        marker_sum (chassis_log_backend_log env b r.logger_name r.level r.message r.tv).written +
        (chassis_log_backend_log env b r.logger_name r.level r.message r.tv).last_msg_count =
      record_lines b.written + marker_sum b.written + b.last_msg_count + 1) ∧
    ((chassis_log_backend_log env b r.logger_name r.level r.message r.tv).last_msg_count = 0 ↔
      (chassis_log_backend_log env b r.logger_name r.level r.message r.tv).last_loggers = []) := by
  by_cases h : log_is_duplicate b r.level
      (chassis_log_skip_topsrcdir env.my_filename r.message) = false ∨
      b.last_msg_count > 100 ∨ r.tv.tv_sec - b.last_msg_ts > 30
  · have hw := log_step env b r
    rcases hw with ⟨h1, h2⟩ | ⟨_, h1, h2⟩
    · rw [h1, h2]
      have hp := pending_marker_account env b r.level r.tv
      refine ⟨?_, ?_⟩
      · simp only [record_lines_append, marker_sum_append, hp.1, hp.2]
        simp [record_lines, marker_sum]
        omega
      · rw [log_emit env b r h, log_repeated_eq]
        by_cases hc : b.last_msg_count ≠ 0
        · simp [hc]
        · have h0 : b.last_msg_count = 0 := not_not.mp hc
          simp [hc, hl.mp h0]
    · rw [log_emit env b r h] at h2
      simp at h2
  · simp only [not_or, Bool.not_eq_false, not_lt, gt_iff_lt] at h
    rw [log_suppress env b r h.1 h.2.1 h.2.2]
    refine ⟨by simp only []; omega, ?_⟩
    simp only []
    constructor
    · intro hc
      omega
    · intro hc
      exact absurd hc (add_logger_ne_nil _ _)

/-- C40: on a backend that starts with nothing written, no duplicate pending and
no name of a logger pending, after every sequence of records (so after each
record of a sequence) the number of records equals the number of lines of
records written plus the sum of the N of the lines "last message repeated N
times" written plus the number of pending duplicates; and no duplicate is
pending exactly when no name of a logger is pending. -/
theorem log_account (env : log_env) (b : chassis_log_backend_t) (records : List log_record)
    (hw : b.written = []) (hc : b.last_msg_count = 0) (hl : b.last_loggers = []) :
    records.length =
        record_lines (log_all env b records).written +
          marker_sum (log_all env b records).written +
          (log_all env b records).last_msg_count ∧
      ((log_all env b records).last_msg_count = 0 ↔
        (log_all env b records).last_loggers = []) := by
  have key : ∀ (rs : List log_record) (s : chassis_log_backend_t),
      (s.last_msg_count = 0 ↔ s.last_loggers = []) →
      (record_lines (log_all env s rs).written + marker_sum (log_all env s rs).written +
          (log_all env s rs).last_msg_count =
        record_lines s.written + marker_sum s.written + s.last_msg_count + rs.length) ∧
      ((log_all env s rs).last_msg_count = 0 ↔ (log_all env s rs).last_loggers = []) := by
    intro rs
    induction rs with
    | nil =>
      intro s hs
      exact ⟨by simp [log_all_nil], by simpa [log_all_nil] using hs⟩
    | cons r rs ih =>
      intro s hs
      rw [log_all_cons]
      obtain ⟨h1, h2⟩ := log_step_account env s r hs
      obtain ⟨h3, h4⟩ := ih _ h2
      refine ⟨?_, h4⟩
      rw [h3, h1]
      simp only [List.length_cons]
      omega
  obtain ⟨h1, h2⟩ := key records b (by simp [hc, hl])
  refine ⟨?_, h2⟩
  rw [h1, hw, hc]
  simp [record_lines, marker_sum]

/-- C40, at three identical warnings and a different one on a new backend for
stderr: four records, two lines of records and one line that reports two
duplicates. -/
theorem log_account_witness :
    [warning_record "" "a" 0, warning_record "x" "a" 1, warning_record "y" "a" 2,
        warning_record "" "b" 2].length =
      record_lines (log_all env_trunk chassis_log_backend_stderr_new
          [warning_record "" "a" 0, warning_record "x" "a" 1, warning_record "y" "a" 2,
            warning_record "" "b" 2]).written +
        marker_sum (log_all env_trunk chassis_log_backend_stderr_new
          [warning_record "" "a" 0, warning_record "x" "a" 1, warning_record "y" "a" 2,
            warning_record "" "b" 2]).written +
        (log_all env_trunk chassis_log_backend_stderr_new
          [warning_record "" "a" 0, warning_record "x" "a" 1, warning_record "y" "a" 2,
            warning_record "" "b" 2]).last_msg_count :=
  (log_account env_trunk chassis_log_backend_stderr_new
    [warning_record "" "a" 0, warning_record "x" "a" 1, warning_record "y" "a" 2,
      warning_record "" "b" 2] (by decide) (by decide) (by decide)).1

/-! ## Log backend: the index loop of the path normalisation -/

theorem c_str_read_byte (pre : List Char) (c : Char) (rest : List Char) :
    c_str_read (pre ++ c :: rest) pre.length = .byte c := by
  have h : (pre ++ c :: rest)[pre.length]? = some c := by
    rw [List.getElem?_append_right (Nat.le_refl _)]
    simp
  simp only [c_str_read, h]

theorem c_str_read_end (s : List Char) : c_str_read s s.length = .terminator := by
  simp [c_str_read]

theorem c_str_read_terminator (s : List Char) (i : Nat) (h : i ≤ s.length) :
    c_str_read s i = .terminator ↔ i = s.length := by
  unfold c_str_read
  by_cases hi : i < s.length
  · simp [List.getElem?_eq_getElem hi]
    omega
  · have : i = s.length := by omega
    subst this
    simp

theorem skip_ndx_spec (m : List Char) :
    ∀ (pre_m pre_f f : List Char) (fuel : Nat), pre_m.length = pre_f.length →
      m.length + 1 ≤ fuel →
      ∃ ndx, skip_topsrcdir_ndx fuel (pre_m ++ m) (pre_f ++ f) pre_m.length = some ndx ∧
        ndx ≤ (pre_m ++ m).length ∧ (pre_m ++ m).drop ndx = skip_topsrcdir_for m f := by
  induction m with
  | nil =>
    intro pre_m pre_f f fuel _ hf
    obtain ⟨k, rfl⟩ : ∃ k, fuel = k + 1 := ⟨fuel - 1, by omega⟩
    refine ⟨pre_m.length, ?_, by simp, by simp [skip_topsrcdir_for]⟩
    have h := c_str_read_end (pre_m ++ [])
    simp only [List.append_nil] at h ⊢
    simp only [skip_topsrcdir_ndx, h]
  | cons c ms ih =>
    intro pre_m pre_f f fuel hlen hf
    simp only [List.length_cons] at hf
    obtain ⟨k, rfl⟩ : ∃ k, fuel = k + 1 := ⟨fuel - 1, by omega⟩
    have hdrop : (pre_m ++ c :: ms).drop pre_m.length = c :: ms := by simp
    simp only [skip_topsrcdir_ndx, c_str_read_byte, hdrop]
    by_cases hp : src_dir.isPrefixOf (c :: ms) = true
    · refine ⟨pre_m.length, ?_, by simp, ?_⟩
      · simp only [hp, if_true]
      · rw [hdrop]
        simp [skip_topsrcdir_for, hp]
    · simp only [hp, Bool.false_eq_true, if_false]
      cases f with
      | nil =>
        have h := c_str_read_end pre_f
        rw [← hlen] at h
        simp only [List.append_nil, h]
        refine ⟨pre_m.length, rfl, by simp, ?_⟩
        rw [hdrop]
        simp [skip_topsrcdir_for, hp]
      | cons d fs =>
        have h := c_str_read_byte pre_f d fs
        rw [← hlen] at h
        simp only [h]
        by_cases hcd : c ≠ d
        · simp only [hcd, ne_eq, not_false_eq_true, if_true]
          refine ⟨pre_m.length, rfl, by simp, ?_⟩
          rw [hdrop]
          simp [skip_topsrcdir_for, hp, hcd]
        · have hcd1 : c = d := not_not.mp hcd
          subst hcd1
          simp only [ne_eq, not_true_eq_false, if_false]
          obtain ⟨ndx, h1, h2, h3⟩ := ih (pre_m ++ [c]) (pre_f ++ [c]) fs k
            (by simp [hlen]) (by omega)
          simp only [List.append_assoc, List.singleton_append, List.length_append,
            List.length_singleton] at h1 h2 h3
          refine ⟨ndx, h1, by simpa using h2, ?_⟩
          rw [h3]
          simp [skip_topsrcdir_for, hp]

/-- The index loop gives what `chassis_log_skip_topsrcdir` gives, and no read is
behind a terminating zero. -/
theorem skip_topsrcdir_ndx_eq (my_filename message : String) :
    chassis_log_skip_topsrcdir_ndx my_filename message =
      some (chassis_log_skip_topsrcdir my_filename message) := by
  obtain ⟨ndx, h1, h2, h3⟩ := skip_ndx_spec message.toList [] [] my_filename.toList
    (message.toList.length + 1) rfl (Nat.le_refl _)
  simp only [List.nil_append, List.length_nil] at h1 h2 h3
  unfold chassis_log_skip_topsrcdir_ndx chassis_log_skip_topsrcdir
  rw [h1, ← h3]
  dsimp only
  by_cases he : ndx = message.toList.length
  · have ht := (c_str_read_terminator message.toList ndx h2).2 he
    simp only [ht, ne_eq, not_true_eq_false, if_false]
    rw [he, List.drop_length]
  · have ht : c_str_read message.toList ndx ≠ .terminator :=
      fun hc => he ((c_str_read_terminator message.toList ndx h2).1 hc)
    simp only [ht, ne_eq, not_false_eq_true, if_true]
    have hlt : ndx < message.toList.length := by omega
    cases hd : message.toList.drop ndx with
    | nil =>
      have := congrArg List.length hd
      simp only [List.length_drop, List.length_nil] at this
      omega
    | cons c cs => rfl

theorem src_dir_isPrefixOf_local (A X Y : List Char) :
    src_dir.isPrefixOf (A ++ src_dir ++ X) = src_dir.isPrefixOf (A ++ src_dir ++ Y) := by
  rcases A with _ | ⟨a, _ | ⟨b, _ | ⟨c, _ | ⟨d, A⟩⟩⟩⟩ <;>
    simp [src_dir, List.isPrefixOf]

theorem first_src_local (P X Y : List Char)
    (h : ∀ i, i < P.length → src_dir.isPrefixOf ((P ++ src_dir ++ X).drop i) = false) :
    ∀ i, i < P.length → src_dir.isPrefixOf ((P ++ src_dir ++ Y).drop i) = false := by
  intro i hi
  have e : ∀ Z : List Char, (P ++ src_dir ++ Z).drop i = P.drop i ++ src_dir ++ Z := by
    intro Z
    rw [List.append_assoc, List.drop_append_of_le_length (by omega), List.append_assoc]
  rw [e Y, src_dir_isPrefixOf_local (P.drop i) Y X, ← e X]
  exact h i hi

/-- C35: with `P` the part of the path of the own source file before its first
"src/", `chassis_log_skip_topsrcdir` turns every message `P ++ "src/" ++ R` into
`"src/" ++ R`; for every path of the file and every message the result is a
suffix of the message; and the loop written with indices, in which a read behind
the terminating zero of the path or of the message has no value, ends with the
same result. -/
theorem skip_topsrcdir_own_path (P F R : List Char)
    (hfirst : ∀ i, i < P.length →
      src_dir.isPrefixOf ((P ++ src_dir ++ F).drop i) = false) :
    chassis_log_skip_topsrcdir (String.mk (P ++ src_dir ++ F))
        (String.mk (P ++ src_dir ++ R)) = String.mk (src_dir ++ R) ∧
    (∀ my_filename message : String,
      (chassis_log_skip_topsrcdir my_filename message).toList <:+ message.toList) ∧
    (∀ my_filename message : String,
      chassis_log_skip_topsrcdir_ndx my_filename message =
        some (chassis_log_skip_topsrcdir my_filename message)) := by
  refine ⟨?_, ?_, skip_topsrcdir_ndx_eq⟩
  · unfold chassis_log_skip_topsrcdir
    simp only [String.toList]
    have h := skip_for_strips P (src_dir ++ F) R (first_src_local P F R hfirst)
    rw [← List.append_assoc] at h
    rw [h]
    rfl
  · intro my_filename message
    unfold chassis_log_skip_topsrcdir
    have h := skip_for_suffix message.toList my_filename.toList
    split
    · exact List.suffix_refl _
    · rename_i c cs hc
      rw [hc] at h
      exact h

/-- C35, at the path "../trunk/src/chassis_log_backend.c": the message
"../trunk/src/chassis-log.c" becomes "src/chassis-log.c". -/
theorem skip_topsrcdir_own_path_witness :
    chassis_log_skip_topsrcdir "../trunk/src/chassis_log_backend.c"
      "../trunk/src/chassis-log.c" = "src/chassis-log.c" :=
  (skip_topsrcdir_own_path "../trunk/".toList "chassis_log_backend.c".toList
    "chassis-log.c".toList (by decide)).1

/-! ## ASN.1: what a walk that ends has read -/

theorem is_valid_fuel_unique (f1 f2 : Nat) (p : network_packet) (r1 r2 : asn1_ret Unit)
    (h1 : network_asn1_is_valid_internal_fuel f1 p = some r1)
    (h2 : network_asn1_is_valid_internal_fuel f2 p = some r2) : r1 = r2 := by
  have e1 := is_valid_fuel_mono f1 f2 p r1 h1
  have e2 := is_valid_fuel_mono f2 f1 p r2 h2
  rw [Nat.add_comm f2 f1, e1] at e2
  exact Option.some.inj e2

theorem is_valid_while_unique (f1 f2 : Nat) (id : ASN1Identifier) (len : Nat)
    (p : network_packet) (r1 r2 : asn1_ret Unit)
    (h1 : is_valid_while f1 id len p = some r1)
    (h2 : is_valid_while f2 id len p = some r2) : r1 = r2 := by
  have e1 := is_valid_while_mono f1 f2 id len p r1 h1
  have e2 := is_valid_while_mono f2 f1 id len p r2 h2
  rw [Nat.add_comm f2 f1, e1] at e2
  exact Option.some.inj e2

/-- Whatever the fuel, a walk that ends has not changed the bytes, and when it
succeeds it stands behind at least two bytes, inside the view. -/
theorem is_valid_fuel_post (fuel : Nat) (p : network_packet) (r : asn1_ret Unit)
    (h : network_asn1_is_valid_internal_fuel fuel p = some r) :
    ret_post (fun p1 => p1.data = p.data ∧ p.offset + 2 ≤ p1.offset ∧
        p1.offset ≤ p.data.length)
      (fun p1 => p1.data = p.data) r := by
  obtain ⟨r1, h1, hpost⟩ := (is_valid_fuel_total (p.data.length - p.offset + 1)).1 p
    (Nat.le_refl _)
  rw [is_valid_fuel_unique _ _ p r r1 h h1]
  exact hpost

/-- Whatever the fuel, a loop that ends has not changed the bytes, and when it
succeeds it stands behind the `len` bytes. -/
theorem is_valid_while_post (fuel : Nat) (id : ASN1Identifier) (len : Nat)
    (p : network_packet) (r : asn1_ret Unit) (hb : p.offset + len ≤ p.data.length)
    (h : is_valid_while fuel id len p = some r) :
    ret_post (fun p1 => p1.data = p.data ∧ p1.offset = p.offset + len)
      (fun p1 => p1.data = p.data) r := by
  obtain ⟨r1, h1, hpost⟩ := (is_valid_fuel_total (len + 2)).2 id len p hb (Nat.le_refl _)
  rw [is_valid_while_unique _ _ id len p r r1 h h1]
  exact hpost

/-- A walk that succeeds has read a header and stands behind the content the
header announces. -/
theorem is_valid_fuel_ok (fuel : Nat) (p p1 : network_packet)
    (h : network_asn1_is_valid_internal_fuel fuel p = some (.ok () p1)) :
    ∃ id len ph f, fuel = f + 1 ∧ network_asn1_proto_get_header p = .ok (id, len) ph ∧
      ph.data = p.data ∧ p.offset + 2 ≤ ph.offset ∧
      network_packet_has_more_data ph len = true ∧
      is_valid_while f id len ph = some (.ok () p1) ∧
      p1.data = p.data ∧ p1.offset = ph.offset + len ∧ p1.offset ≤ p.data.length := by
  cases fuel with
  | zero => simp [network_asn1_is_valid_internal_fuel] at h
  | succ f =>
    rw [network_asn1_is_valid_internal_fuel] at h
    have hh := get_header_post p
    split at h
    · simp at h
    · simp at h
    · rename_i id len ph he
      rw [he] at hh
      simp only [ret_post] at hh
      obtain ⟨hd, ho1, ho2⟩ := hh
      by_cases hm : network_packet_has_more_data ph len = true
      · simp only [hm, Bool.not_true, Bool.false_eq_true, if_false] at h
        have hb := (has_more_data_iff ph len).1 hm
        have hpost := is_valid_while_post f id len ph _ hb h
        simp only [ret_post] at hpost
        refine ⟨id, len, ph, f, rfl, he, hd, ho1, hm, h, ?_, hpost.2, ?_⟩
        · rw [hpost.1, hd]
        · rw [hpost.2, ← hd]
          exact hb
      · simp [has_more_data_false ph len hm] at h

/-- C37: when the walk of `network_asn1_is_valid_internal` succeeds on a view, a
header was read at the cursor (at least two bytes) and the cursor stands exactly
behind the content the header announces, inside the view, the bytes being
unchanged; and whenever the walk over a sub-view of `len` bytes succeeds, the
offset it leaves is at most `len`, which is what the assertion
`sub_packet.offset <= len` tests. -/
theorem walk_consumes_one_element :
    (∀ packet p1 : network_packet,
      network_asn1_is_valid_internal packet = some (.ok () p1) →
      ∃ id len ph, network_asn1_proto_get_header packet = .ok (id, len) ph ∧
        packet.offset + 2 ≤ ph.offset ∧ p1.offset = ph.offset + len ∧
        p1.offset ≤ packet.data.length ∧ p1.data = packet.data) ∧
    (∀ (fuel : Nat) (packet : network_packet) (len : Nat) (sub : network_packet),
      network_asn1_is_valid_internal_fuel fuel
          { data := (packet.data.drop packet.offset).take len, offset := 0 } =
        some (.ok () sub) →
      sub.offset ≤ len) := by
  refine ⟨?_, ?_⟩
  · intro packet p1 h
    obtain ⟨id, len, ph, f, _, hh, _, ho, _, _, hd, hoff, hle⟩ :=
      is_valid_fuel_ok _ packet p1 h
    exact ⟨id, len, ph, hh, ho, hoff, hle, hd⟩
  · intro fuel packet len sub h
    have hpost := is_valid_fuel_post fuel _ _ h
    simp only [ret_post, List.length_take, List.length_drop] at hpost
    omega

/-- C37, at the bytes `30 06 02 01 01 02 01 02`: the header has two bytes and
announces six, and the walk leaves the cursor at 8. -/
theorem walk_consumes_one_element_witness :
    ∃ id len ph,
      network_asn1_proto_get_header ⟨[0x30, 0x06, 0x02, 0x01, 0x01, 0x02, 0x01, 0x02], 0⟩ =
        .ok (id, len) ph ∧
      (0 : Nat) + 2 ≤ ph.offset ∧ (8 : Nat) = ph.offset + len :=
  match walk_consumes_one_element.1 ⟨[0x30, 0x06, 0x02, 0x01, 0x01, 0x02, 0x01, 0x02], 0⟩
    ⟨[0x30, 0x06, 0x02, 0x01, 0x01, 0x02, 0x01, 0x02], 8⟩ (by decide) with
  | ⟨id, len, ph, h1, h2, h3, _, _⟩ => ⟨id, len, ph, h1, h2, h3⟩

/-- C38: the walk of `network_asn1_is_valid_internal` ends on every view: with one
unit of fuel more than there are unread bytes it gives a result.  The reason is
in the other parts: a header that was read has at least two bytes, so the content
it announces, of which every sub-view is a part, is shorter by two than the
unread bytes of the caller; and a walk over a sub-view that succeeds has consumed
at least two bytes and at most the `len` bytes of the sub-view, so the remaining
length `len - sub.offset` of the loop is below `len`. -/
theorem walk_terminates :
    (∀ packet : network_packet, ∃ r, network_asn1_is_valid_internal packet = some r) ∧
    (∀ (packet : network_packet) (fuel : Nat),
      packet.data.length - packet.offset + 1 ≤ fuel →
      ∃ r, network_asn1_is_valid_internal_fuel fuel packet = some r) ∧
    (∀ (packet ph : network_packet) (id : ASN1Identifier) (len : Nat),
      network_asn1_proto_get_header packet = .ok (id, len) ph →
      network_packet_has_more_data ph len = true →
      ∀ n, n ≤ len →
        ((ph.data.drop ph.offset).take n).length + 2 ≤ packet.data.length - packet.offset) ∧
    (∀ (fuel : Nat) (packet : network_packet) (len : Nat) (sub : network_packet),
      network_asn1_is_valid_internal_fuel fuel
          { data := (packet.data.drop packet.offset).take len, offset := 0 } =
        some (.ok () sub) →
      2 ≤ sub.offset ∧ sub.offset ≤ len ∧ len - sub.offset < len) := by
  refine ⟨?_, ?_, ?_, ?_⟩
  · intro packet
    obtain ⟨r, hr, _⟩ := is_valid_internal_total packet
    exact ⟨r, hr⟩
  · intro packet fuel hf
    obtain ⟨r, hr, _⟩ := (is_valid_fuel_total fuel).1 packet hf
    exact ⟨r, hr⟩
  · intro packet ph id len hh hm n hn
    have hp := get_header_post packet
    rw [hh] at hp
    simp only [ret_post] at hp
    have hb := (has_more_data_iff ph len).1 hm
    rw [hp.1] at hb
    simp only [List.length_take, List.length_drop]
    omega
  · intro fuel packet len sub h
    have hpost := is_valid_fuel_post fuel _ _ h
    simp only [ret_post, List.length_take, List.length_drop] at hpost
    omega

/-! ## ASN.1: the walk reads the first element only -/

theorem take_agree_le (d d1 : List UInt8) (m k : Nat) (h : d1.take m = d.take m)
    (hk : k ≤ m) : d1.take k = d.take k := by
  have h1 := congrArg (List.take k) h
  simpa only [List.take_take, Nat.min_eq_left hk] using h1

theorem take_agree_length (d d1 : List UInt8) (m : Nat) (h : d1.take m = d.take m)
    (hm : m ≤ d.length) : m ≤ d1.length := by
  have h1 := congrArg List.length h
  simp only [List.length_take] at h1
  omega

theorem drop_take_agree (d d1 : List UInt8) (m off n : Nat) (h : d1.take m = d.take m)
    (hle : off + n ≤ m) : (d1.drop off).take n = (d.drop off).take n := by
  have key : ∀ l : List UInt8, (l.drop off).take n = ((l.take m).drop off).take n := by
    intro l
    rw [List.drop_take, List.take_take]
    have e : min n (m - off) = n := by omega
    rw [e]
  rw [key d, key d1, h]

theorem get_data_local (p : network_packet) (n : Nat) (d1 : List UInt8) (dst : List UInt8)
    (q : network_packet) (h : network_packet_get_data p n = some (dst, q))
    (hag : d1.take q.offset = p.data.take q.offset) :
    network_packet_get_data ⟨d1, p.offset⟩ n = some (dst, ⟨d1, q.offset⟩) := by
  obtain ⟨hq, hle, hdst⟩ := get_data_some p n dst q h
  subst hq
  simp only at hag
  have hle1 := take_agree_length _ _ _ hag hle
  rw [get_data_eq]
  simp only [hle1, if_true]
  rw [drop_take_agree _ _ _ _ _ hag (Nat.le_refl _), hdst]

theorem get_id_local (p : network_packet) (d1 : List UInt8) (id : ASN1Identifier)
    (q : network_packet) (h : network_asn1_proto_get_id p = .ok id q)
    (hag : d1.take q.offset = p.data.take q.offset) :
    network_asn1_proto_get_id ⟨d1, p.offset⟩ = .ok id ⟨d1, q.offset⟩ := by
  unfold network_asn1_proto_get_id at h ⊢
  cases hg : network_packet_get_data p 1 with
  | none =>
    rw [hg] at h
    simp at h
  | some x =>
    obtain ⟨dst, p1⟩ := x
    rw [hg] at h
    dsimp only at h
    split at h
    · simp at h
    · rename_i hv
      simp only [asn1_ret.ok.injEq] at h
      obtain ⟨hid, hq⟩ := h
      subst hq
      rw [get_data_local p 1 d1 dst p1 hg hag]
      dsimp only
      rw [if_neg hv, hid]

theorem get_length_local (p : network_packet) (d1 : List UInt8) (v : Nat)
    (q : network_packet) (h : network_asn1_proto_get_length p = .ok v q)
    (hag : d1.take q.offset = p.data.take q.offset) :
    network_asn1_proto_get_length ⟨d1, p.offset⟩ = .ok v ⟨d1, q.offset⟩ := by
  unfold network_asn1_proto_get_length at h ⊢
  cases hg : network_packet_get_data p 1 with
  | none =>
    rw [hg] at h
    simp at h
  | some x =>
    obtain ⟨dst, p1⟩ := x
    rw [hg] at h
    dsimp only at h
    obtain ⟨hp1, _, _⟩ := get_data_some p 1 dst p1 hg
    split at h
    · rename_i hb
      split at h
      · simp at h
      · rename_i h0
        split at h
        · simp at h
        · rename_i h8
          split at h
          · simp at h
          · rename_i ha
            cases hg3 : network_packet_get_data p1 ((dst.headD 0).toNat &&& 0x7f) with
            | none =>
              rw [hg3] at h
              simp at h
            | some y =>
              obtain ⟨lb, p2⟩ := y
              rw [hg3] at h
              simp only [asn1_ret.ok.injEq] at h
              obtain ⟨hv, hq⟩ := h
              subst hq
              obtain ⟨hp2, _, _⟩ := get_data_some p1 _ lb p2 hg3
              have hag1 : d1.take p1.offset = p.data.take p1.offset :=
                take_agree_le _ _ _ _ hag (by rw [hp2]; simp only; omega)
              rw [get_data_local p 1 d1 dst p1 hg hag1]
              dsimp only
              rw [if_pos hb, if_neg h0, if_neg h8, if_neg ha]
              have hd1 : p1.data = p.data := by rw [hp1]
              have hg4 := get_data_local p1 _ d1 lb p2 hg3 (by rw [hd1]; exact hag)
              rw [hg4]
              dsimp only
              rw [hv]
    · rename_i hb
      simp only [asn1_ret.ok.injEq] at h
      obtain ⟨hv, hq⟩ := h
      subst hq
      rw [get_data_local p 1 d1 dst p1 hg hag]
      dsimp only
      rw [if_neg hb, hv]

theorem get_length_assert_local (p : network_packet) (d1 : List UInt8)
    (h : network_asn1_proto_get_length p = .assert_failed)
    (hag : d1.take (p.offset + 1) = p.data.take (p.offset + 1)) :
    network_asn1_proto_get_length ⟨d1, p.offset⟩ = .assert_failed := by
  unfold network_asn1_proto_get_length at h ⊢
  cases hg : network_packet_get_data p 1 with
  | none =>
    rw [hg] at h
    simp at h
  | some x =>
    obtain ⟨dst, p1⟩ := x
    rw [hg] at h
    dsimp only at h
    obtain ⟨hp1, _, _⟩ := get_data_some p 1 dst p1 hg
    have hag1 : d1.take p1.offset = p.data.take p1.offset := by
      rw [hp1]
      exact hag
    rw [get_data_local p 1 d1 dst p1 hg hag1]
    dsimp only
    split at h
    · rename_i hb
      split at h
      · simp at h
      · rename_i h0
        split at h
        · simp at h
        · rename_i h8
          split at h
          · rename_i ha
            rw [if_pos hb, if_neg h0, if_neg h8, if_pos ha]
          · split at h <;> simp at h
    · simp at h

theorem get_header_local (p : network_packet) (d1 : List UInt8) (id : ASN1Identifier)
    (len : Nat) (q : network_packet)
    (h : network_asn1_proto_get_header p = .ok (id, len) q)
    (hag : d1.take q.offset = p.data.take q.offset) :
    network_asn1_proto_get_header ⟨d1, p.offset⟩ = .ok (id, len) ⟨d1, q.offset⟩ := by
  unfold network_asn1_proto_get_header at h ⊢
  cases hi : network_asn1_proto_get_id p with
  | assert_failed =>
    rw [hi] at h
    simp at h
  | fail e p1 =>
    rw [hi] at h
    simp at h
  | ok id1 p1 =>
    rw [hi] at h
    dsimp only at h
    have hpi := get_id_post p
    rw [hi] at hpi
    simp only [ret_post] at hpi
    cases hl : network_asn1_proto_get_length p1 with
    | assert_failed =>
      rw [hl] at h
      simp at h
    | fail e p2 =>
      rw [hl] at h
      simp at h
    | ok v p2 =>
      rw [hl] at h
      simp only [asn1_ret.ok.injEq, Prod.mk.injEq] at h
      obtain ⟨⟨hid, hv⟩, hq⟩ := h
      subst hq hid hv
      have hpl := get_length_post p1
      rw [hl] at hpl
      simp only [ret_post] at hpl
      have hag1 : d1.take p1.offset = p.data.take p1.offset :=
        take_agree_le _ _ _ _ hag (by omega)
      rw [get_id_local p d1 id1 p1 hi hag1]
      dsimp only
      rw [get_length_local p1 d1 v p2 hl (by rw [hpi.1]; exact hag)]

theorem get_header_assert_local (p : network_packet) (d1 : List UInt8)
    (h : network_asn1_proto_get_header p = .assert_failed)
    (hag : d1.take (p.offset + 2) = p.data.take (p.offset + 2)) :
    network_asn1_proto_get_header ⟨d1, p.offset⟩ = .assert_failed := by
  unfold network_asn1_proto_get_header at h ⊢
  cases hi : network_asn1_proto_get_id p with
  | assert_failed =>
    simp [network_asn1_proto_get_id] at hi
    split at hi
    · simp at hi
    · split at hi <;> simp at hi
  | fail e p1 =>
    rw [hi] at h
    simp at h
  | ok id1 p1 =>
    rw [hi] at h
    dsimp only at h
    have hpi := get_id_post p
    rw [hi] at hpi
    simp only [ret_post] at hpi
    have hag1 : d1.take p1.offset = p.data.take p1.offset :=
      take_agree_le _ _ _ _ hag (by omega)
    rw [get_id_local p d1 id1 p1 hi hag1]
    dsimp only
    cases hl : network_asn1_proto_get_length p1 with
    | assert_failed =>
      rw [get_length_assert_local p1 d1 hl (by rw [hpi.1, hpi.2.1]; exact hag)]
    | fail e p2 =>
      rw [hl] at h
      simp at h
    | ok v p2 =>
      rw [hl] at h
      simp at h

/-- The loop over `len` bytes gives the same on every view that holds the same
bytes up to the end of the `len` bytes. -/
theorem is_valid_while_local (d1 : List UInt8) (fuel : Nat) :
    ∀ (id : ASN1Identifier) (len : Nat) (p pf : network_packet),
      is_valid_while fuel id len p = some (.ok () pf) →
      p.offset + len ≤ p.data.length →
      d1.take (p.offset + len) = p.data.take (p.offset + len) →
      is_valid_while fuel id len ⟨d1, p.offset⟩ = some (.ok () ⟨d1, pf.offset⟩) := by
  induction fuel with
  | zero =>
    intro id len p pf h
    simp [is_valid_while] at h
  | succ f ih =>
    intro id len p pf h hb hag
    have hb1 := take_agree_length _ _ _ hag hb
    rw [is_valid_while] at h ⊢
    by_cases hl : len = 0
    · simp only [hl, if_true, Option.some.injEq, asn1_ret.ok.injEq, true_and] at h ⊢
      rw [← h]
    · simp only [hl, if_false] at h ⊢
      by_cases hn : is_nested id = true
      · simp only [hn, if_true] at h ⊢
        have hsub : (d1.drop p.offset).take len = (p.data.drop p.offset).take len :=
          drop_take_agree _ _ _ _ _ hag (Nat.le_refl _)
        rw [hsub]
        cases hr : network_asn1_is_valid_internal_fuel f
            { data := (p.data.drop p.offset).take len, offset := 0 } with
        | none =>
          rw [hr] at h
          simp at h
        | some r0 =>
          rw [hr] at h
          cases r0 with
          | assert_failed => simp at h
          | fail e p2 => simp at h
          | ok v sub =>
            dsimp only at h ⊢
            by_cases hle : sub.offset ≤ len
            · simp only [hle, not_true_eq_false, if_false] at h ⊢
              have hs : network_packet_skip p sub.offset =
                  (true, { p with offset := p.offset + sub.offset }) := by
                rw [skip_eq]
                have : p.offset + sub.offset ≤ p.data.length := by omega
                simp [this]
              have hs1 : network_packet_skip ⟨d1, p.offset⟩ sub.offset =
                  (true, ⟨d1, p.offset + sub.offset⟩) := by
                rw [skip_eq]
                have : p.offset + sub.offset ≤ d1.length := by omega
                simp [this]
              rw [hs] at h
              rw [hs1]
              dsimp only at h ⊢
              have hrec : ∀ pf1, is_valid_while f id (len - sub.offset)
                    { p with offset := p.offset + sub.offset } = some (.ok () pf1) →
                  is_valid_while f id (len - sub.offset) ⟨d1, p.offset + sub.offset⟩ =
                    some (.ok () ⟨d1, pf1.offset⟩) := by
                intro pf1 h1
                have e : p.offset + sub.offset + (len - sub.offset) = p.offset + len := by
                  omega
                exact ih id (len - sub.offset) { p with offset := p.offset + sub.offset } pf1 h1
                  (by simp only [e]; exact hb) (by simp only [e]; exact hag)
              by_cases hseq : is_sequence id = true
              · simp only [hseq, if_true] at h ⊢
                exact hrec pf h
              · simp only [hseq, Bool.false_eq_true, if_false] at h ⊢
                by_cases hl1 : len - sub.offset = 0
                · simp only [hl1, ne_eq, not_true_eq_false, if_false] at h ⊢
                  rw [hl1] at hrec
                  exact hrec pf h
                · simp only [hl1, ne_eq, not_false_eq_true, if_true] at h
                  simp at h
            · simp only [hle, not_false_eq_true, if_true] at h
              simp at h
      · simp only [hn, Bool.false_eq_true, if_false] at h ⊢
        have hs : network_packet_skip p len = (true, { p with offset := p.offset + len }) := by
          rw [skip_eq]
          simp [hb]
        have hs1 : network_packet_skip ⟨d1, p.offset⟩ len = (true, ⟨d1, p.offset + len⟩) := by
          rw [skip_eq]
          simp [hb1]
        rw [hs] at h
        rw [hs1]
        dsimp only at h ⊢
        exact ih id 0 { p with offset := p.offset + len } pf h (by simp only; omega)
          (by simpa only [Nat.add_zero] using hag)

/-- The walk gives the same on every view that holds the same bytes up to the end
of the element. -/
theorem is_valid_fuel_local (d1 : List UInt8) (fuel : Nat) (p pf : network_packet)
    (h : network_asn1_is_valid_internal_fuel fuel p = some (.ok () pf))
    (hag : d1.take pf.offset = p.data.take pf.offset) :
    network_asn1_is_valid_internal_fuel fuel ⟨d1, p.offset⟩ = some (.ok () ⟨d1, pf.offset⟩) := by
  obtain ⟨id, len, ph, f, hf, hh, hd, ho, hm, hw, hd1, hoff, hle⟩ := is_valid_fuel_ok fuel p pf h
  subst hf
  have hb := (has_more_data_iff ph len).1 hm
  have hagh : d1.take ph.offset = p.data.take ph.offset :=
    take_agree_le _ _ _ _ hag (by omega)
  have hlen1 := take_agree_length _ _ _ hag hle
  rw [network_asn1_is_valid_internal_fuel, get_header_local p d1 id len ph hh hagh]
  have hm1 : network_packet_has_more_data ⟨d1, ph.offset⟩ len = true := by
    rw [has_more_data_iff]
    simp only
    omega
  simp only [hm1, Bool.not_true, Bool.false_eq_true, if_false]
  exact is_valid_while_local d1 f id len ph pf hw hb
    (by rw [hd, ← hoff]; exact hag)

theorem get_header_assert_length (p : network_packet)
    (h : network_asn1_proto_get_header p = .assert_failed) :
    p.offset + 2 ≤ p.data.length := by
  unfold network_asn1_proto_get_header at h
  cases hi : network_asn1_proto_get_id p with
  | assert_failed =>
    simp [network_asn1_proto_get_id] at hi
    split at hi
    · simp at hi
    · split at hi <;> simp at hi
  | fail e p1 =>
    rw [hi] at h
    simp at h
  | ok id1 p1 =>
    rw [hi] at h
    dsimp only at h
    have hpi := get_id_post p
    rw [hi] at hpi
    simp only [ret_post] at hpi
    cases hl : network_asn1_proto_get_length p1 with
    | fail e p2 =>
      rw [hl] at h
      simp at h
    | ok v p2 =>
      rw [hl] at h
      simp at h
    | assert_failed =>
      unfold network_asn1_proto_get_length at hl
      cases hg : network_packet_get_data p1 1 with
      | none =>
        rw [hg] at hl
        simp at hl
      | some x =>
        obtain ⟨dst, p2⟩ := x
        obtain ⟨_, hle, _⟩ := get_data_some p1 1 dst p2 hg
        rw [hpi.1, hpi.2.1] at hle
        exact hle

/-- C39: when `network_asn1_is_valid` succeeds on a view, the element at the
cursor ends at some offset `n` of the view, and (a) on every view that holds the
bytes up to `n` followed by any other bytes it succeeds as well, so it does not
ask for the whole view to be consumed; (b) on every view that is cut off before
`n`, so that it holds a strict prefix of the bytes of the element, it fails with
an error. -/
theorem validate_reads_first_element (packet : network_packet)
    (h : network_asn1_is_valid packet = some (.ok () packet)) :
    ∃ n, packet.offset + 2 ≤ n ∧ n ≤ packet.data.length ∧
      network_asn1_is_valid_internal packet = some (.ok () ⟨packet.data, n⟩) ∧
      (∀ extra : List UInt8,
        network_asn1_is_valid ⟨packet.data.take n ++ extra, packet.offset⟩ =
          some (.ok () ⟨packet.data.take n ++ extra, packet.offset⟩)) ∧
      (∀ k, k < n →
        ∃ e, network_asn1_is_valid ⟨packet.data.take k, packet.offset⟩ =
          some (.fail e ⟨packet.data.take k, packet.offset⟩)) := by
  obtain ⟨r, hr, _⟩ := is_valid_internal_total packet
  cases r with
  | assert_failed => simp [network_asn1_is_valid, hr] at h
  | fail e p2 => simp [network_asn1_is_valid, hr] at h
  | ok v p1 =>
    obtain ⟨id, len, ph, f, hf, hh, hdh, ho, hm, hw, hd1, hoff, hle⟩ :=
      is_valid_fuel_ok _ packet p1 hr
    have hp1 : p1 = ⟨packet.data, p1.offset⟩ := by
      cases p1
      simp only at hd1
      simp [hd1]
    refine ⟨p1.offset, by omega, hle, by rw [hr, ← hp1], ?_, ?_⟩
    · intro extra
      have hag : (packet.data.take p1.offset ++ extra).take p1.offset =
          packet.data.take p1.offset := by
        rw [List.take_append_of_le_length (by simp only [List.length_take]; omega),
          List.take_take, Nat.min_self]
      have hloc := is_valid_fuel_local (packet.data.take p1.offset ++ extra) _ packet p1 hr hag
      obtain ⟨r1, hr1, _⟩ :=
        is_valid_internal_total ⟨packet.data.take p1.offset ++ extra, packet.offset⟩
      have e := is_valid_fuel_unique _ _ _ _ _ hr1 hloc
      subst e
      simp only [network_asn1_is_valid, hr1]
    · intro k hk
      have hkl : (packet.data.take k).length ≤ k := by
        simp only [List.length_take]
        omega
      have hint : ∃ e q, network_asn1_is_valid_internal ⟨packet.data.take k, packet.offset⟩ =
          some (.fail e q) ∧ q.data = packet.data.take k := by
        unfold network_asn1_is_valid_internal
        rw [network_asn1_is_valid_internal_fuel]
        have hpost := get_header_post ⟨packet.data.take k, packet.offset⟩
        cases hk1 : network_asn1_proto_get_header ⟨packet.data.take k, packet.offset⟩ with
        | assert_failed =>
          have hlen := get_header_assert_length _ hk1
          simp only at hlen
          have hag : packet.data.take (packet.offset + 2) =
              (packet.data.take k).take (packet.offset + 2) := by
            rw [List.take_take]
            have e : min (packet.offset + 2) k = packet.offset + 2 := by omega
            rw [e]
          have hc := get_header_assert_local _ packet.data hk1 hag
          simp only at hc
          rw [hh] at hc
          simp at hc
        | fail e q =>
          rw [hk1] at hpost
          exact ⟨e, q, rfl, hpost⟩
        | ok v1 ph1 =>
          obtain ⟨id1, len1⟩ := v1
          rw [hk1] at hpost
          simp only [ret_post] at hpost
          have hag : packet.data.take ph1.offset =
              (packet.data.take k).take ph1.offset := by
            rw [List.take_take]
            have e : min ph1.offset k = ph1.offset := by omega
            rw [e]
          have hc := get_header_local _ packet.data id1 len1 ph1 hk1 hag
          simp only at hc
          rw [hh] at hc
          simp only [asn1_ret.ok.injEq, Prod.mk.injEq] at hc
          obtain ⟨⟨_, hlen⟩, hph⟩ := hc
          have hm1 : network_packet_has_more_data ph1 len1 = false := by
            apply has_more_data_false
            rw [has_more_data_iff, hpost.1]
            rw [hph] at hoff
            simp only at hoff
            omega
          dsimp only
          simp only [hm1, Bool.not_false, if_true]
          exact ⟨.INVALID, ph1, rfl, hpost.1⟩
      obtain ⟨e, q, hq, hqd⟩ := hint
      refine ⟨e, ?_⟩
      simp only [network_asn1_is_valid, hq]
      cases q
      simp only at hqd
      simp [hqd]

/-- C39, at the bytes `30 06 02 01 01 02 01 02`: the element ends at 8, so the
view that holds two more bytes validates, and the one cut off after 7 bytes
does not. -/
theorem validate_reads_first_element_witness :
    ∃ n, (0 : Nat) + 2 ≤ n ∧ n ≤ 8 ∧
      network_asn1_is_valid_internal ⟨[0x30, 0x06, 0x02, 0x01, 0x01, 0x02, 0x01, 0x02], 0⟩ =
        some (.ok () ⟨[0x30, 0x06, 0x02, 0x01, 0x01, 0x02, 0x01, 0x02], n⟩) :=
  match validate_reads_first_element ⟨[0x30, 0x06, 0x02, 0x01, 0x01, 0x02, 0x01, 0x02], 0⟩
    (by decide) with
  | ⟨n, h1, h2, h3, _, _⟩ => ⟨n, h1, h2, h3⟩

end Proxy
